import Mathlib

/-! K-means clustering engine (`kmeans-parallel.cpp`).

A shallow embedding of the classes `Point`, `Cluster` and `KMeans`, and the properties of
the operations of `Point`, of `Cluster::addPoint`, `Cluster::removePoint`,
`KMeans::getIDNearestCenter` and of `KMeans::run` and its phases proved about it.

Conventions of the embedding.

* A stored `double` (a coordinate, a centroid component) is a rational (`ℚ`), and
  `numeric_limits<double>::max()` is the rational constant `DBL_MAX`; `IsDouble q` says that
  the rational `q` is a value of the binary64 format.
* The arithmetic on `double` is embedded twice. In the methods of the namespace `KMeans`
  sums, products and quotients are exact, and a division by zero, whose result no rational
  stands for, is the fault `Fault.divisionByZero`. In the methods of the namespace `IEEE`
  every sum, difference, product and quotient is an operation of IEEE 754 binary64 (type
  `Dbl`): rounded to nearest, ties to even, with subnormal numbers, overflow to an infinity
  and NaN, each operation rounded on its own (no fused multiply-add, no wider intermediate
  format); the two zeros are one value; a recomputed centroid component that is an infinity
  or a NaN ends the execution in `Fault.notFinite`.
* The statements about the bookkeeping of points and clusters, the indices, the chosen seeds
  and the iteration count, and those about runs whose arithmetic is exact in binary64, are
  about the exact methods. The statements whose truth depends on rounding, overflow or
  underflow (what the nearest-center search returns, points with the same coordinates, as
  many clusters as points) are about the methods in binary64.
* `int` values are unbounded integers (`Int`). A `std::vector` is a `List`, and an indexed
  access `v[i]` outside `0 ≤ i < v.size()` is the fault `Fault.indexOutOfRange`.
* `rand()` is an explicit finite stream of draws; a `while (true)` that asks for a draw when
  the stream is used up ends in `Fault.randExhausted`.
* The `tbb::parallel_for` over the clusters inside `getIDNearestCenter` is described by a
  schedule: one list of cluster indices per worker, in the order the worker visits them, the
  workers listed in the order in which the loop over the `enumerable_thread_specific`
  enumerates their pairs.
* The `tbb::parallel_for` over the points and the one over the clusters inside `run` are
  executed in ascending index order, one index after the other.
* `run` is embedded up to the end of its convergence loop; what it leaves behind is the
  engine, the caller's points, the iteration count, and a ghost trace of the states at the
  phase boundaries.
-/

/-- Ways in which an execution leaves the defined behaviour of the program. -/
inductive Fault where
  | indexOutOfRange
  | divisionByZero
  | randExhausted
  | notFinite
  deriving DecidableEq, Repr

/-- The read `v[i]` of a `std::vector` with an `int` index. -/
def vecGet {α : Type} (v : List α) (i : Int) : Except Fault α :=
  if 0 ≤ i then
    match v[i.toNat]? with
    | some x => Except.ok x
    | none => Except.error Fault.indexOutOfRange
  else Except.error Fault.indexOutOfRange

/-- The write `v[i] = x` of a `std::vector` with an `int` index. -/
def vecSet {α : Type} (v : List α) (i : Int) (x : α) : Except Fault (List α) :=
  if 0 ≤ i ∧ i.toNat < v.length then Except.ok (v.set i.toNat x)
  else Except.error Fault.indexOutOfRange

/-- The constant `numeric_limits<double>::max()`: `(2 - 2^(-52)) * 2^1023`. -/
def DBL_MAX : ℚ := (2 ^ 53 - 1) * 2 ^ 971

/-! ## class Point -/

/-- The fields of `class Point`. -/
structure Point where
  id_point : Int
  id_cluster : Int
  values : List ℚ
  total_values : Int
  name : String
  deriving DecidableEq, Repr

/-- The constructor `Point(id_point, values, name)`: the coordinates are copied one by one,
`total_values` is `values.size()` and the point starts unassigned (`id_cluster = -1`). -/
def Point.new (id_point : Int) (values : List ℚ) (name : String) : Point :=
  { id_point := id_point
    id_cluster := -1
    values := values
    total_values := (values.length : Int)
    name := name }

def Point.getID (p : Point) : Int := p.id_point

def Point.setCluster (p : Point) (id_cluster : Int) : Point :=
  { p with id_cluster := id_cluster }

def Point.getCluster (p : Point) : Int := p.id_cluster

def Point.getValue (p : Point) (index : Int) : Except Fault ℚ := vecGet p.values index

def Point.getTotalValues (p : Point) : Int := p.total_values

def Point.addValue (p : Point) (value : ℚ) : Point :=
  { p with values := p.values ++ [value] }

def Point.getName (p : Point) : String := p.name

/-! ## class Cluster -/

/-- The fields of `class Cluster` (the mutex guards `points` and carries no data). -/
structure Cluster where
  id_cluster : Int
  central_values : List ℚ
  points : List Point
  deriving DecidableEq, Repr

/-- The loop `for (i = 0; i < total_values; i++) central_values.push_back(point.getValue(i))`
of the constructor, over the indices still to visit. -/
def Cluster.copyValues (point : Point) : List Nat → Except Fault (List ℚ)
  | [] => pure []
  | i :: rest => do
    let v ← point.getValue (i : Int)
    let vs ← Cluster.copyValues point rest
    pure (v :: vs)

/-- The constructor `Cluster(id_cluster, point)`. -/
def Cluster.new (id_cluster : Int) (point : Point) : Except Fault Cluster := do
  let total_values := point.getTotalValues
  let central_values ← Cluster.copyValues point (List.range total_values.toNat)
  pure { id_cluster := id_cluster, central_values := central_values, points := [point] }

def Cluster.addPoint (c : Cluster) (point : Point) : Cluster :=
  { c with points := c.points ++ [point] }

/-- The scan of `removePoint`: the first index `i` with `points[i].getID() == id_point`. -/
def Cluster.firstIndex (id_point : Int) : List Point → Option Nat
  | [] => none
  | p :: rest =>
    if p.getID = id_point then some 0
    else (Cluster.firstIndex id_point rest).map (fun i => i + 1)

/-- The method `removePoint`: the returned flag and the cluster afterwards. -/
def Cluster.removePoint (c : Cluster) (id_point : Int) : Bool × Cluster :=
  match Cluster.firstIndex id_point c.points with
  | some i => (true, { c with points := c.points.eraseIdx i })
  | none => (false, c)

def Cluster.getCentralValue (c : Cluster) (index : Int) : Except Fault ℚ :=
  vecGet c.central_values index

def Cluster.setCentralValue (c : Cluster) (index : Int) (value : ℚ) : Except Fault Cluster := do
  let central_values ← vecSet c.central_values index value
  pure { c with central_values := central_values }

def Cluster.getPoint (c : Cluster) (index : Int) : Except Fault Point := vecGet c.points index

def Cluster.getTotalPoints (c : Cluster) : Int := (c.points.length : Int)

def Cluster.getID (c : Cluster) : Int := c.id_cluster

/-! ## Loops -/

/-- The loop `for (i = ...; ...; i++) body` over the indices still to visit, threading the
state the body updates; a fault in the body ends the loop. -/
def forLoopFrom {σ : Type} (body : Nat → σ → Except Fault σ) : List Nat → σ → Except Fault σ
  | [], s => pure s
  | i :: rest, s => do
    let s1 ← body i s
    forLoopFrom body rest s1

/-- The loop `for (int i = 0; i < n; i++) body`. -/
def forLoop {σ : Type} (n : Int) (body : Nat → σ → Except Fault σ) (s : σ) : Except Fault σ :=
  forLoopFrom body (List.range n.toNat) s

/-- The division `sum / n` of a `double` by an `int`, in exact arithmetic (`Dbl.divInt` is
the division of binary64). A division by zero yields an infinity or a NaN, which no rational
stands for: the embedding records it as a fault. -/
def divDouble (sum : ℚ) (n : Int) : Except Fault ℚ :=
  if n = 0 then Except.error Fault.divisionByZero else Except.ok (sum / (n : ℚ))

/-! ## class KMeans -/

/-- The fields of `class KMeans`. -/
structure KMeans where
  K : Int
  total_values : Int
  total_points : Int
  max_iterations : Int
  clusters : List Cluster
  deriving DecidableEq, Repr

/-- The constructor `KMeans(K, total_points, total_values, max_iterations)`. -/
def KMeans.new (K total_points total_values max_iterations : Int) : KMeans :=
  { K := K
    total_values := total_values
    total_points := total_points
    max_iterations := max_iterations
    clusters := [] }

/-- One round of the loop over `j` in `getIDNearestCenter`, in exact arithmetic
(`IEEE.distStep` is the round in binary64):
`diff = clusters[i]->getCentralValue(j) - point.getValue(j); sum += diff * diff`. -/
def KMeans.distStep (km : KMeans) (point : Point) (i : Nat) (j : Nat) (sum : ℚ) :
    Except Fault ℚ := do
  let c ← vecGet km.clusters (i : Int)
  let cv ← c.getCentralValue (j : Int)
  let pv ← point.getValue (j : Int)
  let diff := cv - pv
  pure (sum + diff * diff)

/-- The body of the `parallel_for` of `getIDNearestCenter` for cluster index `i`, run by a
worker whose thread-local pair is `local_data`. -/
def KMeans.visit (km : KMeans) (point : Point) (i : Nat) (local_data : ℚ × Int) :
    Except Fault (ℚ × Int) := do
  let sum ← forLoop km.total_values (km.distStep point i) 0
  pure (if sum < local_data.1 then (sum, (i : Int)) else local_data)

/-- The thread-local pairs after the `parallel_for`: each worker starts from
`(numeric_limits<double>::max(), 0)` and visits its indices in order. -/
def KMeans.localMins (km : KMeans) (point : Point) :
    List (List Nat) → Except Fault (List (ℚ × Int))
  | [] => pure []
  | w :: ws => do
    let m ← forLoopFrom (km.visit point) w (DBL_MAX, 0)
    let ms ← KMeans.localMins km point ws
    pure (m :: ms)

/-- The sequential loop over `local_min` that keeps `(min_dist, id_cluster_center)`. -/
def KMeans.combine : List (ℚ × Int) → ℚ × Int → ℚ × Int
  | [], best => best
  | local_data :: rest, best =>
    KMeans.combine rest (if local_data.1 < best.1 then local_data else best)

/-- The method `getIDNearestCenter` under the schedule `sched` of its `parallel_for`. -/
def KMeans.getIDNearestCenter (km : KMeans) (sched : List (List Nat)) (point : Point) :
    Except Fault Int := do
  let local_min ← km.localMins point sched
  pure (KMeans.combine local_min (DBL_MAX, 0)).2

/-- A schedule of `parallel_for(0, K, ...)`: every index of `0 .. K-1` is visited once. -/
def KMeans.ValidSchedule (km : KMeans) (sched : List (List Nat)) : Prop :=
  List.Perm sched.flatten (List.range km.K.toNat)

/-- The schedule of a single worker that visits the clusters in ascending order. -/
def KMeans.sequential (km : KMeans) : List (List Nat) := [List.range km.K.toNat]

/-! ### Initialization -/

/-- The variables the initialization of `run` updates. -/
structure InitState where
  rand : List Nat
  prohibited_indexes : List Int
  clusters : List Cluster
  points : List Point
  deriving DecidableEq, Repr

/-- The `while (true)` of the initialization for cluster `i`: draws are taken from the stream
until `rand() % total_points` names a point that is not prohibited (a draw is a value of
`rand()`, so it is not negative; the remainder by zero is a fault). -/
def KMeans.chooseCenter (km : KMeans) (i : Int) (prohibited_indexes : List Int)
    (clusters : List Cluster) (points : List Point) : List Nat → Except Fault InitState
  | [] => Except.error Fault.randExhausted
  | r :: rand =>
    if km.total_points = 0 then Except.error Fault.divisionByZero
    else
      let index_point : Int := (r : Int) % km.total_points
      if index_point ∈ prohibited_indexes then
        KMeans.chooseCenter km i prohibited_indexes clusters points rand
      else do
        let p ← vecGet points index_point
        let points1 ← vecSet points index_point (p.setCluster i)
        let p1 ← vecGet points1 index_point
        let c ← Cluster.new i p1
        pure { rand := rand
               prohibited_indexes := prohibited_indexes ++ [index_point]
               clusters := clusters ++ [c]
               points := points1 }

/-- The loop `for (int i = 0; i < K; i++)` of the initialization. -/
def KMeans.initialize (km : KMeans) (rand : List Nat) (points : List Point) :
    Except Fault InitState :=
  forLoop km.K
    (fun i s => km.chooseCenter (i : Int) s.prohibited_indexes s.clusters s.points s.rand)
    { rand := rand, prohibited_indexes := [], clusters := km.clusters, points := points }

/-! ### Assignment phase -/

/-- The variables the assignment phase updates. -/
structure PhaseState where
  clusters : List Cluster
  points : List Point
  done : Bool
  deriving DecidableEq, Repr

/-- The statement `if (id_old_cluster != -1) clusters[id_old_cluster]->removePoint(id)`. -/
def KMeans.leaveOld (clusters : List Cluster) (id_old_cluster : Int) (id_point : Int) :
    Except Fault (List Cluster) :=
  if id_old_cluster ≠ -1 then do
    let c ← vecGet clusters id_old_cluster
    vecSet clusters id_old_cluster (c.removePoint id_point).2
  else pure clusters

/-- The statement `clusters[id_nearest_center]->addPoint(point)`. -/
def KMeans.joinNearest (clusters : List Cluster) (id_nearest_center : Int) (point : Point) :
    Except Fault (List Cluster) := do
  let c ← vecGet clusters id_nearest_center
  vecSet clusters id_nearest_center (c.addPoint point)

/-- The body of the `parallel_for` over the points, for point index `i`; `sched` is the
schedule of the nearest-center search made for this point. -/
def KMeans.assignPoint (km : KMeans) (sched : List (List Nat)) (i : Nat) (s : PhaseState) :
    Except Fault PhaseState := do
  let p ← vecGet s.points (i : Int)
  let id_old_cluster := p.getCluster
  let id_nearest_center ←
    KMeans.getIDNearestCenter { km with clusters := s.clusters } sched p
  if id_old_cluster ≠ id_nearest_center then do
    let clusters1 ← KMeans.leaveOld s.clusters id_old_cluster p.getID
    let points1 ← vecSet s.points (i : Int) (p.setCluster id_nearest_center)
    let p1 ← vecGet points1 (i : Int)
    let clusters2 ← KMeans.joinNearest clusters1 id_nearest_center p1
    pure { clusters := clusters2, points := points1, done := false }
  else pure s

/-- The assignment phase: `bool done = true;` and the `parallel_for` over the points;
`sched i` is the schedule of the nearest-center search of point `i`. -/
def KMeans.assignPhase (km : KMeans) (sched : Nat → List (List Nat)) (points : List Point) :
    Except Fault PhaseState :=
  forLoop km.total_points (fun i s => km.assignPoint (sched i) i s)
    { clusters := km.clusters, points := points, done := true }

/-! ### Centroid recompute phase -/

/-- One round of `for (p ...) sum += clusters[i]->getPoint(p).getValue(j)`, in exact arithmetic
(`IEEE.sumStep` is the round in binary64). -/
def KMeans.sumStep (clusters : List Cluster) (i j : Nat) (p : Nat) (sum : ℚ) :
    Except Fault ℚ := do
  let c ← vecGet clusters (i : Int)
  let q ← c.getPoint (p : Int)
  let v ← q.getValue (j : Int)
  pure (sum + v)

/-- The body of the loop over the dimensions `j` for cluster `i`. -/
def KMeans.recomputeValue (i : Nat) (j : Nat) (clusters : List Cluster) :
    Except Fault (List Cluster) := do
  let c ← vecGet clusters (i : Int)
  let total_points_cluster := c.getTotalPoints
  if total_points_cluster > 0 then do
    let sum ← forLoop total_points_cluster (KMeans.sumStep clusters i j) 0
    let mean ← divDouble sum total_points_cluster
    let c1 ← c.setCentralValue (j : Int) mean
    vecSet clusters (i : Int) c1
  else pure clusters

/-- The body of the `parallel_for` over the clusters: the loop over the dimensions. -/
def KMeans.recomputeCluster (km : KMeans) (i : Nat) (clusters : List Cluster) :
    Except Fault (List Cluster) :=
  forLoop km.total_values (KMeans.recomputeValue i) clusters

/-- The centroid recompute phase. -/
def KMeans.recomputePhase (km : KMeans) : Except Fault (List Cluster) :=
  forLoop km.K km.recomputeCluster km.clusters

/-! ### The convergence loop and `run` -/

/-- The phase boundaries of a run. -/
inductive Phase where
  | initialization
  | assignment
  | recompute
  deriving DecidableEq, Repr

/-- The observable state at a phase boundary: which phase has just ended, in which iteration,
and the clusters and points at that moment. -/
structure Snapshot where
  phase : Phase
  iter : Int
  clusters : List Cluster
  points : List Point
  deriving DecidableEq, Repr

/-- What `run` leaves behind when the convergence loop has ended: the engine, the caller's
points, the iteration count that is reported, the flag `done` of the last assignment phase,
and (ghost) the snapshots of all phase boundaries, oldest first. -/
structure RunResult where
  km : KMeans
  points : List Point
  iter : Int
  done : Bool
  trace : List Snapshot
  deriving DecidableEq, Repr

/-- The `while (true)` of `run`, entered with iteration count `iter`; `sched iter i` is the
schedule of the nearest-center search of point `i` in iteration `iter`. The phases write the
field `clusters` only. -/
def KMeans.loop (km : KMeans) (sched : Int → Nat → List (List Nat)) (points : List Point)
    (iter : Int) (trace : List Snapshot) : Except Fault RunResult := do
  let s ← km.assignPhase (sched iter) points
  let km1 : KMeans := { km with clusters := s.clusters }
  let clusters2 ← km1.recomputePhase
  let km2 : KMeans := { km with clusters := clusters2 }
  let trace2 := trace ++
    [ { phase := Phase.assignment, iter := iter, clusters := s.clusters, points := s.points },
      { phase := Phase.recompute, iter := iter, clusters := clusters2, points := s.points } ]
  if h : s.done = true ∨ iter ≥ km.max_iterations then
    pure { km := km2, points := s.points, iter := iter, done := s.done, trace := trace2 }
  else
    KMeans.loop km2 sched s.points (iter + 1) trace2
termination_by (km.max_iterations - iter).toNat
decreasing_by
  simp only [not_or, ge_iff_le, not_le] at h
  omega

/-- How a call of `run` ends. -/
inductive Outcome where
  | returnedEarly (km : KMeans) (points : List Point)
  | completed (r : RunResult)
  deriving DecidableEq, Repr

/-- The method `run`, up to the end of the convergence loop (the printing of the clusters
and of the timings that follows reads the final state and is not part of the embedding). -/
def KMeans.run (km : KMeans) (rand : List Nat) (sched : Int → Nat → List (List Nat))
    (points : List Point) : Except Fault Outcome :=
  if km.K > km.total_points then
    pure (Outcome.returnedEarly km points)
  else do
    let s ← km.initialize rand points
    let km1 : KMeans := { km with clusters := s.clusters }
    let r ← km1.loop sched s.points 1
      [ { phase := Phase.initialization, iter := 0, clusters := s.clusters, points := s.points } ]
    pure (Outcome.completed r)

/-! ## Notions the statements use -/

/-! ### The nearest-center search -/

/-- The squared Euclidean distance of two coordinate vectors: the sum over the dimensions of
the squared component differences. -/
def sqDist (a b : List ℚ) : ℚ :=
  (List.zipWith (fun x y => (x - y) * (x - y)) a b).sum

/-- The squared distance from `point` to the centroid of cluster `i`. -/
def KMeans.dist (km : KMeans) (point : Point) (i : Nat) : ℚ :=
  match km.clusters[i]? with
  | some c => sqDist c.central_values point.values
  | none => 0

/-- The comparison both reductions of `getIDNearestCenter` make: the candidate replaces the
kept pair when its distance is strictly smaller. -/
def KMeans.keep (best cand : ℚ × Int) : ℚ × Int :=
  if cand.1 < best.1 then cand else best

/-- The pair `(squared distance, id)` a visit of cluster `i` compares with the kept pair. -/
def KMeans.cand (km : KMeans) (point : Point) (i : Nat) : ℚ × Int :=
  (km.dist point i, (i : Int))

/-- A single sequential scan of the clusters `order` with the strict comparison, started
from `(numeric_limits<double>::max(), 0)`. -/
def KMeans.scan (km : KMeans) (point : Point) (order : List Nat) : ℚ × Int :=
  (order.map (km.cand point)).foldl KMeans.keep (DBL_MAX, 0)

/-- The clusters and the point have the shape `getIDNearestCenter` relies on: there are `K`
clusters, and every centroid and the point have `total_values` coordinates. -/
def KMeans.SearchReady (km : KMeans) (point : Point) : Prop :=
  km.clusters.length = km.K.toNat ∧
  (∀ c ∈ km.clusters, c.central_values.length = km.total_values.toNat) ∧
  point.values.length = km.total_values.toNat

/-! ### The recompute phase -/

/-- The first `j` entries of `a` followed by the entries of `b` from position `j` on. -/
def mixAt {α : Type} (a b : List α) (j : Nat) : List α := a.take j ++ b.drop j

/-- The arithmetic mean of coordinate `j` over the members of a cluster: the sum of the
coordinate over all members divided by the member count. -/
def Cluster.mean (c : Cluster) (j : Nat) : ℚ :=
  (c.points.map (fun q => q.values.getD j 0)).sum / (c.points.length : ℚ)

/-- A cluster whose centroid has been recomputed in `d` dimensions: unchanged when it has no
member, else every centroid component is the mean of its members. -/
def Cluster.recenter (d : Nat) (c : Cluster) : Cluster :=
  if c.points.length = 0 then c
  else { c with central_values := (List.range d).map c.mean }

/-- A cluster in the middle of the loop over the dimensions: the first `j` centroid
components are already the means. -/
def Cluster.recenterUpTo (d : Nat) (c : Cluster) (j : Nat) : Cluster :=
  { c with central_values := mixAt ((List.range d).map c.mean) c.central_values j }

/-- `K` clusters whose centroids and members all have `total_values` coordinates: what the
recompute phase relies on. -/
def KMeans.ClustersReady (km : KMeans) (cs : List Cluster) : Prop :=
  cs.length = km.K.toNat ∧
  (∀ c ∈ cs, c.central_values.length = km.total_values.toNat) ∧
  (∀ c ∈ cs, ∀ q ∈ c.points, q.values.length = km.total_values.toNat)

/-- Every centroid is already what the recompute phase would make it. -/
def KMeans.Centered (km : KMeans) (cs : List Cluster) : Prop :=
  cs.map (Cluster.recenter km.total_values.toNat) = cs

/-! ### The bookkeeping of memberships -/

/-- How many members of the cluster have the id. -/
def Cluster.countID (c : Cluster) (id : Int) : Nat := (c.points.map Point.getID).count id

/-- What one step of the assignment phase does to cluster `t` when the point `p1` (already
tagged with its new cluster) leaves cluster `old` for cluster `near`. -/
def Cluster.moved (old : Int) (near : Nat) (p1 : Point) (t : Nat) (c : Cluster) : Cluster :=
  let c1 := if (t : Int) = old then (c.removePoint p1.getID).2 else c
  if t = near then c1.addPoint p1 else c1

/-- The caller's points have the shape the phases rely on: there are `total_points` of them,
each has `total_values` coordinates, and each tag is `-1` or the id of a cluster. -/
def KMeans.PointsReady (km : KMeans) (pts : List Point) : Prop :=
  pts.length = km.total_points.toNat ∧
  (∀ p ∈ pts, p.values.length = km.total_values.toNat) ∧
  (∀ p ∈ pts, p.getCluster = -1 ∨ (0 ≤ p.getCluster ∧ p.getCluster < km.K))

/-- The bookkeeping of memberships: the point ids are unique; the id of a point occurs once
in the member list of the cluster its tag names and in no other member list (so in none when
the point is unassigned); every member of a cluster is one of the points. -/
def MembersConsistent (cs : List Cluster) (pts : List Point) : Prop :=
  (pts.map Point.getID).Nodup ∧
  (∀ (j : Nat) (p : Point), pts[j]? = some p → ∀ (t : Nat) (c : Cluster), cs[t]? = some c →
    c.countID p.getID = if p.getCluster = (t : Int) then 1 else 0) ∧
  (∀ c ∈ cs, ∀ q ∈ c.points, q.getID ∈ pts.map Point.getID)

/-- Every point is tagged with the id of a cluster. -/
def KMeans.AllAssigned (km : KMeans) (pts : List Point) : Prop :=
  ∀ p ∈ pts, 0 ≤ p.getCluster ∧ p.getCluster < km.K

/-- Every point is in exactly one cluster, the one its tag names: the tag is the index of a
cluster whose member list holds the id of the point, no other member list holds it, and every
member of every cluster is one of the points. -/
def Partitioned (cs : List Cluster) (pts : List Point) : Prop :=
  (∀ p ∈ pts, ∃ (t : Nat) (c : Cluster), p.getCluster = (t : Int) ∧ cs[t]? = some c ∧
    p.getID ∈ c.points.map Point.getID ∧
    ∀ (u : Nat) (c1 : Cluster), cs[u]? = some c1 → u ≠ t →
      p.getID ∉ c1.points.map Point.getID) ∧
  (∀ c ∈ cs, ∀ q ∈ c.points, q.getID ∈ pts.map Point.getID)

/-- The weaker bookkeeping that holds from the initialization on: a point is either
unassigned (tag `-1`) and in no member list, or in exactly the cluster its tag names; every
member of every cluster is one of the points. -/
def SeedsPartitioned (cs : List Cluster) (pts : List Point) : Prop :=
  (∀ p ∈ pts, (p.getCluster = -1 ∧ ∀ c ∈ cs, p.getID ∉ c.points.map Point.getID) ∨
    ∃ (t : Nat) (c : Cluster), p.getCluster = (t : Int) ∧ cs[t]? = some c ∧
      p.getID ∈ c.points.map Point.getID ∧
      ∀ (u : Nat) (c1 : Cluster), cs[u]? = some c1 → u ≠ t →
        p.getID ∉ c1.points.map Point.getID) ∧
  (∀ c ∈ cs, ∀ q ∈ c.points, q.getID ∈ pts.map Point.getID)

/-! ### Runs -/

/-- The cluster the constructor builds from a seed point whose `total_values` is its
coordinate count: the centroid is the point's coordinates, the point is the only member. -/
def Cluster.ofSeed (id_cluster : Int) (point : Point) : Cluster :=
  { id_cluster := id_cluster, central_values := point.values, points := [point] }

/-- The input of `run` as `main` builds it: a new engine (no cluster yet) with
`1 ≤ K ≤ total_points`, exactly `total_points` points, each constructed with exactly
`total_values` coordinates and still unassigned, and pairwise different point ids. -/
def KMeans.FreshInput (km : KMeans) (points : List Point) : Prop :=
  km.clusters = [] ∧ 1 ≤ km.K ∧ km.K ≤ km.total_points ∧
  (points.length : Int) = km.total_points ∧
  (∀ p ∈ points, (p.values.length : Int) = km.total_values ∧
    p.getTotalValues = km.total_values ∧ p.getCluster = -1) ∧
  (points.map Point.getID).Nodup

/-- What holds in the middle of the initialization, when `k` centers have been chosen. -/
def KMeans.InitOK (km : KMeans) (k : Nat) (s : InitState) : Prop :=
  s.clusters.length = k ∧
  (∀ c ∈ s.clusters, c.central_values.length = km.total_values.toNat) ∧
  (∀ c ∈ s.clusters, ∀ q ∈ c.points, q.values.length = km.total_values.toNat) ∧
  s.points.length = km.total_points.toNat ∧
  (∀ p ∈ s.points, p.values.length = km.total_values.toNat ∧
    p.getTotalValues.toNat = km.total_values.toNat) ∧
  (∀ p ∈ s.points, p.getCluster = -1 ∨ (0 ≤ p.getCluster ∧ p.getCluster < (k : Int))) ∧
  MembersConsistent s.clusters s.points ∧
  (∀ (j : Nat) (p : Point), s.points[j]? = some p → (j : Int) ∉ s.prohibited_indexes →
    p.getCluster = -1) ∧
  km.Centered s.clusters

/-- The snapshot `run` records when the initialization has ended. -/
def initTrace (s : InitState) : List Snapshot :=
  [{ phase := Phase.initialization, iter := 0, clusters := s.clusters, points := s.points }]

/-- The two snapshots an iteration appends to the trace. -/
def iterationTrace (iter : Int) (cs1 cs2 : List Cluster) (pts : List Point) : List Snapshot :=
  [{ phase := Phase.assignment, iter := iter, clusters := cs1, points := pts },
   { phase := Phase.recompute, iter := iter, clusters := cs2, points := pts }]

/-- What holds of the state at a phase boundary of a run: the shape, the bookkeeping of
memberships, every point assigned once the first assignment phase is over, and centered
centroids whenever no assignment phase has touched the members since. -/
def KMeans.BoundaryOK (km : KMeans) (b : Snapshot) : Prop :=
  km.ClustersReady b.clusters ∧ km.PointsReady b.points ∧
  MembersConsistent b.clusters b.points ∧
  (b.phase ≠ Phase.initialization → km.AllAssigned b.points) ∧
  (b.phase ≠ Phase.assignment → km.Centered b.clusters)

/-- What the convergence loop needs at its entry: a state of the right shape with consistent
bookkeeping and centered centroids, recorded as the last snapshot of a trace of good
boundaries. -/
def KMeans.LoopEntryOK (km : KMeans) (pts : List Point) (trace : List Snapshot) : Prop :=
  km.ClustersReady km.clusters ∧ km.PointsReady pts ∧ MembersConsistent km.clusters pts ∧
  km.Centered km.clusters ∧ (∀ b ∈ trace, km.BoundaryOK b) ∧
  ∃ pre b, trace = pre ++ [b] ∧ b.clusters = km.clusters ∧ b.points = pts

/-- What the convergence loop, entered with iteration count `iter`, guarantees of its
result. -/
def KMeans.LoopResultOK (km : KMeans) (sched : Int → Nat → List (List Nat)) (iter : Int)
    (trace : List Snapshot) (r : RunResult) : Prop :=
  iter ≤ r.iter ∧ (r.iter ≤ iter ∨ r.iter ≤ km.max_iterations) ∧
  (∃ rest, r.trace = trace ++ rest ∧ rest.length = 2 * (r.iter - iter + 1).toNat) ∧
  (r.iter < km.max_iterations → r.done = true) ∧
  (∀ b ∈ r.trace, km.BoundaryOK b) ∧
  r.km = { km with clusters := r.km.clusters } ∧
  km.ClustersReady r.km.clusters ∧ km.PointsReady r.points ∧
  MembersConsistent r.km.clusters r.points ∧ km.AllAssigned r.points ∧
  km.Centered r.km.clusters ∧
  (r.done = true →
    KMeans.assignPhase r.km (sched r.iter) r.points =
      Except.ok { clusters := r.km.clusters, points := r.points, done := true }) ∧
  (r.done = true → ∃ pre b,
    r.trace = pre ++ b :: iterationTrace r.iter r.km.clusters r.km.clusters r.points ∧
    b.clusters = r.km.clusters ∧ b.points = r.points)

/-! ## Concrete inputs -/

/-- The point `0` of one dimension. -/
def originPoint : Point := Point.new 0 [0] ""

/-- The point `(0, 0, 0)`. -/
def originPoint3 : Point := Point.new 0 [0, 0, 0] ""

/-- Two clusters with the same centroid `1`, in one dimension. -/
def tieKM : KMeans :=
  { K := 2, total_values := 1, total_points := 2, max_iterations := 1
    clusters := [{ id_cluster := 0, central_values := [1], points := [] },
                 { id_cluster := 1, central_values := [1], points := [] }] }

/-- Two clusters in three dimensions: the first centroid is `(2^600, 0, 0)`, the second is
`2^485 * (94906209, 94897349, 1305050)`, whose squared norm is exactly `DBL_MAX`
(`94906209^2 + 94897349^2 + 1305050^2 = 2^54 - 2`); every product and partial sum on the way
is a `double`, the square `2^1200` apart, which overflows to infinity. -/
def edgeKM : KMeans :=
  { K := 2, total_values := 3, total_points := 2, max_iterations := 1
    clusters := [{ id_cluster := 0, central_values := [2 ^ 600, 0, 0], points := [] },
                 { id_cluster := 1
                   central_values := [94906209 * 2 ^ 485, 94897349 * 2 ^ 485, 1305050 * 2 ^ 485]
                   points := [] }] }

/-- An engine in the middle of a run, in one dimension: cluster 0 holds the points `1` and
`2` and still has the centroid `1`, cluster 1 has lost all its members and has centroid `7`. -/
def pairKM : KMeans :=
  { K := 2, total_values := 1, total_points := 2, max_iterations := 5
    clusters := [{ id_cluster := 0, central_values := [1]
                   points := [(Point.new 0 [1] "").setCluster 0, (Point.new 1 [2] "").setCluster 0] },
                 { id_cluster := 1, central_values := [7], points := [] }] }

/-- The points `0` and `5` of one dimension, as `main` builds them. -/
def twoPoints : List Point := [Point.new 0 [0] "", Point.new 1 [5] ""]

/-- The schedule of a single worker visiting the only cluster. -/
def soloSched : Int → Nat → List (List Nat) := fun _ _ => [[0]]

/-- A new engine for one cluster of one-dimensional points, told of two points, with an
iteration cap of 3. -/
def soloKM : KMeans := KMeans.new 1 2 1 3

/-- A new engine for one cluster of one-dimensional points, told of two points, with an
iteration cap of 0. -/
def cappedKM : KMeans := KMeans.new 1 2 1 0

/-- A new engine asked for three clusters of one-dimensional points while it is told of a
single point. -/
def greedyKM : KMeans := KMeans.new 3 1 1 5

/-- Two points with the same coordinate `0`, as `main` builds them. -/
def twinPoints : List Point := [Point.new 0 [0] "", Point.new 1 [0] ""]

/-- A new engine for two clusters of one-dimensional points, told of two points, with an
iteration cap of 2. -/
def twinKM : KMeans := KMeans.new 2 2 1 2

/-- The state after the initialization of `twinKM` on `twinPoints` with the draws `0, 1`:
each point is the seed of its own cluster. -/
def twinSeeded : InitState :=
  { rand := [], prohibited_indexes := [0, 1]
    clusters := [Cluster.ofSeed 0 ((Point.new 0 [0] "").setCluster 0),
                 Cluster.ofSeed 1 ((Point.new 1 [0] "").setCluster 1)]
    points := [(Point.new 0 [0] "").setCluster 0, (Point.new 1 [0] "").setCluster 1] }

/-- The engine `twinKM` after its initialization. -/
def twinReady : KMeans := { twinKM with clusters := twinSeeded.clusters }

/-- Schedules under which the search of point 0 merges cluster 0 first and the search of
every other point merges cluster 1 first. -/
def twinSched : Int → Nat → List (List Nat) :=
  fun _ i => if i = 0 then [[0], [1]] else [[1], [0]]

/-- The schedule under which every search merges cluster 0 first. -/
def lowFirst : Nat → List (List Nat) := fun _ => [[0], [1]]

/-! ## Notions of the statements about `Point`, the initialization and the phases -/

/-- The operations of `class Point` a caller can apply to a constructed point. -/
inductive PointOp where
  | setCluster (id_cluster : Int)
  | addValue (value : ℚ)
  | getID
  | getCluster
  | getValue (index : Int)
  | getTotalValues
  | getName
  deriving DecidableEq, Repr

/-- The point after one operation; a getter leaves the object as it is. -/
def Point.apply (p : Point) : PointOp → Point
  | PointOp.setCluster id_cluster => p.setCluster id_cluster
  | PointOp.addValue value => p.addValue value
  | PointOp.getID => p
  | PointOp.getCluster => p
  | PointOp.getValue _ => p
  | PointOp.getTotalValues => p
  | PointOp.getName => p

/-- An operation other than `addValue`. -/
def PointOp.keepsSize : PointOp → Bool
  | PointOp.addValue _ => false
  | _ => true

/-- What holds of the indices chosen so far when `k` centers have been chosen: there are `k`
of them and one cluster more for each, they are pairwise distinct, and each is the index of a
point. -/
def KMeans.ChosenOK (km : KMeans) (points : List Point) (k : Nat) (s : InitState) : Prop :=
  s.prohibited_indexes.length = k ∧ s.clusters.length = km.clusters.length + k ∧
  s.points.length = points.length ∧ s.prohibited_indexes.Nodup ∧
  ∀ idx ∈ s.prohibited_indexes, 0 ≤ idx ∧ idx < km.total_points ∧ idx.toNat < points.length

/-- What holds of the seeds in the middle of the initialization of a new engine, when `k`
centers have been chosen: cluster `i` is the one the constructor builds from the `i`-th chosen
point retagged with `i`, that point is stored retagged, and every point not chosen is as the
caller passed it. -/
def KMeans.SeedsOK (points : List Point) (k : Nat) (s : InitState) : Prop :=
  s.prohibited_indexes.length = k ∧ s.clusters.length = k ∧
  s.points.length = points.length ∧
  (∀ (i : Nat) (idx : Int), s.prohibited_indexes[i]? = some idx →
    0 ≤ idx ∧ ∃ p, points[idx.toNat]? = some p ∧
      s.clusters[i]? = some (Cluster.ofSeed (i : Int) (p.setCluster (i : Int))) ∧
      s.points[idx.toNat]? = some (p.setCluster (i : Int))) ∧
  (∀ j : Nat, (j : Int) ∉ s.prohibited_indexes → s.points[j]? = points[j]?)

/-- What holds in the middle of an assignment phase that started from the clusters `cs0` and
the points `pts`, when the points before index `k` have had their turn: the shape is kept, the
centroids are those of the start, the points from `k` on are untouched, and every point has
kept its coordinates and its id. -/
def KMeans.PhaseOK (km : KMeans) (cs0 : List Cluster) (pts : List Point) (k : Nat)
    (s : PhaseState) : Prop :=
  km.ClustersReady s.clusters ∧ km.PointsReady s.points ∧
  s.clusters.map Cluster.central_values = cs0.map Cluster.central_values ∧
  (∀ j : Nat, k ≤ j → s.points[j]? = pts[j]?) ∧
  (∀ (j : Nat) (p : Point), s.points[j]? = some p →
    ∃ p0, pts[j]? = some p0 ∧ p.values = p0.values ∧ p.getID = p0.getID)

/-- The shape in the middle of the initialization, when `k` centers have been chosen. -/
def KMeans.InitShape (km : KMeans) (k : Nat) (s : InitState) : Prop :=
  s.clusters.length = k ∧
  (∀ c ∈ s.clusters, c.central_values.length = km.total_values.toNat) ∧
  (∀ c ∈ s.clusters, ∀ q ∈ c.points, q.values.length = km.total_values.toNat) ∧
  km.PointsReady s.points ∧
  (∀ p ∈ s.points, p.getTotalValues.toNat = p.values.length)

/-- An input of `run` made by the constructors, with the sizes the engine was told: a new
engine (the constructor of `KMeans` creates no cluster) with `1 ≤ K ≤ total_points`, exactly
`total_points` points, each with exactly `total_values` coordinates and reporting that
dimensionality (the constructor of `Point` sets `total_values` to `values.size()`), and each
with the cluster id `-1` the constructor gives it or, more generally, the id of a cluster. -/
def KMeans.SafeInput (km : KMeans) (points : List Point) : Prop :=
  km.clusters = [] ∧ 1 ≤ km.K ∧ km.K ≤ km.total_points ∧
  (points.length : Int) = km.total_points ∧
  ∀ p ∈ points, (p.values.length : Int) = km.total_values ∧
    p.getTotalValues = km.total_values ∧
    (p.getCluster = -1 ∨ (0 ≤ p.getCluster ∧ p.getCluster < km.K))

/-! ## Evaluation of concrete runs -/

/-- The fault in which a computation has ended, if it has ended in one. -/
def Fault.of {α : Type} : Except Fault α → Option Fault
  | Except.error e => some e
  | Except.ok _ => none

/-! ## Further notions and concrete inputs -/

/-- Whether a computation has returned a value with the property `P`. -/
def Fault.holds {α : Type} (x : Except Fault α) (P : α → Bool) : Bool :=
  match x with
  | Except.ok a => P a
  | Except.error _ => false

/-- Whether an outcome is a completed run whose result has the property `P`. -/
def Outcome.completedWith (P : RunResult → Bool) : Outcome → Bool
  | Outcome.completed r => P r
  | Outcome.returnedEarly _ _ => false

/-- The schedules of a single worker that visits two clusters in ascending order. -/
def ascending : Int → Nat → List (List Nat) := fun _ _ => [[0, 1]]

/-- No point of `pts` is at the same least distance from two centroids: for each point one
cluster is strictly nearer than every other one, and nearer than
`numeric_limits<double>::max()`. -/
def KMeans.TieFree (km : KMeans) (pts : List Point) : Prop :=
  ∀ p ∈ pts, ∃ c ∈ List.range km.K.toNat, km.dist p c < DBL_MAX ∧
    ∀ i ∈ List.range km.K.toNat, i ≠ c → km.dist p c < km.dist p i

instance KMeans.decidableClustersReady (km : KMeans) (cs : List Cluster) :
    Decidable (km.ClustersReady cs) :=
  inferInstanceAs (Decidable (cs.length = km.K.toNat ∧
    (∀ c ∈ cs, c.central_values.length = km.total_values.toNat) ∧
    (∀ c ∈ cs, ∀ q ∈ c.points, q.values.length = km.total_values.toNat)))

instance KMeans.decidablePointsReady (km : KMeans) (pts : List Point) :
    Decidable (km.PointsReady pts) :=
  inferInstanceAs (Decidable (pts.length = km.total_points.toNat ∧
    (∀ p ∈ pts, p.values.length = km.total_values.toNat) ∧
    (∀ p ∈ pts, p.getCluster = -1 ∨ (0 ≤ p.getCluster ∧ p.getCluster < km.K))))

instance KMeans.decidableTieFree (km : KMeans) (pts : List Point) :
    Decidable (km.TieFree pts) :=
  inferInstanceAs (Decidable (∀ p ∈ pts, ∃ c ∈ List.range km.K.toNat, km.dist p c < DBL_MAX ∧
    ∀ i ∈ List.range km.K.toNat, i ≠ c → km.dist p c < km.dist p i))

/-! ## The instance of the points 1, 2, 9, 10 -/

/-- The points `1`, `2`, `9` and `10` of one dimension, as `main` builds them. -/
def linePoints : List Point :=
  [Point.new 0 [1] "", Point.new 1 [2] "", Point.new 2 [9] "", Point.new 3 [10] ""]

/-- A new engine for two clusters of one-dimensional points, told of four points, with the
iteration cap `m`. -/
def lineKM (m : Int) : KMeans := KMeans.new 2 4 1 m

/-- The engine `lineKM` holding the clusters `cs`; no phase reads the iteration cap. -/
def lineAt (cs : List Cluster) : KMeans := { lineKM 0 with clusters := cs }

/-- The clusters and points the initialization of `lineKM` leaves when it chooses the point
of index `a` and then the point of index `b`. -/
def lineSeeds (a b : Nat) : Option (List Cluster × List Point) :=
  match linePoints[a]?, linePoints[b]? with
  | some pa, some pb =>
    some ([Cluster.ofSeed 0 (pa.setCluster 0), Cluster.ofSeed 1 (pb.setCluster 1)],
      (linePoints.set a (pa.setCluster 0)).set b (pb.setCluster 1))
  | _, _ => none

/-- The assignment phase of `lineAt cs` over `pts` when every search scans the clusters in
ascending order. -/
def lineStep (cs : List Cluster) (pts : List Point) : Option PhaseState :=
  ((lineAt cs).assignPhase (ascending 0) pts).toOption

/-- The clusters and points have the shape the phases of `lineAt` rely on, and no point is
at the same least distance from two centroids. -/
def LineReady (cs : List Cluster) (pts : List Point) : Prop :=
  (lineAt cs).ClustersReady cs ∧ (lineAt cs).PointsReady pts ∧ (lineAt cs).TieFree pts

instance decidableLineReady (cs : List Cluster) (pts : List Point) :
    Decidable (LineReady cs pts) :=
  inferInstanceAs (Decidable ((lineAt cs).ClustersReady cs ∧ (lineAt cs).PointsReady pts ∧
    (lineAt cs).TieFree pts))

/-- The cluster has the one-dimensional centroid `centroid`, and its members are, in some
order, the points with the given ids and coordinates. -/
def Cluster.Holds (c : Cluster) (centroid : ℚ) (members : List (Int × List ℚ)) : Prop :=
  c.central_values = [centroid] ∧
  (c.points.map (fun q => (q.getID, q.values))).Perm members

instance Cluster.decidableHolds (c : Cluster) (centroid : ℚ) (members : List (Int × List ℚ)) :
    Decidable (c.Holds centroid members) :=
  inferInstanceAs (Decidable (c.central_values = [centroid] ∧
    (c.points.map (fun q : Point => (q.getID, q.values))).Perm members))

/-- One of two clusters holds exactly the points `1` and `2` and has the centroid `3/2`, the
other holds exactly the points `9` and `10` and has the centroid `19/2`. -/
def lineFinal : List Cluster → Bool
  | [c0, c1] =>
    decide ((c0.Holds (3 / 2) [(0, [1]), (1, [2])] ∧ c1.Holds (19 / 2) [(2, [9]), (3, [10])]) ∨
      (c1.Holds (3 / 2) [(0, [1]), (1, [2])] ∧ c0.Holds (19 / 2) [(2, [9]), (3, [10])]))
  | _ => false

/-- The run of `lineKM` from the seeds `a`, `b` under ascending scans, iteration by
iteration: the first assignment phase moves a point, the second iteration leaves the clusters
of `lineFinal`, a third one changes nothing, and no phase meets a tie. -/
def lineCheck (a b : Nat) : Bool :=
  match lineSeeds a b with
  | none => false
  | some (cs0, pts0) =>
    match lineStep cs0 pts0 with
    | none => false
    | some a1 =>
      match lineStep (a1.clusters.map (Cluster.recenter 1)) a1.points with
      | none => false
      | some a2 =>
        decide (LineReady cs0 pts0 ∧ a1.done = false ∧
          (lineAt a1.clusters).ClustersReady a1.clusters ∧
          LineReady (a1.clusters.map (Cluster.recenter 1)) a1.points ∧
          (lineAt a2.clusters).ClustersReady a2.clusters ∧
          LineReady (a2.clusters.map (Cluster.recenter 1)) a2.points ∧
          lineStep (a2.clusters.map (Cluster.recenter 1)) a2.points =
            some { clusters := a2.clusters.map (Cluster.recenter 1), points := a2.points
                   done := true } ∧
          (a2.clusters.map (Cluster.recenter 1)).map (Cluster.recenter 1) =
            a2.clusters.map (Cluster.recenter 1) ∧
          lineFinal (a2.clusters.map (Cluster.recenter 1)) = true)

/-! ## IEEE 754 binary64 arithmetic
The phases of `run` compute with `double`. The definitions above take every sum, product and
quotient to be exact; the definitions of this part round each of them as the binary64 format
does (round to nearest, ties to even, with subnormal numbers and overflow to an infinity).
The statements whose truth depends on the rounding are made about these definitions. -/

/-- The value of a `double` expression: a finite number, an infinity (with its sign) or a
NaN. The two zeros of the format are one value: the program compares and adds zeros and never
divides by one, so the sign of a zero is not observable. -/
inductive Dbl where
  | fin (q : ℚ)
  | inf (negative : Bool)
  | nan
  deriving DecidableEq, Repr

/-- The number of binary digits of `n`, for every `fuel` that is at least that number. -/
def bitLength : Nat → Nat → Nat
  | 0, _ => 0
  | fuel + 1, n => if n = 0 then 0 else bitLength fuel (n / 2) + 1

/-- The exponent `e` with `2^e ≤ n / d < 2^(e+1)`, for positive `n` and `d`. -/
def floorLog2 (n d : Nat) : Int :=
  let k : Int := (bitLength n n : Int) - (bitLength d d : Int)
  if (if 0 ≤ k then d * 2 ^ k.toNat ≤ n else d ≤ n * 2 ^ (-k).toNat) then k else k - 1

/-- The integer nearest to `n / d`; of two nearest integers the even one. -/
def roundHalfEven (n d : Nat) : Nat :=
  let q := n / d
  let r := n % d
  if 2 * r < d then q else if d < 2 * r then q + 1 else q + q % 2

/-- The magnitude nearest to `n / d` (positive `n`, `d`) among the multiples of the spacing
of binary64 at `n / d`: 53 significant binary digits from the exponent `-1022` on, the fixed
spacing `2^(-1074)` of the subnormal numbers below. -/
def roundMagnitude (n d : Nat) : ℚ :=
  let t : Int := max (floorLog2 n d) (-1022) - 52
  if 0 ≤ t then ((roundHalfEven n (d * 2 ^ t.toNat) * 2 ^ t.toNat : Nat) : ℚ)
  else ((roundHalfEven (n * 2 ^ (-t).toNat) d : Nat) : ℚ) / ((2 ^ (-t).toNat : Nat) : ℚ)

/-- The `double` that stands for the exact result `q` of an operation: the nearest binary64
number (ties to even), an infinity when that magnitude exceeds
`numeric_limits<double>::max()`. -/
def roundDouble (q : ℚ) : Dbl :=
  if q = 0 then Dbl.fin 0
  else
    let m := roundMagnitude q.num.natAbs q.den
    if DBL_MAX < m then Dbl.inf (decide (q < 0))
    else Dbl.fin (if q < 0 then -m else m)

/-- The rational is a `double`: rounding leaves it as it is. -/
def IsDouble (q : ℚ) : Prop := roundDouble q = Dbl.fin q

instance IsDouble.decidable (q : ℚ) : Decidable (IsDouble q) :=
  inferInstanceAs (Decidable (roundDouble q = Dbl.fin q))

/-- The negation `-x` of a `double`. -/
def Dbl.neg : Dbl → Dbl
  | Dbl.fin q => Dbl.fin (-q)
  | Dbl.inf s => Dbl.inf (!s)
  | Dbl.nan => Dbl.nan

/-- The sum `x + y` of two `double`s. -/
def Dbl.add : Dbl → Dbl → Dbl
  | Dbl.fin a, Dbl.fin b => roundDouble (a + b)
  | Dbl.fin _, Dbl.inf s => Dbl.inf s
  | Dbl.inf s, Dbl.fin _ => Dbl.inf s
  | Dbl.inf s, Dbl.inf t => if s = t then Dbl.inf s else Dbl.nan
  | Dbl.nan, _ => Dbl.nan
  | _, Dbl.nan => Dbl.nan

/-- The difference `x - y` of two `double`s. -/
def Dbl.sub (x y : Dbl) : Dbl := Dbl.add x (Dbl.neg y)

/-- The product `x * y` of two `double`s. -/
def Dbl.mul : Dbl → Dbl → Dbl
  | Dbl.fin a, Dbl.fin b => roundDouble (a * b)
  | Dbl.fin a, Dbl.inf s => if a = 0 then Dbl.nan else Dbl.inf (xor (decide (a < 0)) s)
  | Dbl.inf s, Dbl.fin b => if b = 0 then Dbl.nan else Dbl.inf (xor s (decide (b < 0)))
  | Dbl.inf s, Dbl.inf t => Dbl.inf (xor s t)
  | Dbl.nan, _ => Dbl.nan
  | _, Dbl.nan => Dbl.nan

/-- The quotient `x / n` of a `double` by an `int`, which is converted to `double` without
rounding. -/
def Dbl.divInt : Dbl → Int → Dbl
  | Dbl.fin a, n =>
    if n = 0 then (if a = 0 then Dbl.nan else Dbl.inf (decide (a < 0)))
    else roundDouble (a / (n : ℚ))
  | Dbl.inf s, n => Dbl.inf (xor s (decide (n < 0)))
  | Dbl.nan, _ => Dbl.nan

/-- The comparison `x < y` of two `double`s; it is false when one of them is a NaN. -/
def Dbl.lt : Dbl → Dbl → Bool
  | Dbl.fin a, Dbl.fin b => decide (a < b)
  | Dbl.fin _, Dbl.inf s => !s
  | Dbl.inf s, Dbl.fin _ => s
  | Dbl.inf s, Dbl.inf t => s && !t
  | Dbl.nan, _ => false
  | _, Dbl.nan => false

/-- The finite number a `double` is stored as; an infinity or a NaN, which no rational
stands for, is the fault `Fault.notFinite`. -/
def Dbl.toFinite : Dbl → Except Fault ℚ
  | Dbl.fin q => Except.ok q
  | _ => Except.error Fault.notFinite

/-! ## The methods of `KMeans` in binary64 arithmetic -/

/-- One round of the loop over `j` in `getIDNearestCenter`, in binary64:
`diff = clusters[i]->getCentralValue(j) - point.getValue(j); sum += diff * diff`. -/
def IEEE.distStep (km : KMeans) (point : Point) (i : Nat) (j : Nat) (sum : Dbl) :
    Except Fault Dbl := do
  let c ← vecGet km.clusters (i : Int)
  let cv ← c.getCentralValue (j : Int)
  let pv ← point.getValue (j : Int)
  let diff := Dbl.sub (Dbl.fin cv) (Dbl.fin pv)
  pure (Dbl.add sum (Dbl.mul diff diff))

/-- The body of the `parallel_for` of `getIDNearestCenter` for cluster index `i`, in
binary64. -/
def IEEE.visit (km : KMeans) (point : Point) (i : Nat) (local_data : Dbl × Int) :
    Except Fault (Dbl × Int) := do
  let sum ← forLoop km.total_values (IEEE.distStep km point i) (Dbl.fin 0)
  pure (if Dbl.lt sum local_data.1 = true then (sum, (i : Int)) else local_data)

/-- The thread-local pairs after the `parallel_for`, in binary64: each worker starts from
`(numeric_limits<double>::max(), 0)` and visits its indices in order. -/
def IEEE.localMins (km : KMeans) (point : Point) :
    List (List Nat) → Except Fault (List (Dbl × Int))
  | [] => pure []
  | w :: ws => do
    let m ← forLoopFrom (IEEE.visit km point) w (Dbl.fin DBL_MAX, 0)
    let ms ← IEEE.localMins km point ws
    pure (m :: ms)

/-- The sequential loop over `local_min` that keeps `(min_dist, id_cluster_center)`, in
binary64. -/
def IEEE.combine : List (Dbl × Int) → Dbl × Int → Dbl × Int
  | [], best => best
  | local_data :: rest, best =>
    IEEE.combine rest (if Dbl.lt local_data.1 best.1 = true then local_data else best)

/-- The method `getIDNearestCenter` in binary64, under the schedule `sched` of its
`parallel_for`. -/
def IEEE.getIDNearestCenter (km : KMeans) (sched : List (List Nat)) (point : Point) :
    Except Fault Int := do
  let local_min ← IEEE.localMins km point sched
  pure (IEEE.combine local_min (Dbl.fin DBL_MAX, 0)).2

/-- The body of the `parallel_for` over the points for point index `i`, the search being the
one in binary64. -/
def IEEE.assignPoint (km : KMeans) (sched : List (List Nat)) (i : Nat) (s : PhaseState) :
    Except Fault PhaseState := do
  let p ← vecGet s.points (i : Int)
  let id_old_cluster := p.getCluster
  let id_nearest_center ←
    IEEE.getIDNearestCenter { km with clusters := s.clusters } sched p
  if id_old_cluster ≠ id_nearest_center then do
    let clusters1 ← KMeans.leaveOld s.clusters id_old_cluster p.getID
    let points1 ← vecSet s.points (i : Int) (p.setCluster id_nearest_center)
    let p1 ← vecGet points1 (i : Int)
    let clusters2 ← KMeans.joinNearest clusters1 id_nearest_center p1
    pure { clusters := clusters2, points := points1, done := false }
  else pure s

/-- The assignment phase with the searches in binary64. -/
def IEEE.assignPhase (km : KMeans) (sched : Nat → List (List Nat)) (points : List Point) :
    Except Fault PhaseState :=
  forLoop km.total_points (fun i s => IEEE.assignPoint km (sched i) i s)
    { clusters := km.clusters, points := points, done := true }

/-- One round of `for (p ...) sum += clusters[i]->getPoint(p).getValue(j)`, in binary64. -/
def IEEE.sumStep (clusters : List Cluster) (i j : Nat) (p : Nat) (sum : Dbl) :
    Except Fault Dbl := do
  let c ← vecGet clusters (i : Int)
  let q ← c.getPoint (p : Int)
  let v ← q.getValue (j : Int)
  pure (Dbl.add sum (Dbl.fin v))

/-- The body of the loop over the dimensions `j` for cluster `i`, in binary64. The centroid
component is stored as a rational: a quotient that is an infinity or a NaN ends the
execution in `Fault.notFinite`. -/
def IEEE.recomputeValue (i : Nat) (j : Nat) (clusters : List Cluster) :
    Except Fault (List Cluster) := do
  let c ← vecGet clusters (i : Int)
  let total_points_cluster := c.getTotalPoints
  if total_points_cluster > 0 then do
    let sum ← forLoop total_points_cluster (IEEE.sumStep clusters i j) (Dbl.fin 0)
    let mean ← Dbl.toFinite (Dbl.divInt sum total_points_cluster)
    let c1 ← c.setCentralValue (j : Int) mean
    vecSet clusters (i : Int) c1
  else pure clusters

/-- The body of the `parallel_for` over the clusters, in binary64. -/
def IEEE.recomputeCluster (km : KMeans) (i : Nat) (clusters : List Cluster) :
    Except Fault (List Cluster) :=
  forLoop km.total_values (IEEE.recomputeValue i) clusters

/-- The centroid recompute phase in binary64. -/
def IEEE.recomputePhase (km : KMeans) : Except Fault (List Cluster) :=
  forLoop km.K (IEEE.recomputeCluster km) km.clusters

/-- The `while (true)` of `run` in binary64, entered with iteration count `iter`. -/
def IEEE.loop (km : KMeans) (sched : Int → Nat → List (List Nat)) (points : List Point)
    (iter : Int) (trace : List Snapshot) : Except Fault RunResult := do
  let s ← IEEE.assignPhase km (sched iter) points
  let km1 : KMeans := { km with clusters := s.clusters }
  let clusters2 ← IEEE.recomputePhase km1
  let km2 : KMeans := { km with clusters := clusters2 }
  let trace2 := trace ++
    [ { phase := Phase.assignment, iter := iter, clusters := s.clusters, points := s.points },
      { phase := Phase.recompute, iter := iter, clusters := clusters2, points := s.points } ]
  if h : s.done = true ∨ iter ≥ km.max_iterations then
    pure { km := km2, points := s.points, iter := iter, done := s.done, trace := trace2 }
  else
    IEEE.loop km2 sched s.points (iter + 1) trace2
termination_by (km.max_iterations - iter).toNat
decreasing_by
  simp only [not_or, ge_iff_le, not_le] at h
  omega

/-- The method `run` in binary64, up to the end of the convergence loop. -/
def IEEE.run (km : KMeans) (rand : List Nat) (sched : Int → Nat → List (List Nat))
    (points : List Point) : Except Fault Outcome :=
  if km.K > km.total_points then
    pure (Outcome.returnedEarly km points)
  else do
    let s ← km.initialize rand points
    let km1 : KMeans := { km with clusters := s.clusters }
    let r ← IEEE.loop km1 sched s.points 1
      [ { phase := Phase.initialization, iter := 0, clusters := s.clusters, points := s.points } ]
    pure (Outcome.completed r)

/-! ## Notions of the statements about the computation in binary64 -/

/-- The squared distance of two coordinate vectors as the loop over `j` of
`getIDNearestCenter` computes it: from `0.0`, each round adds the rounded square of the
rounded component difference and rounds the sum. -/
def IEEE.sqDist (a b : List ℚ) : Dbl :=
  (List.zipWith (fun x y =>
    Dbl.mul (Dbl.sub (Dbl.fin x) (Dbl.fin y)) (Dbl.sub (Dbl.fin x) (Dbl.fin y))) a b).foldl
    Dbl.add (Dbl.fin 0)

/-- The computed squared distance from `point` to the centroid of cluster `i`. -/
def IEEE.dist (km : KMeans) (point : Point) (i : Nat) : Dbl :=
  match km.clusters[i]? with
  | some c => IEEE.sqDist c.central_values point.values
  | none => Dbl.fin 0

/-- The comparison both reductions make on computed distances. -/
def IEEE.keep (best cand : Dbl × Int) : Dbl × Int :=
  if Dbl.lt cand.1 best.1 = true then cand else best

/-- The pair `(computed squared distance, id)` a visit of cluster `i` compares with the kept
pair. -/
def IEEE.cand (km : KMeans) (point : Point) (i : Nat) : Dbl × Int :=
  (IEEE.dist km point i, (i : Int))

/-- The values a computed squared distance can take: the finite numbers from 0 to
`numeric_limits<double>::max()` and the positive infinity. -/
def Dbl.Good : Dbl → Prop
  | Dbl.fin q => 0 ≤ q ∧ q ≤ DBL_MAX
  | Dbl.inf s => s = false
  | Dbl.nan => False

/-- A rational that orders the values of computed squared distances as `<` on `double`
does: a finite number is itself, the positive infinity lies above all of them. -/
def Dbl.key : Dbl → ℚ
  | Dbl.fin q => q
  | Dbl.inf _ => 2 ^ 1024
  | Dbl.nan => 2 ^ 1024

/-- The pair `(key of the computed squared distance, id)` of cluster `i`. -/
def IEEE.keyCand (km : KMeans) (point : Point) (i : Nat) : ℚ × Int :=
  ((IEEE.dist km point i).key, (i : Int))

/-- The mean of coordinate `j` over the members of a cluster as the recompute phase computes
it in binary64: the running sum from `0.0`, rounded at every addition, divided by the member
count. -/
def IEEE.mean (c : Cluster) (j : Nat) : Dbl :=
  Dbl.divInt ((c.points.map (fun q => q.values.getD j 0)).foldl
    (fun sum v => Dbl.add sum (Dbl.fin v)) (Dbl.fin 0)) (c.points.length : Int)

/-- The mean of `k` copies of `x` as the recompute phase computes it in binary64. -/
def IEEE.meanOfCopies (k : Nat) (x : ℚ) : Dbl :=
  Dbl.divInt ((List.replicate k x).foldl (fun sum v => Dbl.add sum (Dbl.fin v)) (Dbl.fin 0))
    (k : Int)

/-- Every centroid component of every cluster with members already is the mean the recompute
phase computes, in `d` dimensions. -/
def IEEE.Settled (d : Nat) (cs : List Cluster) : Prop :=
  ∀ c ∈ cs, c.points.length ≠ 0 → ∀ j : Nat, j < d →
    IEEE.mean c j = Dbl.fin (c.central_values.getD j 0)

/-! ## Concrete inputs of the statements about the computation in binary64 -/

/-- The points `0` and `2^(-600)` of one dimension, as `main` builds them: two different
`double`s whose difference squared, `2^(-1200)`, is below the least positive `double`. -/
def tinyPoints : List Point := [Point.new 0 [0] "", Point.new 1 [1 / 2 ^ 600] ""]

/-- A new engine for three clusters of one-dimensional points, told of three points, with an
iteration cap of 10. -/
def tenthKM : KMeans := KMeans.new 3 3 1 10

/-- The schedule of a single worker that scans three clusters in ascending order. -/
def ascending3 : Int → Nat → List (List Nat) := fun _ _ => [[0, 1, 2]]

/-- Three points at `2^1023`, a `double`, as `main` builds them. -/
def hugePoints : List Point :=
  [Point.new 0 [2 ^ 1023] "", Point.new 1 [2 ^ 1023] "", Point.new 2 [2 ^ 1023] ""]

/-- A new engine for two clusters of three-dimensional points, told of three points, with an
iteration cap of 5. -/
def edgeRunKM : KMeans := KMeans.new 2 3 3 5

/-- Three points as `main` builds them: the two centroids of `edgeKM` and the origin. -/
def edgePoints : List Point :=
  [Point.new 0 [2 ^ 600, 0, 0] "",
   Point.new 1 [94906209 * 2 ^ 485, 94897349 * 2 ^ 485, 1305050 * 2 ^ 485] "",
   Point.new 2 [0, 0, 0] ""]

/-- Two clusters in one dimension with the centroids `2^(-600)` and `0`, both `double`s. -/
def tinyKM : KMeans :=
  { K := 2, total_values := 1, total_points := 2, max_iterations := 1
    clusters := [{ id_cluster := 0, central_values := [1 / 2 ^ 600], points := [] },
                 { id_cluster := 1, central_values := [0], points := [] }] }

/-! ## Faults, vectors and loops -/

theorem Fault.ok_bind {α β : Type} (a : α) (f : α → Except Fault β) :
    (Except.ok a >>= f) = f a := rfl

theorem Fault.error_bind {α β : Type} (e : Fault) (f : α → Except Fault β) :
    ((Except.error e : Except Fault α) >>= f) = Except.error e := rfl

theorem Fault.pure_eq {α : Type} (a : α) : (pure a : Except Fault α) = Except.ok a := rfl

theorem Fault.bind_eq_ok {α β : Type} (x : Except Fault α) (f : α → Except Fault β) (b : β)
    (h : (x >>= f) = Except.ok b) : ∃ a, x = Except.ok a ∧ f a = Except.ok b := by
  cases x with
  | error e => exact absurd h (by simp [Fault.error_bind])
  | ok a => exact ⟨a, rfl, h⟩

theorem vecGet_natCast {α : Type} (v : List α) (k : Nat) (h : k < v.length) :
    vecGet v (k : Int) = Except.ok (v.get ⟨k, h⟩) := by
  simp [vecGet, List.getElem?_eq_getElem h]


theorem vecGet_of_getElem? {α : Type} (v : List α) (k : Nat) (x : α) (h : v[k]? = some x) :
    vecGet v (k : Int) = Except.ok x := by
  simp [vecGet, h]

theorem vecSet_of_getElem? {α : Type} (v : List α) (k : Nat) (x y : α) (h : v[k]? = some x) :
    vecSet v (k : Int) y = Except.ok (v.set k y) := by
  have hk : k < v.length := (List.getElem?_eq_some.mp h).1
  simp [vecSet, hk]

theorem vecGet_toNat {α : Type} (v : List α) (i : Int) (x : α) (h0 : 0 ≤ i)
    (h : v[i.toNat]? = some x) : vecGet v i = Except.ok x := by
  simp [vecGet, h0, h]

theorem vecSet_toNat {α : Type} (v : List α) (i : Int) (x y : α) (h0 : 0 ≤ i)
    (h : v[i.toNat]? = some x) : vecSet v i y = Except.ok (v.set i.toNat y) := by
  have hk : i.toNat < v.length := (List.getElem?_eq_some.mp h).1
  simp [vecSet, h0, hk]

theorem vecGet_eq_ok {α : Type} (v : List α) (i : Int) (x : α)
    (h : vecGet v i = Except.ok x) : 0 ≤ i ∧ v[i.toNat]? = some x := by
  unfold vecGet at h
  split at h
  · next h0 =>
    refine ⟨h0, ?_⟩
    split at h
    · next y hy =>
      rw [hy]
      exact congrArg some (Except.ok.inj h)
    · exact absurd h (by simp)
  · exact absurd h (by simp)

theorem vecSet_eq_ok {α : Type} (v : List α) (i : Int) (x : α) (w : List α)
    (h : vecSet v i x = Except.ok w) : w = v.set i.toNat x := by
  unfold vecSet at h
  split at h
  · exact (Except.ok.inj h).symm
  · exact absurd h (by simp)

theorem getElem?_set_map {α : Type} (v : List α) (o : Nat) (x : α) (f : α → α)
    (h : v[o]? = some x) (t : Nat) :
    (v.set o (f x))[t]? = (v[t]?).map (fun y => if t = o then f y else y) := by
  have ho : o < v.length := (List.getElem?_eq_some.mp h).1
  by_cases hto : t = o
  · subst hto
    rw [List.getElem?_set_self ho, h]
    simp
  · rw [List.getElem?_set_ne (fun e => hto e.symm)]
    cases v[t]? <;> simp [hto]

theorem set_same {α : Type} (v : List α) (i : Nat) (x : α) (h : v[i]? = some x) :
    v.set i x = v := by
  apply List.ext_getElem?
  intro t
  rw [getElem?_set_map v i x (fun _ => x) h t]
  by_cases hti : t = i
  · subst hti
    rw [h]
    simp
  · cases v[t]? <;> simp [hti]

theorem range_map_getD (v : List ℚ) : (List.range v.length).map (fun i => v.getD i 0) = v := by
  apply List.ext_getElem
  · simp
  · intro i h1 h2
    simp [List.getD_eq_getElem?_getD, List.getElem?_eq_getElem h2]

theorem mixAt_zero {α : Type} (a b : List α) : mixAt a b 0 = b := by
  simp [mixAt]

theorem mixAt_length {α : Type} (a b : List α) (h : a.length = b.length) :
    mixAt a b a.length = a := by
  simp [mixAt, h]


theorem mixAt_set {α : Type} (a b : List α) (j : Nat) (x : α) (h : a.length = b.length)
    (hx : a[j]? = some x) : (mixAt a b j).set j x = mixAt a b (j + 1) := by
  induction j generalizing a b with
  | zero =>
    cases a with
    | nil => simp at hx
    | cons y a1 =>
      cases b with
      | nil => simp at h
      | cons z b1 =>
        simp only [List.getElem?_cons_zero, Option.some.injEq] at hx
        simp [mixAt, hx]
  | succ j ih =>
    cases a with
    | nil => simp at hx
    | cons y a1 =>
      cases b with
      | nil => simp at h
      | cons z b1 =>
        simp only [List.getElem?_cons_succ] at hx
        have := ih a1 b1 (by simpa using h) hx
        simp only [mixAt] at this ⊢
        simp [this]

theorem mixAt_getElem {α : Type} (a b : List α) (j : Nat) (hj : j < a.length) : (mixAt a b j)[j]? = b[j]? := by
  simp only [mixAt]
  rw [List.getElem?_append_right (by simp)]
  simp [List.length_take, Nat.min_eq_left (le_of_lt hj)]

theorem forLoopFrom_cons_ok {σ : Type} (body : Nat → σ → Except Fault σ) (i : Nat)
    (rest : List Nat) (s s1 : σ) (h : body i s = Except.ok s1) :
    forLoopFrom body (i :: rest) s = forLoopFrom body rest s1 := by
  simp only [forLoopFrom, h]
  rfl

theorem forLoopFrom_seq {σ : Type} (body : Nat → σ → Except Fault σ) (f : Nat → σ)
    (m : Nat) : ∀ a : Nat,
    (∀ k, a ≤ k → k < a + m → body k (f k) = Except.ok (f (k + 1))) →
    forLoopFrom body (List.range' a m) (f a) = Except.ok (f (a + m)) := by
  induction m with
  | zero =>
    intro a _
    rfl
  | succ m ih =>
    intro a h
    rw [List.range'_succ, forLoopFrom_cons_ok body a _ (f a) (f (a + 1)) (h a le_rfl (by omega))]
    rw [ih (a + 1) (fun k hk1 hk2 => h k (by omega) (by omega))]
    congr 2
    omega

theorem forLoop_seq {σ : Type} (n : Int) (body : Nat → σ → Except Fault σ) (f : Nat → σ)
    (h : ∀ k, k < n.toNat → body k (f k) = Except.ok (f (k + 1))) :
    forLoop n body (f 0) = Except.ok (f n.toNat) := by
  have := forLoopFrom_seq body f n.toNat 0 (fun k _ hk => h k (by omega))
  rw [Nat.zero_add] at this
  rw [forLoop, List.range_eq_range']
  exact this


theorem forLoop_inv {σ : Type} (n : Int) (body : Nat → σ → Except Fault σ)
    (Inv : Nat → σ → Prop)
    (h : ∀ k, k < n.toNat → ∀ s, Inv k s → ∃ s1, body k s = Except.ok s1 ∧ Inv (k + 1) s1)
    (s : σ) (hs : Inv 0 s) : ∃ s1, forLoop n body s = Except.ok s1 ∧ Inv n.toNat s1 := by
  have key : ∀ m a : Nat, a + m = n.toNat → ∀ s, Inv a s →
      ∃ s1, forLoopFrom body (List.range' a m) s = Except.ok s1 ∧ Inv n.toNat s1 := by
    intro m
    induction m with
    | zero =>
      intro a ha s hs
      rw [Nat.add_zero] at ha
      subst ha
      exact ⟨s, rfl, hs⟩
    | succ m ih =>
      intro a ha s hs
      obtain ⟨s1, h1, hs1⟩ := h a (by omega) s hs
      rw [List.range'_succ, forLoopFrom_cons_ok body a _ s s1 h1]
      exact ih (a + 1) (by omega) s1 hs1
  rw [forLoop, List.range_eq_range']
  exact key n.toNat 0 (by omega) s hs

theorem forLoopFrom_inv_of_ok {σ : Type} (body : Nat → σ → Except Fault σ)
    (Inv : Nat → σ → Prop) (n : Nat)
    (h : ∀ k, k < n → ∀ s s1, Inv k s → body k s = Except.ok s1 → Inv (k + 1) s1) :
    ∀ (m a : Nat), a + m = n → ∀ s s1, Inv a s →
      forLoopFrom body (List.range' a m) s = Except.ok s1 → Inv n s1 := by
  intro m
  induction m with
  | zero =>
    intro a ha s s1 hs hrun
    rw [Nat.add_zero] at ha
    subst ha
    have : s1 = s := (Except.ok.inj hrun).symm
    rw [this]
    exact hs
  | succ m ih =>
    intro a ha s s1 hs hrun
    rw [List.range'_succ] at hrun
    obtain ⟨s2, h2, h3⟩ := Fault.bind_eq_ok _ _ _ hrun
    exact ih (a + 1) (by omega) s2 s1 (h a (by omega) s s2 hs h2) h3

theorem forLoop_inv_of_ok {σ : Type} (n : Int) (body : Nat → σ → Except Fault σ)
    (Inv : Nat → σ → Prop)
    (h : ∀ k, k < n.toNat → ∀ s s1, Inv k s → body k s = Except.ok s1 → Inv (k + 1) s1)
    (s s1 : σ) (hs : Inv 0 s) (hrun : forLoop n body s = Except.ok s1) : Inv n.toNat s1 := by
  rw [forLoop, List.range_eq_range'] at hrun
  exact forLoopFrom_inv_of_ok body Inv n.toNat h n.toNat 0 (by omega) s s1 hs hrun

/-! ## `Cluster`: `addPoint` and `removePoint` -/

theorem Cluster.firstIndex_none (id_point : Int) (l : List Point) :
    Cluster.firstIndex id_point l = none ↔ ∀ p ∈ l, p.getID ≠ id_point := by
  induction l with
  | nil => simp [Cluster.firstIndex]
  | cons p rest ih =>
    by_cases hp : p.getID = id_point
    · simp [Cluster.firstIndex, hp]
    · simp [Cluster.firstIndex, hp, ih]

theorem Cluster.firstIndex_some (id_point : Int) (l : List Point) (i : Nat)
    (h : Cluster.firstIndex id_point l = some i) :
    ∃ before p after, l = before ++ p :: after ∧ p.getID = id_point ∧
      (∀ q ∈ before, q.getID ≠ id_point) ∧ before.length = i ∧
      l.eraseIdx i = before ++ after := by
  induction l generalizing i with
  | nil => simp [Cluster.firstIndex] at h
  | cons p rest ih =>
    by_cases hp : p.getID = id_point
    · simp only [Cluster.firstIndex, hp, if_true, Option.some.injEq] at h
      subst h
      exact ⟨[], p, rest, by simp, hp, by simp, rfl, by simp⟩
    · simp only [Cluster.firstIndex, hp, if_false, Option.map_eq_some'] at h
      obtain ⟨k, hk, rfl⟩ := h
      obtain ⟨before, q, after, hl, hq, hb, hlen, her⟩ := ih k hk
      refine ⟨p :: before, q, after, by simp [hl], hq, ?_, by simp [hlen], ?_⟩
      · intro r hr
        rcases List.mem_cons.mp hr with rfl | hr
        · exact hp
        · exact hb r hr
      · simp [List.eraseIdx_cons_succ, her]

/-- C10: `Cluster::addPoint` is total; afterwards the member list is the previous member list
with the point appended at the end, `getTotalPoints` is larger by exactly one, and the id and
the centroid of the cluster are unchanged. -/
theorem Cluster.addPoint_appends (c : Cluster) (point : Point) :
    (c.addPoint point).points = c.points ++ [point] ∧
    (c.addPoint point).getTotalPoints = c.getTotalPoints + 1 ∧
    (c.addPoint point).getID = c.getID ∧
    (c.addPoint point).central_values = c.central_values := by
  simp [Cluster.addPoint, Cluster.getTotalPoints, Cluster.getID]

/-- C9: `Cluster::removePoint` returns true exactly when some member has the id; when it
returns true the member list afterwards is the list before without the first member of that
id, all other members kept in order; when it returns false the member list is unchanged; the
centroid (and the cluster id) is unchanged in both cases. -/
theorem Cluster.removePoint_spec (c : Cluster) (id_point : Int) :
    ((c.removePoint id_point).1 = true ↔ ∃ p ∈ c.points, p.getID = id_point) ∧
    ((c.removePoint id_point).1 = true →
      ∃ before p after, c.points = before ++ p :: after ∧ p.getID = id_point ∧
        (∀ q ∈ before, q.getID ≠ id_point) ∧
        (c.removePoint id_point).2.points = before ++ after) ∧
    ((c.removePoint id_point).1 = false → (c.removePoint id_point).2.points = c.points) ∧
    (c.removePoint id_point).2.central_values = c.central_values ∧
    (c.removePoint id_point).2.id_cluster = c.id_cluster := by
  cases hf : Cluster.firstIndex id_point c.points with
  | none =>
    have hno := (Cluster.firstIndex_none id_point c.points).mp hf
    have hr : c.removePoint id_point = (false, c) := by simp [Cluster.removePoint, hf]
    rw [hr]
    refine ⟨?_, by simp, by simp, rfl, rfl⟩
    constructor
    · intro h
      simp at h
    · rintro ⟨p, hp, hid⟩
      exact absurd hid (hno p hp)
  | some i =>
    obtain ⟨before, p, after, hl, hp, hb, _, her⟩ :=
      Cluster.firstIndex_some id_point c.points i hf
    have hr : c.removePoint id_point = (true, { c with points := c.points.eraseIdx i }) := by
      simp [Cluster.removePoint, hf]
    rw [hr]
    refine ⟨?_, ?_, by simp, rfl, rfl⟩
    · constructor
      · intro _
        exact ⟨p, by simp [hl], hp⟩
      · intro _
        rfl
    · intro _
      exact ⟨before, p, after, hl, hp, hb, her⟩

theorem Cluster.countID_addPoint (c : Cluster) (p : Point) (id : Int) :
    (c.addPoint p).countID id = c.countID id + if p.getID = id then 1 else 0 := by
  simp only [Cluster.countID, Cluster.addPoint, List.map_append, List.count_append,
    List.map_cons, List.map_nil, List.count_cons, List.count_nil, Nat.zero_add, beq_iff_eq]

theorem Cluster.countID_removePoint (c : Cluster) (id_point id : Int) :
    (c.removePoint id_point).2.countID id =
      c.countID id - if id = id_point then 1 else 0 := by
  cases hf : Cluster.firstIndex id_point c.points with
  | none =>
    have hno := (Cluster.firstIndex_none id_point c.points).mp hf
    have hr : c.removePoint id_point = (false, c) := by simp [Cluster.removePoint, hf]
    rw [hr]
    by_cases h : id = id_point
    · subst h
      have : c.countID id = 0 := by
        rw [Cluster.countID, List.count_eq_zero]
        intro hmem
        obtain ⟨q, hq, hid⟩ := List.mem_map.mp hmem
        exact hno q hq hid
      simp [this]
    · simp [h]
  | some i =>
    obtain ⟨before, p, after, hl, hp, _, _, her⟩ :=
      Cluster.firstIndex_some id_point c.points i hf
    have hr : c.removePoint id_point = (true, { c with points := c.points.eraseIdx i }) := by
      simp [Cluster.removePoint, hf]
    rw [hr]
    simp only [Cluster.countID, her]
    simp only [hl, List.map_append, List.map_cons, List.count_append,
      List.count_cons, beq_iff_eq, hp]
    by_cases h : id = id_point
    · subst h
      simp
    · have h2 : ¬ id_point = id := fun e => h e.symm
      simp [h, h2]

theorem Cluster.removePoint_central (c : Cluster) (id_point : Int) :
    (c.removePoint id_point).2.central_values = c.central_values := by
  unfold Cluster.removePoint
  split <;> rfl

theorem Cluster.removePoint_subset (c : Cluster) (id_point : Int) (q : Point)
    (hq : q ∈ (c.removePoint id_point).2.points) : q ∈ c.points := by
  unfold Cluster.removePoint at hq
  split at hq
  · exact List.mem_of_mem_eraseIdx hq
  · exact hq

theorem Cluster.moved_central (old : Int) (near : Nat) (p1 : Point) (t : Nat) (c : Cluster) :
    (Cluster.moved old near p1 t c).central_values = c.central_values := by
  unfold Cluster.moved
  split_ifs <;> simp [Cluster.addPoint, Cluster.removePoint_central]

theorem Cluster.moved_mem (old : Int) (near : Nat) (p1 : Point) (t : Nat) (c : Cluster)
    (q : Point) (hq : q ∈ (Cluster.moved old near p1 t c).points) : q ∈ c.points ∨ q = p1 := by
  unfold Cluster.moved at hq
  split_ifs at hq
  · simp only [Cluster.addPoint, List.mem_append, List.mem_singleton] at hq
    rcases hq with hq | hq
    · exact Or.inl (Cluster.removePoint_subset _ _ _ hq)
    · exact Or.inr hq
  · exact Or.inl (Cluster.removePoint_subset _ _ _ hq)
  · simp only [Cluster.addPoint, List.mem_append, List.mem_singleton] at hq
    exact hq
  · exact Or.inl hq

theorem Cluster.moved_countID (old : Int) (near : Nat) (p1 : Point) (t : Nat) (c : Cluster)
    (id : Int) :
    (Cluster.moved old near p1 t c).countID id =
      (c.countID id - if (t : Int) = old ∧ id = p1.getID then 1 else 0) +
        if t = near ∧ p1.getID = id then 1 else 0 := by
  unfold Cluster.moved
  by_cases h2 : t = near
  · subst h2
    by_cases h1 : (t : Int) = old
    · simp only [h1, if_true, true_and, Cluster.countID_addPoint, Cluster.countID_removePoint]
    · simp only [h1, if_false, if_true, false_and, true_and, Cluster.countID_addPoint,
        Nat.sub_zero]
  · by_cases h1 : (t : Int) = old
    · simp only [h1, h2, if_true, if_false, true_and, false_and, Nat.add_zero,
        Cluster.countID_removePoint]
    · simp only [h1, h2, if_false, false_and, Nat.add_zero, Nat.sub_zero]

theorem Cluster.copyValues_eq (point : Point) (l : List Nat)
    (h : ∀ i ∈ l, i < point.values.length) :
    Cluster.copyValues point l = Except.ok (l.map (fun i => point.values.getD i 0)) := by
  induction l with
  | nil => rfl
  | cons i rest ih =>
    have hi : i < point.values.length := h i (by simp)
    simp only [Cluster.copyValues, Point.getValue, vecGet_natCast _ i hi, Fault.ok_bind,
      ih (fun k hk => h k (List.mem_cons_of_mem i hk)), Fault.pure_eq, List.map_cons]
    simp [List.getD_eq_getElem?_getD, List.getElem?_eq_getElem hi]

/-- The constructor of `Cluster` on a point whose `total_values` is its coordinate count. -/
theorem Cluster.new_eq (id_cluster : Int) (point : Point)
    (h : point.getTotalValues.toNat = point.values.length) :
    Cluster.new id_cluster point = Except.ok
      { id_cluster := id_cluster, central_values := point.values, points := [point] } := by
  simp only [Cluster.new]
  rw [Cluster.copyValues_eq point _ (by
    intro i hi
    rw [h] at hi
    exact List.mem_range.mp hi)]
  rw [h, range_map_getD]
  rfl

/-! ## The nearest-center search -/

theorem KMeans.distLoop_eq (km : KMeans) (point : Point) (i : Nat) (c : Cluster)
    (hi : km.clusters[i]? = some c)
    (hc : c.central_values.length = km.total_values.toNat)
    (hp : point.values.length = km.total_values.toNat) :
    forLoop km.total_values (km.distStep point i) 0 = Except.ok (km.dist point i) := by
  have hilt : i < km.clusters.length := by
    rcases List.getElem?_eq_some.mp hi with ⟨h, _⟩
    exact h
  have hget : km.clusters.get ⟨i, hilt⟩ = c := by
    rcases List.getElem?_eq_some.mp hi with ⟨_, h⟩
    exact h
  let zs := List.zipWith (fun x y => (x - y) * (x - y)) c.central_values point.values
  have hzlen : zs.length = km.total_values.toNat := by
    simp [zs, hc, hp]
  have h := forLoop_seq km.total_values (km.distStep point i) (fun k => (zs.take k).sum) (by
    intro k hk
    have hk1 : k < c.central_values.length := by omega
    have hk2 : k < point.values.length := by omega
    have hkz : k < zs.length := by omega
    simp only [KMeans.distStep, vecGet_natCast km.clusters i hilt, hget, Fault.ok_bind,
      Cluster.getCentralValue, Point.getValue, vecGet_natCast _ k hk1, vecGet_natCast _ k hk2,
      Fault.pure_eq]
    rw [List.sum_take_succ zs k hkz]
    simp [zs])
  simp only [List.take_zero, List.sum_nil] at h
  rw [h, KMeans.dist, hi]
  simp only [sqDist]
  rw [← hzlen, List.take_length]

theorem KMeans.visit_eq (km : KMeans) (point : Point) (i : Nat) (ld : ℚ × Int)
    (hr : km.SearchReady point) (hi : i < km.K.toNat) :
    km.visit point i ld = Except.ok (KMeans.keep ld (km.cand point i)) := by
  obtain ⟨hlen, hc, hp⟩ := hr
  have hilt : i < km.clusters.length := by omega
  have hsome : km.clusters[i]? = some (km.clusters.get ⟨i, hilt⟩) := by
    simp [List.getElem?_eq_getElem hilt]
  have hd := km.distLoop_eq point i _ hsome (hc _ (List.get_mem _ _ _)) hp
  simp only [KMeans.visit, hd, Fault.ok_bind, Fault.pure_eq, KMeans.keep, KMeans.cand]

theorem KMeans.worker_eq (km : KMeans) (point : Point) (hr : km.SearchReady point)
    (w : List Nat) (hw : ∀ i ∈ w, i < km.K.toNat) (ld : ℚ × Int) :
    forLoopFrom (km.visit point) w ld =
      Except.ok ((w.map (km.cand point)).foldl KMeans.keep ld) := by
  induction w generalizing ld with
  | nil => rfl
  | cons i rest ih =>
    rw [forLoopFrom_cons_ok _ i rest ld _ (km.visit_eq point i ld hr (hw i (by simp)))]
    rw [ih (fun k hk => hw k (List.mem_cons_of_mem i hk))]
    simp

theorem KMeans.localMins_eq (km : KMeans) (point : Point) (hr : km.SearchReady point)
    (sched : List (List Nat)) (hs : ∀ w ∈ sched, ∀ i ∈ w, i < km.K.toNat) :
    km.localMins point sched =
      Except.ok (sched.map (fun w => (w.map (km.cand point)).foldl KMeans.keep (DBL_MAX, 0))) := by
  induction sched with
  | nil => rfl
  | cons w ws ih =>
    simp only [KMeans.localMins, km.worker_eq point hr w (hs w (by simp)),
      ih (fun v hv => hs v (List.mem_cons_of_mem w hv)), Fault.ok_bind, Fault.pure_eq,
      List.map_cons]

theorem KMeans.combine_eq_foldl (l : List (ℚ × Int)) (best : ℚ × Int) :
    KMeans.combine l best = l.foldl KMeans.keep best := by
  induction l generalizing best with
  | nil => rfl
  | cons x rest ih =>
    simp only [KMeans.combine, List.foldl_cons, KMeans.keep, ih]

theorem KMeans.keep_fst_le (best x : ℚ × Int) : (KMeans.keep best x).1 ≤ best.1 := by
  unfold KMeans.keep
  split
  · next h => exact le_of_lt h
  · exact le_rfl

theorem KMeans.foldl_keep_fst_le (l : List (ℚ × Int)) (best : ℚ × Int) :
    (l.foldl KMeans.keep best).1 ≤ best.1 := by
  induction l generalizing best with
  | nil => exact le_rfl
  | cons x rest ih =>
    exact le_trans (ih (KMeans.keep best x)) (KMeans.keep_fst_le best x)

/-- Folding from `s` is folding from a start `t` that is no better, then comparing once. -/
theorem KMeans.foldl_keep_split (l : List (ℚ × Int)) (s t : ℚ × Int) (hst : s.1 ≤ t.1) :
    l.foldl KMeans.keep s = KMeans.keep s (l.foldl KMeans.keep t) := by
  induction l generalizing s t with
  | nil =>
    simp only [List.foldl_nil, KMeans.keep]
    rw [if_neg (not_lt.mpr hst)]
  | cons x rest ih =>
    simp only [List.foldl_cons]
    by_cases h1 : x.1 < s.1
    · have h2 : x.1 < t.1 := lt_of_lt_of_le h1 hst
      have e1 : KMeans.keep s x = x := by simp [KMeans.keep, h1]
      have e2 : KMeans.keep t x = x := by simp [KMeans.keep, h2]
      rw [e1, e2]
      have hle := KMeans.foldl_keep_fst_le rest x
      simp only [KMeans.keep]
      rw [if_pos (lt_of_le_of_lt hle h1)]
    · have e1 : KMeans.keep s x = s := by simp [KMeans.keep, h1]
      rw [e1]
      by_cases h2 : x.1 < t.1
      · have e2 : KMeans.keep t x = x := by simp [KMeans.keep, h2]
        rw [e2]
        exact ih s x (not_lt.mp h1)
      · have e2 : KMeans.keep t x = t := by simp [KMeans.keep, h2]
        rw [e2]
        exact ih s t hst

/-- The two-level reduction is the single scan of the concatenated schedule. -/
theorem KMeans.foldl_two_level (f : Nat → ℚ × Int) (init : ℚ × Int) (sched : List (List Nat))
    (best : ℚ × Int) (hb : best.1 ≤ init.1) :
    (sched.map (fun w => (w.map f).foldl KMeans.keep init)).foldl KMeans.keep best =
      (sched.flatten.map f).foldl KMeans.keep best := by
  induction sched generalizing best with
  | nil => rfl
  | cons w ws ih =>
    simp only [List.map_cons, List.foldl_cons, List.flatten_cons, List.map_append,
      List.foldl_append]
    rw [← KMeans.foldl_keep_split (w.map f) best init hb]
    exact ih _ (le_trans (KMeans.foldl_keep_fst_le _ _) hb)

theorem KMeans.getIDNearestCenter_eq_scan (km : KMeans) (sched : List (List Nat))
    (point : Point) (hr : km.SearchReady point)
    (hs : ∀ w ∈ sched, ∀ i ∈ w, i < km.K.toNat) :
    km.getIDNearestCenter sched point = Except.ok (km.scan point sched.flatten).2 := by
  simp only [KMeans.getIDNearestCenter, km.localMins_eq point hr sched hs, Fault.ok_bind,
    Fault.pure_eq, KMeans.combine_eq_foldl, KMeans.scan]
  rw [KMeans.foldl_two_level (km.cand point) (DBL_MAX, 0) sched (DBL_MAX, 0) le_rfl]

/-- What a scan with the strict comparison keeps: either nothing beat the start, or the
kept pair is the first element of the list among those of least distance. -/
theorem KMeans.foldl_keep_spec (l : List (ℚ × Int)) (init : ℚ × Int) :
    (l.foldl KMeans.keep init = init ∧ ∀ x ∈ l, init.1 ≤ x.1) ∨
    ((l.foldl KMeans.keep init).1 < init.1 ∧
      ∃ before after, l = before ++ l.foldl KMeans.keep init :: after ∧
        (∀ x ∈ before, (l.foldl KMeans.keep init).1 < x.1) ∧
        (∀ x ∈ after, (l.foldl KMeans.keep init).1 ≤ x.1)) := by
  induction l generalizing init with
  | nil => exact Or.inl ⟨rfl, by simp⟩
  | cons x rest ih =>
    simp only [List.foldl_cons]
    by_cases h1 : x.1 < init.1
    · have e1 : KMeans.keep init x = x := by simp [KMeans.keep, h1]
      rw [e1]
      rcases ih x with ⟨hx, hall⟩ | ⟨hlt, before, after, hl, hb, ha⟩
      · refine Or.inr ⟨by rw [hx]; exact h1, [], rest, by rw [hx]; rfl, by simp, ?_⟩
        rw [hx]
        exact hall
      · refine Or.inr ⟨lt_trans hlt h1, x :: before, after, ?_, ?_, ha⟩
        · rw [List.cons_append, ← hl]
        · intro y hy
          rcases List.mem_cons.mp hy with rfl | hy
          · exact hlt
          · exact hb y hy
    · have e1 : KMeans.keep init x = init := by simp [KMeans.keep, h1]
      rw [e1]
      rcases ih init with ⟨hx, hall⟩ | ⟨hlt, before, after, hl, hb, ha⟩
      · refine Or.inl ⟨hx, ?_⟩
        intro y hy
        rcases List.mem_cons.mp hy with rfl | hy
        · exact not_lt.mp h1
        · exact hall y hy
      · refine Or.inr ⟨hlt, x :: before, after, ?_, ?_, ha⟩
        · rw [List.cons_append, ← hl]
        · intro y hy
          rcases List.mem_cons.mp hy with rfl | hy
          · exact lt_of_lt_of_le hlt (not_lt.mp h1)
          · exact hb y hy

theorem KMeans.mem_of_valid (km : KMeans) (sched : List (List Nat))
    (hs : km.ValidSchedule sched) (i : Nat) : i ∈ sched.flatten ↔ i < km.K.toNat := by
  rw [List.Perm.mem_iff hs, List.mem_range]

theorem KMeans.valid_bound (km : KMeans) (sched : List (List Nat))
    (hs : km.ValidSchedule sched) : ∀ w ∈ sched, ∀ i ∈ w, i < km.K.toNat := by
  intro w hw i hi
  exact (km.mem_of_valid sched hs i).mp (List.mem_flatten.mpr ⟨w, hw, hi⟩)

/-- What the scan of a list of clusters keeps. -/
theorem KMeans.scan_spec (km : KMeans) (point : Point) (order : List Nat) :
    (km.scan point order = (DBL_MAX, 0) ∧ ∀ i ∈ order, DBL_MAX ≤ km.dist point i) ∨
    (∃ before c after, order = before ++ c :: after ∧ km.scan point order = km.cand point c ∧
      km.dist point c < DBL_MAX ∧
      (∀ i ∈ before, km.dist point c < km.dist point i) ∧
      (∀ i ∈ after, km.dist point c ≤ km.dist point i)) := by
  rcases KMeans.foldl_keep_spec (order.map (km.cand point)) (DBL_MAX, 0) with
    ⟨h0, hall⟩ | ⟨hlt, before, after, hl, hb, ha⟩
  · refine Or.inl ⟨h0, ?_⟩
    intro i hi
    exact hall _ (List.mem_map_of_mem _ hi)
  · right
    obtain ⟨b, rest, hbr, hb1, hrest⟩ := List.map_eq_append_iff.mp hl
    obtain ⟨c, a, hca, hc1, ha1⟩ := List.map_eq_cons_iff.mp hrest
    refine ⟨b, c, a, by rw [hbr, hca], hc1.symm, ?_, ?_, ?_⟩
    · have := hlt
      rw [← hc1] at this
      exact this
    · intro i hi
      have := hb (km.cand point i) (by rw [← hb1]; exact List.mem_map_of_mem _ hi)
      rw [← hc1] at this
      exact this
    · intro i hi
      have := ha (km.cand point i) (by rw [← ha1]; exact List.mem_map_of_mem _ hi)
      rw [← hc1] at this
      exact this

/-- The search finds an id in range. -/
theorem KMeans.getIDNearestCenter_range (km : KMeans) (sched : List (List Nat))
    (point : Point) (hK : 1 ≤ km.K) (hr : km.SearchReady point)
    (hs : km.ValidSchedule sched) :
    ∃ c : Nat, km.getIDNearestCenter sched point = Except.ok (c : Int) ∧ c < km.K.toNat := by
  have hmem := km.mem_of_valid sched hs
  rw [km.getIDNearestCenter_eq_scan sched point hr (km.valid_bound sched hs)]
  rcases km.scan_spec point sched.flatten with ⟨h0, _⟩ | ⟨before, c, after, ho, hc, _, _, _⟩
  · exact ⟨0, by rw [h0]; rfl, by omega⟩
  · have hcin : c ∈ sched.flatten := by
      rw [ho]
      simp
    exact ⟨c, by rw [hc]; rfl, (hmem c).mp hcin⟩

theorem tieKM_ready : tieKM.SearchReady originPoint := by
  refine ⟨rfl, ?_, rfl⟩
  intro c hc
  simp only [tieKM, List.mem_cons, List.mem_singleton, List.not_mem_nil, or_false] at hc
  rcases hc with rfl | rfl <;> rfl

theorem tieKM_dist (i : Nat) (hi : i < 2) : tieKM.dist originPoint i = 1 := by
  interval_cases i <;> norm_num [tieKM, KMeans.dist, sqDist, originPoint, Point.new]

theorem zero_lt_DBL_MAX : (0 : ℚ) < DBL_MAX := by
  norm_num [DBL_MAX]

theorem edgeKM_ready : edgeKM.SearchReady originPoint3 := by
  refine ⟨rfl, ?_, rfl⟩
  intro c hc
  simp only [edgeKM, List.mem_cons, List.mem_singleton, List.not_mem_nil, or_false] at hc
  rcases hc with rfl | rfl <;> rfl

theorem edgeKM_dist_zero : edgeKM.dist originPoint3 0 = 2 ^ 1200 := by
  norm_num [edgeKM, KMeans.dist, sqDist, originPoint3, Point.new]

theorem edgeKM_dist_one : edgeKM.dist originPoint3 1 = DBL_MAX := by
  norm_num [edgeKM, KMeans.dist, sqDist, originPoint3, Point.new, DBL_MAX]

theorem DBL_MAX_lt_pow : DBL_MAX < 2 ^ 1200 := by
  norm_num [DBL_MAX]

/-! ## The centroid recompute phase -/

/-- The loop that sums coordinate `j` over the members of cluster `i`. -/
theorem KMeans.sumLoop_eq (clusters : List Cluster) (i j : Nat) (c : Cluster)
    (hi : clusters[i]? = some c) (hv : ∀ q ∈ c.points, j < q.values.length) :
    forLoop c.getTotalPoints (KMeans.sumStep clusters i j) 0 =
      Except.ok (c.points.map (fun q => q.values.getD j 0)).sum := by
  let zs := c.points.map (fun q => q.values.getD j 0)
  have hzlen : zs.length = c.points.length := by simp [zs]
  have h := forLoop_seq c.getTotalPoints (KMeans.sumStep clusters i j)
    (fun p => (zs.take p).sum) (by
      intro p hp
      have hp1 : p < c.points.length := by
        simpa [Cluster.getTotalPoints] using hp
      have hq := hv (c.points.get ⟨p, hp1⟩) (List.get_mem _ _ _)
      simp only [KMeans.sumStep, vecGet_of_getElem? clusters i c hi, Fault.ok_bind,
        Cluster.getPoint, vecGet_natCast _ p hp1, Point.getValue, vecGet_natCast _ j hq,
        Fault.pure_eq]
      rw [List.sum_take_succ zs p (by omega)]
      have hq1 : j < c.points[p].values.length := hq
      simp [zs, List.getElem?_eq_getElem hq1])
  simp only [List.take_zero, List.sum_nil] at h
  rw [h]
  have : c.getTotalPoints.toNat = zs.length := by simp [Cluster.getTotalPoints, zs]
  rw [this, List.take_length]

theorem Cluster.recenterUpTo_points (d : Nat) (c : Cluster) (j : Nat) :
    (c.recenterUpTo d j).points = c.points := rfl

theorem Cluster.recenterUpTo_central (d : Nat) (c : Cluster) (j : Nat) :
    (c.recenterUpTo d j).central_values =
      mixAt ((List.range d).map c.mean) c.central_values j := rfl

theorem KMeans.recomputeValue_eq (cs : List Cluster) (i j d : Nat) (c : Cluster)
    (hi : cs[i]? = some c) (hne : c.points.length ≠ 0) (hcv : c.central_values.length = d)
    (hv : ∀ q ∈ c.points, q.values.length = d) (hj : j < d) :
    KMeans.recomputeValue i j (cs.set i (c.recenterUpTo d j)) =
      Except.ok (cs.set i (c.recenterUpTo d (j + 1))) := by
  have hilt : i < cs.length := (List.getElem?_eq_some.mp hi).1
  have hlen : ((List.range d).map c.mean).length = c.central_values.length := by simp [hcv]
  have hget : (cs.set i (c.recenterUpTo d j))[i]? = some (c.recenterUpTo d j) := by
    simp [List.getElem?_set_self hilt]
  have hsum := KMeans.sumLoop_eq _ i j _ hget (by
    intro q hq
    rw [hv q hq]
    exact hj)
  have hpos : (0 : Int) < (c.points.length : Int) := by omega
  have hnz : ¬ ((c.points.length : Int) = 0) := by omega
  have hmix : (mixAt ((List.range d).map c.mean) c.central_values j)[j]? =
      c.central_values[j]? := mixAt_getElem _ _ j (by simp [hj])
  have hcj : c.central_values[j]? = some (c.central_values.get ⟨j, by omega⟩) := by
    simp [List.getElem?_eq_getElem (show j < c.central_values.length by omega)]
  have hmean : ((List.range d).map c.mean)[j]? = some (c.mean j) := by
    simp [List.getElem?_range hj]
  simp only [Cluster.getTotalPoints, Cluster.recenterUpTo_points] at hsum
  simp only [KMeans.recomputeValue, vecGet_of_getElem? _ i _ hget, Fault.ok_bind,
    Cluster.getTotalPoints, gt_iff_lt, Cluster.recenterUpTo_points, hpos, if_true, hsum,
    divDouble, hnz, if_false, Cluster.setCentralValue, Cluster.recenterUpTo_central,
    vecSet_of_getElem? _ j _ _ (hmix.trans hcj), Fault.pure_eq,
    vecSet_of_getElem? _ i _ _ hget, List.set_set]
  congr 2
  have hm := mixAt_set _ _ j (c.mean j) hlen hmean
  simp only [Cluster.recenterUpTo, ← hm, Cluster.mean, Int.cast_natCast]

theorem Cluster.recenter_points (d : Nat) (c : Cluster) : (c.recenter d).points = c.points := by
  unfold Cluster.recenter
  split <;> rfl

theorem Cluster.recenter_length (d : Nat) (c : Cluster) (h : c.central_values.length = d) :
    (c.recenter d).central_values.length = d := by
  unfold Cluster.recenter
  split
  · exact h
  · simp

theorem Cluster.recenter_idem (d : Nat) (c : Cluster) :
    (c.recenter d).recenter d = c.recenter d := by
  by_cases h : c.points.length = 0
  · simp [Cluster.recenter, h]
  · simp [Cluster.recenter, h, Cluster.mean]

theorem Cluster.recenter_countID (d : Nat) (c : Cluster) (id : Int) :
    (c.recenter d).countID id = c.countID id := by
  rw [Cluster.countID, Cluster.recenter_points, Cluster.countID]

theorem Cluster.recenter_ofSeed (d : Nat) (id : Int) (p : Point)
    (h : p.values.length = d) :
    Cluster.recenter d (Cluster.ofSeed id p) = Cluster.ofSeed id p := by
  subst h
  have hm : (Cluster.ofSeed id p).mean = fun i => p.values.getD i 0 := by
    funext i
    simp [Cluster.mean, Cluster.ofSeed]
  simp only [Cluster.recenter, hm, range_map_getD]
  simp [Cluster.ofSeed]

/-- The loop over the dimensions for one cluster. -/
theorem KMeans.recomputeCluster_eq (km : KMeans) (cs : List Cluster) (i : Nat) (c : Cluster)
    (hi : cs[i]? = some c) (hcv : c.central_values.length = km.total_values.toNat)
    (hv : ∀ q ∈ c.points, q.values.length = km.total_values.toNat) :
    km.recomputeCluster i cs = Except.ok (cs.set i (c.recenter km.total_values.toNat)) := by
  have hilt : i < cs.length := (List.getElem?_eq_some.mp hi).1
  have hself : cs.set i c = cs := by
    apply List.ext_getElem?
    intro k
    by_cases hk : i = k
    · subst hk
      rw [List.getElem?_set_self hilt, hi]
    · rw [List.getElem?_set_ne hk]
  by_cases hne : c.points.length = 0
  · have h := forLoop_seq km.total_values (KMeans.recomputeValue i) (fun _ => cs) (by
      intro j _
      simp [KMeans.recomputeValue, vecGet_of_getElem? cs i c hi, Fault.ok_bind,
        Cluster.getTotalPoints, hne, Fault.pure_eq])
    rw [KMeans.recomputeCluster, h, Cluster.recenter, if_pos hne, hself]
  · have h := forLoop_seq km.total_values (KMeans.recomputeValue i)
      (fun j => cs.set i (c.recenterUpTo km.total_values.toNat j)) (by
      intro j hj
      exact KMeans.recomputeValue_eq cs i j _ c hi hne hcv hv hj)
    have h0 : c.recenterUpTo km.total_values.toNat 0 = c := by
      simp [Cluster.recenterUpTo, mixAt_zero]
    have hd : c.recenterUpTo km.total_values.toNat km.total_values.toNat =
        c.recenter km.total_values.toNat := by
      have hl : ((List.range km.total_values.toNat).map c.mean).length =
          c.central_values.length := by simp [hcv]
      have := mixAt_length _ _ hl
      simp only [List.length_map, List.length_range] at this
      simp [Cluster.recenterUpTo, Cluster.recenter, hne, this]
    simp only [h0, hself, hd] at h
    rw [KMeans.recomputeCluster, h]

/-- The recompute phase in closed form. -/
theorem KMeans.recomputePhase_eq (km : KMeans) (hr : km.ClustersReady km.clusters) :
    km.recomputePhase = Except.ok (km.clusters.map (Cluster.recenter km.total_values.toNat)) := by
  obtain ⟨hlen, hcv, hv⟩ := hr
  have hl : (km.clusters.map (Cluster.recenter km.total_values.toNat)).length =
      km.clusters.length := by simp
  have h := forLoop_seq km.K km.recomputeCluster
    (fun i => mixAt (km.clusters.map (Cluster.recenter km.total_values.toNat)) km.clusters i) (by
      intro i hi
      have hilt : i < km.clusters.length := by omega
      have hc : km.clusters[i]? = some (km.clusters.get ⟨i, hilt⟩) := by
        simp [List.getElem?_eq_getElem hilt]
      have hmem : km.clusters.get ⟨i, hilt⟩ ∈ km.clusters := List.get_mem _ _ _
      have hg := mixAt_getElem (km.clusters.map (Cluster.recenter km.total_values.toNat))
        km.clusters i (by simpa using hilt)
      rw [km.recomputeCluster_eq _ i _ (hg.trans hc) (hcv _ hmem) (hv _ hmem)]
      rw [mixAt_set _ _ i _ hl (by simp [hc])])
  have hfin := mixAt_length _ _ hl
  simp only [List.length_map] at hfin
  simp only [mixAt_zero, ← hlen, hfin] at h
  rw [KMeans.recomputePhase, h]

/-- The recompute phase never faults on clusters of the right shape; it keeps the shape and
the bookkeeping and leaves the centroids centered. -/
theorem KMeans.recomputePhase_inv (km : KMeans) (pts : List Point)
    (hcs : km.ClustersReady km.clusters) (hM : MembersConsistent km.clusters pts) :
    ∃ cs2, km.recomputePhase = Except.ok cs2 ∧
      cs2 = km.clusters.map (Cluster.recenter km.total_values.toNat) ∧
      km.ClustersReady cs2 ∧ MembersConsistent cs2 pts ∧ km.Centered cs2 := by
  refine ⟨_, km.recomputePhase_eq hcs, rfl, ⟨?_, ?_, ?_⟩, ⟨hM.1, ?_, ?_⟩, ?_⟩
  · simpa using hcs.1
  · intro c hc
    obtain ⟨c0, hc0, rfl⟩ := List.mem_map.mp hc
    exact Cluster.recenter_length _ c0 (hcs.2.1 c0 hc0)
  · intro c hc q hq
    obtain ⟨c0, hc0, rfl⟩ := List.mem_map.mp hc
    rw [Cluster.recenter_points] at hq
    exact hcs.2.2 c0 hc0 q hq
  · intro j p hp t c hc
    rw [List.getElem?_map] at hc
    obtain ⟨c0, hc0, rfl⟩ := Option.map_eq_some'.mp hc
    rw [Cluster.recenter_countID]
    exact hM.2.1 j p hp t c0 hc0
  · intro c hc q hq
    obtain ⟨c0, hc0, rfl⟩ := List.mem_map.mp hc
    rw [Cluster.recenter_points] at hq
    exact hM.2.2 c0 hc0 q hq
  · simp only [KMeans.Centered, List.map_map]
    apply List.map_congr_left
    intro c _
    exact Cluster.recenter_idem _ c

theorem pairKM_ready : pairKM.ClustersReady pairKM.clusters := by
  unfold KMeans.ClustersReady pairKM
  decide

/-- C2: after the centroid recompute phase (on `K` clusters whose centroids and members have
`total_values` coordinates, as in a run), the member lists are unchanged, and for every cluster
with at least one member and every dimension `j`, the centroid component `j` is the sum of
coordinate `j` over the members divided by the member count. -/
theorem KMeans.recomputePhase_means (km : KMeans) (hr : km.ClustersReady km.clusters) :
    ∃ cs, km.recomputePhase = Except.ok cs ∧ cs.length = km.clusters.length ∧
      ∀ (i : Nat) (c : Cluster), cs[i]? = some c →
        (∃ c0, km.clusters[i]? = some c0 ∧ c.points = c0.points) ∧
        (1 ≤ c.getTotalPoints → ∀ j : Nat, (j : Int) < km.total_values →
          c.central_values[j]? =
            some ((c.points.map (fun q => q.values.getD j 0)).sum / (c.points.length : ℚ))) := by
  refine ⟨_, km.recomputePhase_eq hr, by simp, ?_⟩
  intro i c hc
  rw [List.getElem?_map] at hc
  obtain ⟨c0, hc0, rfl⟩ := Option.map_eq_some'.mp hc
  refine ⟨⟨c0, hc0, Cluster.recenter_points _ c0⟩, ?_⟩
  intro hmem j hj
  have hne : ¬ c0.points.length = 0 := by
    rw [Cluster.getTotalPoints, Cluster.recenter_points] at hmem
    omega
  have hjd : j < km.total_values.toNat := by omega
  rw [Cluster.recenter_points]
  simp only [Cluster.recenter, if_neg hne]
  rw [List.getElem?_map, List.getElem?_range hjd]
  rfl

/-- C2, witness: the recompute phase on `pairKM`. -/
theorem KMeans.recomputePhase_means_witness :
    ∃ cs, pairKM.recomputePhase = Except.ok cs ∧ cs.length = pairKM.clusters.length ∧
      ∀ (i : Nat) (c : Cluster), cs[i]? = some c →
        (∃ c0, pairKM.clusters[i]? = some c0 ∧ c.points = c0.points) ∧
        (1 ≤ c.getTotalPoints → ∀ j : Nat, (j : Int) < pairKM.total_values →
          c.central_values[j]? =
            some ((c.points.map (fun q => q.values.getD j 0)).sum / (c.points.length : ℚ))) :=
  KMeans.recomputePhase_means pairKM pairKM_ready

/-- C8: in the centroid recompute phase (on `K` clusters whose centroids and members have
`total_values` coordinates), every cluster that has zero members is left as it was, centroid
included; the body of the loop over the dimensions returns at once for such a cluster, and the
phase ends without the fault of a division by zero. -/
theorem KMeans.recomputePhase_empty_unchanged (km : KMeans)
    (hr : km.ClustersReady km.clusters) :
    ∃ cs, km.recomputePhase = Except.ok cs ∧
      km.recomputePhase ≠ Except.error Fault.divisionByZero ∧
      ∀ (i : Nat) (c0 : Cluster), km.clusters[i]? = some c0 → c0.getTotalPoints = 0 →
        cs[i]? = some c0 ∧
        ∀ j : Nat, KMeans.recomputeValue i j km.clusters = Except.ok km.clusters := by
  have h := km.recomputePhase_eq hr
  refine ⟨_, h, by rw [h]; simp, ?_⟩
  intro i c0 hc0 hz
  have hlen : c0.points.length = 0 := by
    rw [Cluster.getTotalPoints] at hz
    omega
  constructor
  · rw [List.getElem?_map, hc0]
    simp [Cluster.recenter, hlen]
  · intro j
    simp [KMeans.recomputeValue, vecGet_of_getElem? _ i c0 hc0, Fault.ok_bind,
      Cluster.getTotalPoints, hlen, Fault.pure_eq]

/-- C8, witness: the recompute phase on `pairKM`, whose cluster 1 has no member. -/
theorem KMeans.recomputePhase_empty_unchanged_witness :
    ∃ cs, pairKM.recomputePhase = Except.ok cs ∧
      pairKM.recomputePhase ≠ Except.error Fault.divisionByZero ∧
      ∀ (i : Nat) (c0 : Cluster), pairKM.clusters[i]? = some c0 → c0.getTotalPoints = 0 →
        cs[i]? = some c0 ∧
        ∀ j : Nat, KMeans.recomputeValue i j pairKM.clusters = Except.ok pairKM.clusters :=
  KMeans.recomputePhase_empty_unchanged pairKM pairKM_ready

/-! ## The assignment phase -/

theorem KMeans.leaveOld_eq (cs : List Cluster) (old : Int) (id : Int)
    (h : old = -1 ∨ (0 ≤ old ∧ old.toNat < cs.length)) :
    ∃ cs1, KMeans.leaveOld cs old id = Except.ok cs1 ∧ cs1.length = cs.length ∧
      ∀ t : Nat, cs1[t]? =
        (cs[t]?).map (fun c => if (t : Int) = old then (c.removePoint id).2 else c) := by
  by_cases h1 : old = -1
  · refine ⟨cs, by simp [KMeans.leaveOld, h1, Fault.pure_eq], rfl, ?_⟩
    intro t
    have : ¬ ((t : Int) = old) := by omega
    cases cs[t]? <;> simp [this]
  · rcases h with h | ⟨h0, hlt⟩
    · exact absurd h h1
    · have hc : cs[old.toNat]? = some (cs.get ⟨old.toNat, hlt⟩) := by
        simp [List.getElem?_eq_getElem hlt]
      refine ⟨cs.set old.toNat ((cs.get ⟨old.toNat, hlt⟩).removePoint id).2, ?_,
        List.length_set _ _ _, ?_⟩
      · simp only [KMeans.leaveOld, ne_eq, h1, not_false_eq_true, if_true,
          vecGet_toNat cs old _ h0 hc, Fault.ok_bind]
        exact vecSet_toNat cs old _ _ h0 hc
      · intro t
        rw [getElem?_set_map cs old.toNat _ (fun c => (c.removePoint id).2) hc t]
        have : (t = old.toNat) ↔ ((t : Int) = old) := by omega
        cases cs[t]? <;> simp [this]

theorem KMeans.joinNearest_eq (cs : List Cluster) (near : Nat) (p1 : Point)
    (h : near < cs.length) :
    ∃ cs2, KMeans.joinNearest cs (near : Int) p1 = Except.ok cs2 ∧ cs2.length = cs.length ∧
      ∀ t : Nat, cs2[t]? = (cs[t]?).map (fun c => if t = near then c.addPoint p1 else c) := by
  have hc : cs[near]? = some (cs.get ⟨near, h⟩) := by
    simp [List.getElem?_eq_getElem h]
  refine ⟨cs.set near ((cs.get ⟨near, h⟩).addPoint p1), ?_, List.length_set _ _ _, ?_⟩
  · simp only [KMeans.joinNearest, vecGet_of_getElem? cs near _ hc, Fault.ok_bind]
    exact vecSet_of_getElem? cs near _ _ hc
  · intro t
    exact getElem?_set_map cs near _ (fun c => c.addPoint p1) hc t

/-- One step of the assignment phase in closed form. -/
theorem KMeans.assignPoint_eq (km : KMeans) (sch : List (List Nat)) (i : Nat) (s : PhaseState)
    (p : Point) (hK : 1 ≤ km.K) (hv : km.ValidSchedule sch)
    (hcs : km.ClustersReady s.clusters) (hp : s.points[i]? = some p)
    (hpv : p.values.length = km.total_values.toNat)
    (hold : p.getCluster = -1 ∨ (0 ≤ p.getCluster ∧ p.getCluster < km.K)) :
    ∃ near : Nat, near < km.K.toNat ∧
      KMeans.getIDNearestCenter { km with clusters := s.clusters } sch p =
        Except.ok (near : Int) ∧
      ((p.getCluster = (near : Int) ∧ km.assignPoint sch i s = Except.ok s) ∨
       (p.getCluster ≠ (near : Int) ∧ ∃ cs2,
          km.assignPoint sch i s = Except.ok
            { clusters := cs2, points := s.points.set i (p.setCluster near), done := false } ∧
          cs2.length = s.clusters.length ∧
          ∀ t : Nat, cs2[t]? =
            (s.clusters[t]?).map (Cluster.moved p.getCluster near (p.setCluster near) t))) := by
  have hr : KMeans.SearchReady { km with clusters := s.clusters } p := ⟨hcs.1, hcs.2.1, hpv⟩
  obtain ⟨near, hnear, hlt⟩ :=
    KMeans.getIDNearestCenter_range { km with clusters := s.clusters } sch p hK hr hv
  have hlt : near < km.K.toNat := hlt
  refine ⟨near, hlt, hnear, ?_⟩
  by_cases heq : p.getCluster = (near : Int)
  · left
    refine ⟨heq, ?_⟩
    simp only [KMeans.assignPoint, vecGet_of_getElem? _ i p hp, Fault.ok_bind, hnear, heq,
      ne_eq, not_true_eq_false, if_false, Fault.pure_eq]
  · right
    refine ⟨heq, ?_⟩
    have hlen : s.clusters.length = km.K.toNat := hcs.1
    obtain ⟨cs1, h1, hl1, hg1⟩ := KMeans.leaveOld_eq s.clusters p.getCluster p.getID (by
      rcases hold with h | ⟨h0, hK1⟩
      · exact Or.inl h
      · right
        constructor
        · exact h0
        · omega)
    obtain ⟨cs2, h2, hl2, hg2⟩ := KMeans.joinNearest_eq cs1 near (p.setCluster near) (by omega)
    have hi : i < s.points.length := (List.getElem?_eq_some.mp hp).1
    have hp1 : (s.points.set i (p.setCluster near))[i]? = some (p.setCluster near) :=
      List.getElem?_set_self hi
    refine ⟨cs2, ?_, by omega, ?_⟩
    · simp only [KMeans.assignPoint, vecGet_of_getElem? _ i p hp, Fault.ok_bind, hnear, ne_eq,
        heq, not_false_eq_true, if_true, h1, vecSet_of_getElem? _ i p _ hp,
        vecGet_of_getElem? _ i _ hp1, h2, Fault.pure_eq]
    · intro t
      rw [hg2 t, hg1 t]
      cases s.clusters[t]? with
      | none => rfl
      | some c => rfl

/-- A step of the assignment phase whose search returns the cluster the point is in. -/
theorem KMeans.assignPoint_stay (km : KMeans) (sch : List (List Nat)) (i : Nat)
    (s : PhaseState) (p : Point) (near : Int) (hp : s.points[i]? = some p)
    (hn : KMeans.getIDNearestCenter { km with clusters := s.clusters } sch p = Except.ok near)
    (he : p.getCluster = near) : km.assignPoint sch i s = Except.ok s := by
  simp only [KMeans.assignPoint, vecGet_of_getElem? _ i p hp, Fault.ok_bind, hn, he, ne_eq,
    not_true_eq_false, if_false, Fault.pure_eq]

/-- A step of the assignment phase whose search returns another cluster than the one the point
is in: whatever the step returns has `done` cleared and the point retagged. -/
theorem KMeans.assignPoint_move (km : KMeans) (sch : List (List Nat)) (i : Nat)
    (s s1 : PhaseState) (p : Point) (near : Int) (hp : s.points[i]? = some p)
    (hn : KMeans.getIDNearestCenter { km with clusters := s.clusters } sch p = Except.ok near)
    (he : p.getCluster ≠ near) (h : km.assignPoint sch i s = Except.ok s1) :
    s1.done = false ∧ s1.points = s.points.set i (p.setCluster near) := by
  simp only [KMeans.assignPoint, vecGet_of_getElem? _ i p hp, Fault.ok_bind, hn, ne_eq, he,
    not_false_eq_true, if_true] at h
  obtain ⟨cs1, _, g1⟩ := Fault.bind_eq_ok _ _ _ h
  obtain ⟨pts1, h2, g2⟩ := Fault.bind_eq_ok _ _ _ g1
  obtain ⟨p1, _, g3⟩ := Fault.bind_eq_ok _ _ _ g2
  obtain ⟨cs2, _, g4⟩ := Fault.bind_eq_ok _ _ _ g3
  have hs := (Except.ok.inj g4).symm
  have hset := vecSet_eq_ok _ _ _ _ h2
  subst hs
  exact ⟨rfl, by simpa using hset⟩

theorem ids_set (pts : List Point) (i : Nat) (p : Point) (c : Int) (h : pts[i]? = some p) :
    (pts.set i (p.setCluster c)).map Point.getID = pts.map Point.getID := by
  rw [List.map_set]
  apply set_same
  rw [List.getElem?_map, h]
  rfl

theorem ids_inj (pts : List Point) (hn : (pts.map Point.getID).Nodup) (i j : Nat)
    (p q : Point) (hp : pts[i]? = some p) (hq : pts[j]? = some q)
    (hid : q.getID = p.getID) : j = i := by
  have hi : i < (pts.map Point.getID).length := by
    simpa using (List.getElem?_eq_some.mp hp).1
  have hj : j < (pts.map Point.getID).length := by
    simpa using (List.getElem?_eq_some.mp hq).1
  have h1 : (pts.map Point.getID)[i] = p.getID := by
    have := (List.getElem?_eq_some.mp hp).2
    simp [this]
  have h2 : (pts.map Point.getID)[j] = q.getID := by
    have := (List.getElem?_eq_some.mp hq).2
    simp [this]
  exact (List.Nodup.getElem_inj_iff hn).mp (by rw [h1, h2, hid])

/-- One step of the assignment phase keeps the shape and the bookkeeping, tags the point it
visits with a cluster, and either changes nothing or clears `done`. -/
theorem KMeans.assignPoint_inv (km : KMeans) (sch : List (List Nat)) (i : Nat)
    (s : PhaseState) (hK : 1 ≤ km.K) (hv : km.ValidSchedule sch)
    (hcs : km.ClustersReady s.clusters) (hps : km.PointsReady s.points)
    (hM : MembersConsistent s.clusters s.points) (hi : i < km.total_points.toNat) :
    ∃ s1, km.assignPoint sch i s = Except.ok s1 ∧
      km.ClustersReady s1.clusters ∧ km.PointsReady s1.points ∧
      MembersConsistent s1.clusters s1.points ∧
      (∃ p1, s1.points[i]? = some p1 ∧ 0 ≤ p1.getCluster) ∧
      (∀ j : Nat, j ≠ i → s1.points[j]? = s.points[j]?) ∧
      (s1 = s ∨ s1.done = false) := by
  obtain ⟨hplen, hpval, hptag⟩ := hps
  have hilt : i < s.points.length := by omega
  have hp : s.points[i]? = some (s.points.get ⟨i, hilt⟩) := by
    simp [List.getElem?_eq_getElem hilt]
  generalize s.points.get ⟨i, hilt⟩ = p at hp
  have hpmem : p ∈ s.points := List.mem_iff_getElem?.mpr ⟨i, hp⟩
  obtain ⟨near, hnear, _, hcase⟩ :=
    km.assignPoint_eq sch i s p hK hv hcs hp (hpval p hpmem) (hptag p hpmem)
  rcases hcase with ⟨heq, hres⟩ | ⟨hne, cs2, hres, hl2, hg⟩
  · refine ⟨s, hres, hcs, ⟨hplen, hpval, hptag⟩, hM, ⟨p, hp, ?_⟩, fun _ _ => rfl, Or.inl rfl⟩
    rw [heq]
    omega
  · obtain ⟨hclen, hccv, hcmem⟩ := hcs
    obtain ⟨hnd, hcount, hsub⟩ := hM
    have hids := ids_set s.points i p (near : Int) hp
    -- every cluster afterwards is the moved image of the cluster before
    have hfrom : ∀ (t : Nat) (c2 : Cluster), cs2[t]? = some c2 →
        ∃ c0, s.clusters[t]? = some c0 ∧
          c2 = Cluster.moved p.getCluster near (p.setCluster near) t c0 := by
      intro t c2 hc2
      rw [hg t] at hc2
      obtain ⟨c0, hc0, rfl⟩ := Option.map_eq_some'.mp hc2
      exact ⟨c0, hc0, rfl⟩
    refine ⟨_, hres, ⟨hl2.trans hclen, ?_, ?_⟩, ⟨by simpa using hplen, ?_, ?_⟩, ⟨?_, ?_, ?_⟩,
      ⟨p.setCluster near, List.getElem?_set_self hilt, ?_⟩, ?_, Or.inr rfl⟩
    · intro c2 hc2
      obtain ⟨t, ht⟩ := List.mem_iff_getElem?.mp hc2
      obtain ⟨c0, hc0, rfl⟩ := hfrom t c2 ht
      rw [Cluster.moved_central]
      exact hccv c0 (List.mem_iff_getElem?.mpr ⟨t, hc0⟩)
    · intro c2 hc2 q hq
      obtain ⟨t, ht⟩ := List.mem_iff_getElem?.mp hc2
      obtain ⟨c0, hc0, rfl⟩ := hfrom t c2 ht
      rcases Cluster.moved_mem _ _ _ _ _ q hq with h | rfl
      · exact hcmem c0 (List.mem_iff_getElem?.mpr ⟨t, hc0⟩) q h
      · exact hpval p hpmem
    · intro q hq
      rcases List.mem_or_eq_of_mem_set hq with h | rfl
      · exact hpval q h
      · exact hpval p hpmem
    · intro q hq
      rcases List.mem_or_eq_of_mem_set hq with h | rfl
      · exact hptag q h
      · right
        simp only [Point.getCluster, Point.setCluster]
        omega
    · show ((s.points.set i (p.setCluster near)).map Point.getID).Nodup
      rw [hids]
      exact hnd
    · intro j q hq t c2 hc2
      obtain ⟨c0, hc0, rfl⟩ := hfrom t c2 hc2
      rw [Cluster.moved_countID]
      have hp1id : (p.setCluster (near : Int)).getID = p.getID := rfl
      by_cases hji : j = i
      · subst hji
        have hq1 : q = p.setCluster near := by
          have h1 : (s.points.set j (p.setCluster near))[j]? = some (p.setCluster near) :=
            List.getElem?_set_self hilt
          have h2 : (s.points.set j (p.setCluster near))[j]? = some q := hq
          rw [h1] at h2
          exact (Option.some.inj h2).symm
        subst hq1
        have hc := hcount j p hp t c0 hc0
        have hq2 : (p.setCluster (near : Int)).getCluster = (near : Int) := rfl
        rw [hp1id, hc, hq2]
        by_cases htn : t = near
        · subst htn
          have h1 : ¬ p.getCluster = (t : Int) := hne
          have h2 : ¬ ((t : Int) = p.getCluster) := fun e => hne e.symm
          simp [h1, h2]
        · have h3 : ¬ ((near : Int) = (t : Int)) := by omega
          by_cases hto : p.getCluster = (t : Int)
          · simp [hto, htn, h3]
          · have h2 : ¬ ((t : Int) = p.getCluster) := fun e => hto e.symm
            simp [hto, h2, htn, h3]
      · have hq0 : s.points[j]? = some q := by
          have h2 : (s.points.set i (p.setCluster near))[j]? = some q := hq
          rw [List.getElem?_set_ne (fun e => hji e.symm)] at h2
          exact h2
        have hidne : ¬ q.getID = p.getID := fun e => hji (ids_inj s.points hnd i j p q hp hq0 e)
        have hidne2 : ¬ p.getID = q.getID := fun e => hidne e.symm
        rw [hp1id, hcount j q hq0 t c0 hc0]
        simp [hidne, hidne2]
    · intro c2 hc2 q hq
      obtain ⟨t, ht⟩ := List.mem_iff_getElem?.mp hc2
      obtain ⟨c0, hc0, rfl⟩ := hfrom t c2 ht
      show q.getID ∈ (s.points.set i (p.setCluster near)).map Point.getID
      rw [hids]
      rcases Cluster.moved_mem _ _ _ _ _ q hq with h | rfl
      · exact hsub c0 (List.mem_iff_getElem?.mpr ⟨t, hc0⟩) q h
      · exact List.mem_map.mpr ⟨p, hpmem, rfl⟩
    · simp only [Point.getCluster, Point.setCluster]
      omega
    · intro j hji
      exact List.getElem?_set_ne (fun e => hji e.symm)

/-- The assignment phase never faults on a state of the right shape; it keeps the shape and
the bookkeeping, leaves every point assigned, and when `done` is still true at its end it has
changed nothing. -/
theorem KMeans.assignPhase_inv (km : KMeans) (sched : Nat → List (List Nat))
    (pts : List Point) (hK : 1 ≤ km.K) (hv : ∀ i, km.ValidSchedule (sched i))
    (hcs : km.ClustersReady km.clusters) (hps : km.PointsReady pts)
    (hM : MembersConsistent km.clusters pts) :
    ∃ s, km.assignPhase sched pts = Except.ok s ∧
      km.ClustersReady s.clusters ∧ km.PointsReady s.points ∧
      MembersConsistent s.clusters s.points ∧ km.AllAssigned s.points ∧
      (s.done = true → s.clusters = km.clusters ∧ s.points = pts) := by
  have h := forLoop_inv km.total_points (fun i s => km.assignPoint (sched i) i s)
    (fun k s => km.ClustersReady s.clusters ∧ km.PointsReady s.points ∧
      MembersConsistent s.clusters s.points ∧
      (∀ j : Nat, j < k → ∃ p, s.points[j]? = some p ∧ 0 ≤ p.getCluster) ∧
      (s.done = true → s.clusters = km.clusters ∧ s.points = pts))
    (by
      intro k hk s ⟨h1, h2, h3, h4, h5⟩
      obtain ⟨s1, hs1, g1, g2, g3, g4, g5, g6⟩ :=
        km.assignPoint_inv (sched k) k s hK (hv k) h1 h2 h3 hk
      refine ⟨s1, hs1, g1, g2, g3, ?_, ?_⟩
      · intro j hj
        by_cases hjk : j = k
        · subst hjk
          exact g4
        · rw [g5 j hjk]
          exact h4 j (by omega)
      · intro hd
        rcases g6 with rfl | hf
        · exact h5 hd
        · rw [hf] at hd
          exact absurd hd (by decide))
    { clusters := km.clusters, points := pts, done := true }
    ⟨hcs, hps, hM, fun j hj => absurd hj (Nat.not_lt_zero j), fun _ => ⟨rfl, rfl⟩⟩
  obtain ⟨s, hs, h1, h2, h3, h4, h5⟩ := h
  refine ⟨s, hs, h1, h2, h3, ?_, h5⟩
  intro p hp
  obtain ⟨j, hj⟩ := List.mem_iff_getElem?.mp hp
  have hjlt : j < s.points.length := (List.getElem?_eq_some.mp hj).1
  obtain ⟨q, hq, hq0⟩ := h4 j (by rw [← h2.1]; exact hjlt)
  rw [hj] at hq
  have : p = q := Option.some.inj hq
  subst this
  rcases h2.2.2 p hp with h | h
  · omega
  · exact h

/-! ## The convergence loop -/

theorem KMeans.loop_exit (km : KMeans) (sched : Int → Nat → List (List Nat))
    (pts : List Point) (iter : Int) (trace : List Snapshot) (s : PhaseState)
    (cs2 : List Cluster) (h1 : km.assignPhase (sched iter) pts = Except.ok s)
    (h2 : KMeans.recomputePhase { km with clusters := s.clusters } = Except.ok cs2)
    (h3 : s.done = true ∨ iter ≥ km.max_iterations) :
    km.loop sched pts iter trace = Except.ok
      { km := { km with clusters := cs2 }, points := s.points, iter := iter, done := s.done
        trace := trace ++ iterationTrace iter s.clusters cs2 s.points } := by
  rw [KMeans.loop]
  simp only [h1, Fault.ok_bind, h2, h3, dite_true, Fault.pure_eq, iterationTrace]

theorem KMeans.loop_continue (km : KMeans) (sched : Int → Nat → List (List Nat))
    (pts : List Point) (iter : Int) (trace : List Snapshot) (s : PhaseState)
    (cs2 : List Cluster) (h1 : km.assignPhase (sched iter) pts = Except.ok s)
    (h2 : KMeans.recomputePhase { km with clusters := s.clusters } = Except.ok cs2)
    (h3 : ¬ (s.done = true ∨ iter ≥ km.max_iterations)) :
    km.loop sched pts iter trace =
      KMeans.loop { km with clusters := cs2 } sched s.points (iter + 1)
        (trace ++ iterationTrace iter s.clusters cs2 s.points) := by
  rw [KMeans.loop]
  simp only [h1, Fault.ok_bind, h2, h3, dite_false, iterationTrace]

theorem KMeans.boundaryOK_iteration (km : KMeans) (iter : Int) (cs1 cs2 : List Cluster)
    (pts : List Point) (h1 : km.ClustersReady cs1) (h2 : km.ClustersReady cs2)
    (hp : km.PointsReady pts) (hm1 : MembersConsistent cs1 pts)
    (hm2 : MembersConsistent cs2 pts) (ha : km.AllAssigned pts) (hc : km.Centered cs2) :
    ∀ b ∈ iterationTrace iter cs1 cs2 pts, km.BoundaryOK b := by
  intro b hb
  simp only [iterationTrace, List.mem_cons, List.mem_singleton, List.not_mem_nil,
    or_false] at hb
  rcases hb with rfl | rfl
  · exact ⟨h1, hp, hm1, fun _ => ha, fun h => absurd rfl h⟩
  · exact ⟨h2, hp, hm2, fun _ => ha, fun _ => hc⟩

/-- The convergence loop ends without a fault and its result is as `LoopResultOK` says. -/
theorem KMeans.loop_spec (sched : Int → Nat → List (List Nat)) :
    ∀ (m : Nat) (km : KMeans) (pts : List Point) (iter : Int) (trace : List Snapshot),
      (km.max_iterations - iter).toNat = m → 1 ≤ km.K →
      (∀ it i, km.ValidSchedule (sched it i)) → km.LoopEntryOK pts trace →
      ∃ r, km.loop sched pts iter trace = Except.ok r ∧
        km.LoopResultOK sched iter trace r := by
  intro m
  induction m with
  | zero =>
    intro km pts iter trace hm hK hv ⟨hcs, hps, hM, hcen, htr, pre, b0, hpre, hb0c, hb0p⟩
    obtain ⟨s, hs, a1, a2, a3, a4, a5⟩ := km.assignPhase_inv (sched iter) pts hK (hv iter) hcs hps hM
    obtain ⟨cs2, hr, hcs2, r1, r2, r3⟩ :=
      KMeans.recomputePhase_inv { km with clusters := s.clusters } s.points a1 a3
    have hge : iter ≥ km.max_iterations := by omega
    refine ⟨_, km.loop_exit sched pts iter trace s cs2 hs hr (Or.inr hge), ?_⟩
    refine ⟨le_rfl, Or.inl le_rfl, ⟨_, rfl, by simp [iterationTrace]⟩, ?_, ?_, rfl, r1, a2, r2,
      a4, r3, ?_, ?_⟩
    · intro hlt
      exact absurd hlt (by simp only [not_lt]; exact hge)
    · intro b hb
      rcases List.mem_append.mp hb with h | h
      · exact htr b h
      · exact km.boundaryOK_iteration iter _ _ _ a1 r1 a2 a3 r2 a4 r3 b h
    · intro hd
      obtain ⟨e1, e2⟩ := a5 hd
      have e3 : cs2 = km.clusters := by
        rw [hcs2]
        show s.clusters.map (Cluster.recenter km.total_values.toNat) = km.clusters
        rw [e1]
        exact hcen
      show KMeans.assignPhase { km with clusters := cs2 } (sched iter) s.points = _
      rw [e3, e2]
      rw [show ({ km with clusters := km.clusters } : KMeans) = km from rfl, hs]
      congr 1
      cases s
      simp only [PhaseState.mk.injEq] at e1 e2 hd ⊢
      exact ⟨e1, e2, hd⟩
    · intro hd
      obtain ⟨e1, e2⟩ := a5 hd
      have e3 : cs2 = km.clusters := by
        rw [hcs2]
        show s.clusters.map (Cluster.recenter km.total_values.toNat) = km.clusters
        rw [e1]
        exact hcen
      refine ⟨pre, b0, ?_, ?_, ?_⟩
      · show trace ++ iterationTrace iter s.clusters cs2 s.points = _
        rw [hpre, e1, e3]
        simp
      · show b0.clusters = cs2
        rw [e3]
        exact hb0c
      · show b0.points = s.points
        rw [e2]
        exact hb0p
  | succ m ih =>
    intro km pts iter trace hm hK hv ⟨hcs, hps, hM, hcen, htr, pre, b0, hpre, hb0c, hb0p⟩
    obtain ⟨s, hs, a1, a2, a3, a4, a5⟩ := km.assignPhase_inv (sched iter) pts hK (hv iter) hcs hps hM
    obtain ⟨cs2, hr, hcs2, r1, r2, r3⟩ :=
      KMeans.recomputePhase_inv { km with clusters := s.clusters } s.points a1 a3
    have hgood : ∀ b ∈ trace ++ iterationTrace iter s.clusters cs2 s.points, km.BoundaryOK b := by
      intro b hb
      rcases List.mem_append.mp hb with h | h
      · exact htr b h
      · exact km.boundaryOK_iteration iter _ _ _ a1 r1 a2 a3 r2 a4 r3 b h
    by_cases hdone : s.done = true
    · refine ⟨_, km.loop_exit sched pts iter trace s cs2 hs hr (Or.inl hdone), ?_⟩
      obtain ⟨e1, e2⟩ := a5 hdone
      have e3 : cs2 = km.clusters := by
        rw [hcs2]
        show s.clusters.map (Cluster.recenter km.total_values.toNat) = km.clusters
        rw [e1]
        exact hcen
      refine ⟨le_rfl, Or.inl le_rfl, ⟨_, rfl, by simp [iterationTrace]⟩, fun _ => hdone, hgood,
        rfl, r1, a2, r2, a4, r3, ?_, ?_⟩
      · intro _
        show KMeans.assignPhase { km with clusters := cs2 } (sched iter) s.points = _
        rw [e3, e2]
        rw [show ({ km with clusters := km.clusters } : KMeans) = km from rfl, hs]
        congr 1
        cases s
        simp only [PhaseState.mk.injEq] at e1 e2 hdone ⊢
        exact ⟨e1, e2, hdone⟩
      · intro _
        refine ⟨pre, b0, ?_, ?_, ?_⟩
        · show trace ++ iterationTrace iter s.clusters cs2 s.points = _
          rw [hpre, e1, e3]
          simp
        · show b0.clusters = cs2
          rw [e3]
          exact hb0c
        · show b0.points = s.points
          rw [e2]
          exact hb0p
    · have hlt : iter < km.max_iterations := by omega
      have hcont : ¬ (s.done = true ∨ iter ≥ km.max_iterations) := by
        intro h
        rcases h with h | h
        · exact hdone h
        · omega
      rw [km.loop_continue sched pts iter trace s cs2 hs hr hcont]
      obtain ⟨r, hrr, q1, q2, ⟨rest, hrest, hrlen⟩, q3, q4, q5, q6, q7, q8, q9, q10, q11, q12⟩ :=
        ih { km with clusters := cs2 } s.points (iter + 1)
          (trace ++ iterationTrace iter s.clusters cs2 s.points)
          (by show (km.max_iterations - (iter + 1)).toNat = m; omega) hK hv
          ⟨r1, a2, r2, r3, hgood, trace ++ [⟨Phase.assignment, iter, s.clusters, s.points⟩],
            ⟨Phase.recompute, iter, cs2, s.points⟩, by simp [iterationTrace], rfl, rfl⟩
      refine ⟨r, hrr, by omega, ?_, ?_, q3, q4, q5, q6, q7, q8, q9, q10, q11, q12⟩
      · right
        rcases q2 with h | h
        · omega
        · exact h
      · refine ⟨iterationTrace iter s.clusters cs2 s.points ++ rest, ?_, ?_⟩
        · rw [hrest, List.append_assoc]
        · rw [List.length_append, hrlen]
          simp only [iterationTrace, List.length_cons, List.length_nil]
          omega

/-! ## The initialization -/

/-- What a successful draw of a center establishes. -/
theorem KMeans.chooseCenter_ok (km : KMeans) (i : Int) (proh : List Int) (cs : List Cluster)
    (pts : List Point) : ∀ (rand : List Nat) (s1 : InitState),
    km.chooseCenter i proh cs pts rand = Except.ok s1 →
    ∃ (idx : Int) (p : Point) (c : Cluster) (r : Nat), r ∈ rand ∧
      idx = (r : Int) % km.total_points ∧ idx ∉ proh ∧ 0 ≤ idx ∧
      pts[idx.toNat]? = some p ∧ Cluster.new i (p.setCluster i) = Except.ok c ∧
      s1.points = pts.set idx.toNat (p.setCluster i) ∧ s1.clusters = cs ++ [c] ∧
      s1.prohibited_indexes = proh ++ [idx] := by
  intro rand
  induction rand with
  | nil =>
    intro s1 h
    exact absurd h (by simp [KMeans.chooseCenter])
  | cons r rest ih =>
    intro s1 h
    rw [KMeans.chooseCenter] at h
    have hz : ¬ km.total_points = 0 := by
      intro hz
      simp [hz] at h
    simp only [hz, if_false] at h
    by_cases hin : (r : Int) % km.total_points ∈ proh
    · simp only [hin, if_true] at h
      obtain ⟨idx, p, c, r1, hr1, rest1⟩ := ih s1 h
      exact ⟨idx, p, c, r1, List.mem_cons_of_mem r hr1, rest1⟩
    · simp only [hin, if_false] at h
      obtain ⟨p, hp, g1⟩ := Fault.bind_eq_ok _ _ _ h
      obtain ⟨points1, hp1, g2⟩ := Fault.bind_eq_ok _ _ _ g1
      obtain ⟨p1, hp2, g3⟩ := Fault.bind_eq_ok _ _ _ g2
      obtain ⟨c, hc, g4⟩ := Fault.bind_eq_ok _ _ _ g3
      clear h g1 g2 g3
      obtain ⟨h0, hget⟩ := vecGet_eq_ok _ _ _ hp
      have hset := vecSet_eq_ok _ _ _ _ hp1
      have hlt : ((r : Int) % km.total_points).toNat < pts.length :=
        (List.getElem?_eq_some.mp hget).1
      have hp1eq : p1 = p.setCluster i := by
        have := (vecGet_eq_ok _ _ _ hp2).2
        rw [hset, List.getElem?_set_self hlt] at this
        exact (Option.some.inj this).symm
      subst hp1eq
      have hs1 := (Except.ok.inj g4).symm
      subst hs1
      exact ⟨_, p, c, r, List.mem_cons_self r rest, rfl, hin, h0, hget, hc, hset, rfl, rfl⟩

theorem KMeans.chooseCenter_inv (km : KMeans) (k : Nat) (s s1 : InitState)
    (hs : km.InitOK k s)
    (h : km.chooseCenter (k : Int) s.prohibited_indexes s.clusters s.points s.rand =
      Except.ok s1) : km.InitOK (k + 1) s1 := by
  obtain ⟨hlen, hcv, hmv, hplen, hpv, htag, ⟨hnd, hcount, hsub⟩, hlink, hcen⟩ := hs
  obtain ⟨idx, p, c, r, _, _, hnot, h0, hget, hnew, hpts, hcs, hproh⟩ :=
    km.chooseCenter_ok (k : Int) _ _ _ _ s1 h
  have hpmem : p ∈ s.points := List.mem_iff_getElem?.mpr ⟨_, hget⟩
  have hidx : ((idx.toNat : Nat) : Int) = idx := Int.toNat_of_nonneg h0
  have hptag : p.getCluster = -1 := hlink idx.toNat p hget (by rw [hidx]; exact hnot)
  have hc : c = Cluster.ofSeed (k : Int) (p.setCluster k) := by
    have := Cluster.new_eq (k : Int) (p.setCluster k) (by
      show p.getTotalValues.toNat = p.values.length
      rw [(hpv p hpmem).2, (hpv p hpmem).1])
    rw [this] at hnew
    exact (Except.ok.inj hnew).symm
  have hids := ids_set s.points idx.toNat p (k : Int) hget
  have hilt : idx.toNat < s.points.length := (List.getElem?_eq_some.mp hget).1
  unfold KMeans.InitOK
  rw [hpts, hcs, hproh]
  refine ⟨by simp [hlen], ?_, ?_, by simpa using hplen, ?_, ?_, ⟨?_, ?_, ?_⟩, ?_, ?_⟩
  · intro c1 hc1
    rcases List.mem_append.mp hc1 with h1 | h1
    · exact hcv c1 h1
    · rw [List.mem_singleton.mp h1, hc]
      exact (hpv p hpmem).1
  · intro c1 hc1 q hq
    rcases List.mem_append.mp hc1 with h1 | h1
    · exact hmv c1 h1 q hq
    · rw [List.mem_singleton.mp h1, hc] at hq
      rw [List.mem_singleton.mp hq]
      exact (hpv p hpmem).1
  · intro q hq
    rcases List.mem_or_eq_of_mem_set hq with h1 | rfl
    · exact hpv q h1
    · exact hpv p hpmem
  · intro q hq
    rcases List.mem_or_eq_of_mem_set hq with h1 | rfl
    · rcases htag q h1 with h2 | ⟨h2, h3⟩
      · exact Or.inl h2
      · right
        constructor
        · exact h2
        · omega
    · right
      simp only [Point.getCluster, Point.setCluster]
      omega
  · rw [hids]
    exact hnd
  · intro j q hq t c1 hc1
    by_cases hji : j = idx.toNat
    · subst hji
      rw [List.getElem?_set_self hilt] at hq
      have hq1 : q = p.setCluster k := (Option.some.inj hq).symm
      subst hq1
      by_cases htk : t < s.clusters.length
      · rw [List.getElem?_append_left htk] at hc1
        have := hcount _ p hget t c1 hc1
        rw [hptag] at this
        have hne : ¬ ((k : Int) = (t : Int)) := by omega
        have hne1 : ¬ ((-1 : Int) = (t : Int)) := by omega
        simp only [hne1, if_false] at this
        show c1.countID p.getID = if (k : Int) = (t : Int) then 1 else 0
        rw [this, if_neg hne]
      · rw [List.getElem?_append_right (by omega)] at hc1
        have htk2 : t = s.clusters.length := by
          by_contra hcon
          have : t - s.clusters.length ≠ 0 := by omega
          obtain ⟨u, hu⟩ := Nat.exists_eq_succ_of_ne_zero this
          rw [hu] at hc1
          simp at hc1
        subst htk2
        simp only [Nat.sub_self, List.getElem?_cons_zero, Option.some.injEq] at hc1
        subst hc1
        rw [hc]
        show Cluster.countID _ p.getID = if (k : Int) = _ then 1 else 0
        simp [Cluster.countID, Cluster.ofSeed, Point.getID, Point.setCluster, hlen]
    · rw [List.getElem?_set_ne (fun e => hji e.symm)] at hq
      have hidne : ¬ q.getID = p.getID :=
        fun e => hji (ids_inj s.points hnd idx.toNat j p q hget hq e)
      by_cases htk : t < s.clusters.length
      · rw [List.getElem?_append_left htk] at hc1
        exact hcount j q hq t c1 hc1
      · rw [List.getElem?_append_right (by omega)] at hc1
        have htk2 : t = s.clusters.length := by
          by_contra hcon
          have : t - s.clusters.length ≠ 0 := by omega
          obtain ⟨u, hu⟩ := Nat.exists_eq_succ_of_ne_zero this
          rw [hu] at hc1
          simp at hc1
        subst htk2
        simp only [Nat.sub_self, List.getElem?_cons_zero, Option.some.injEq] at hc1
        subst hc1
        have hqtag : ¬ (q.getCluster = ((s.clusters.length : Nat) : Int)) := by
          rcases htag q (List.mem_iff_getElem?.mpr ⟨j, hq⟩) with h2 | ⟨_, h3⟩
          · omega
          · omega
        rw [hc, if_neg hqtag]
        have hidne2 : ¬ p.getID = q.getID := fun e => hidne e.symm
        simp only [Cluster.countID, Cluster.ofSeed, List.map_cons, List.map_nil,
          List.count_cons, List.count_nil, Nat.zero_add, beq_iff_eq]
        rw [if_neg]
        exact hidne2
  · intro c1 hc1 q hq
    rw [hids]
    rcases List.mem_append.mp hc1 with h1 | h1
    · exact hsub c1 h1 q hq
    · rw [List.mem_singleton.mp h1, hc] at hq
      rw [List.mem_singleton.mp hq]
      exact List.mem_map.mpr ⟨p, hpmem, rfl⟩
  · intro j q hq hnotin
    have hj1 : (j : Int) ∉ s.prohibited_indexes := fun e => hnotin (List.mem_append_left _ e)
    have hj2 : (j : Int) ≠ idx := fun e => hnotin (List.mem_append_right _ (by simp [e]))
    have hji : j ≠ idx.toNat := by omega
    rw [List.getElem?_set_ne (fun e => hji e.symm)] at hq
    exact hlink j q hq hj1
  · simp only [KMeans.Centered, List.map_append, List.map_cons, List.map_nil]
    rw [show s.clusters.map (Cluster.recenter km.total_values.toNat) = s.clusters from hcen, hc]
    rw [Cluster.recenter_ofSeed _ _ (p.setCluster k) (hpv p hpmem).1]

/-- A finished initialization leaves `K` seeded clusters and consistent bookkeeping. -/
theorem KMeans.initialize_inv (km : KMeans) (rand : List Nat) (points : List Point)
    (s0 : InitState) (hf : km.FreshInput points)
    (h : km.initialize rand points = Except.ok s0) : km.InitOK km.K.toNat s0 := by
  obtain ⟨hcl, hK, hKn, hlen, hpts, hnd⟩ := hf
  refine forLoop_inv_of_ok km.K _ (fun k s => km.InitOK k s)
    (fun k _ s s1 hs hb => km.chooseCenter_inv k s s1 hs hb) _ s0 ?_ h
  have hlen2 : points.length = km.total_points.toNat := by omega
  refine ⟨by simp [hcl], by simp [hcl], by simp [hcl], hlen2, ?_, ?_, ⟨hnd, ?_, ?_⟩, ?_, ?_⟩
  · intro p hp
    obtain ⟨h1, h2, _⟩ := hpts p hp
    constructor
    · omega
    · rw [h2]
  · intro p hp
    exact Or.inl (hpts p hp).2.2
  · intro j p _ t c hc
    simp [hcl] at hc
  · intro c hc
    simp [hcl] at hc
  · intro j p hp _
    exact (hpts p (List.mem_iff_getElem?.mpr ⟨j, hp⟩)).2.2
  · simp [KMeans.Centered, hcl]

/-- A finished initialization establishes what the convergence loop needs. -/
theorem KMeans.initialize_entry (km : KMeans) (rand : List Nat) (points : List Point)
    (s0 : InitState) (hf : km.FreshInput points)
    (h : km.initialize rand points = Except.ok s0) :
    KMeans.LoopEntryOK { km with clusters := s0.clusters } s0.points (initTrace s0) := by
  obtain ⟨h1, h2, h3, h4, h5, h6, h7, _, h9⟩ := km.initialize_inv rand points s0 hf h
  have hK : 1 ≤ km.K := hf.2.1
  have hcr : km.ClustersReady s0.clusters := ⟨h1, h2, h3⟩
  have hpr : km.PointsReady s0.points := by
    refine ⟨h4, fun p hp => (h5 p hp).1, ?_⟩
    intro p hp
    rcases h6 p hp with h | ⟨ha, hb⟩
    · exact Or.inl h
    · right
      constructor
      · exact ha
      · omega
  refine ⟨hcr, hpr, h7, h9, ?_, [], _, rfl, rfl, rfl⟩
  intro b hb
  simp only [initTrace, List.mem_singleton] at hb
  subst hb
  exact ⟨hcr, hpr, h7, fun hne => absurd rfl hne, fun _ => h9⟩

/-! ## `run` -/

/-- Once the draws suffice for the initialization, `run` completes without a fault and its
result is as `LoopResultOK` says. -/
theorem KMeans.run_spec (km : KMeans) (rand : List Nat) (sched : Int → Nat → List (List Nat))
    (points : List Point) (s0 : InitState) (hf : km.FreshInput points)
    (hv : ∀ it i, km.ValidSchedule (sched it i))
    (h : km.initialize rand points = Except.ok s0) :
    ∃ r, km.run rand sched points = Except.ok (Outcome.completed r) ∧
      km.LoopResultOK sched 1 (initTrace s0) r := by
  have hentry := km.initialize_entry rand points s0 hf h
  obtain ⟨r, hr, hok⟩ := KMeans.loop_spec sched _ { km with clusters := s0.clusters }
    s0.points 1 (initTrace s0) rfl hf.2.1 hv hentry
  refine ⟨r, ?_, hok⟩
  have hK : ¬ km.K > km.total_points := by
    have := hf.2.2.1
    omega
  simp only [KMeans.run, hK, if_false, h, Fault.ok_bind]
  simp only [initTrace] at hr
  rw [hr]
  rfl

theorem KMeans.seedsPartitioned_of_boundary (km : KMeans) (b : Snapshot)
    (h : km.BoundaryOK b) : SeedsPartitioned b.clusters b.points := by
  obtain ⟨⟨hlen, _, _⟩, ⟨_, _, htag⟩, ⟨_, hcount, hsub⟩, _, _⟩ := h
  refine ⟨?_, hsub⟩
  intro p hp
  obtain ⟨j, hj⟩ := List.mem_iff_getElem?.mp hp
  rcases htag p hp with h1 | ⟨h0, hK⟩
  · left
    refine ⟨h1, ?_⟩
    intro c hc
    obtain ⟨t, ht⟩ := List.mem_iff_getElem?.mp hc
    have := hcount j p hj t c ht
    have hne : ¬ (p.getCluster = (t : Int)) := by omega
    rw [if_neg hne] at this
    exact List.count_eq_zero.mp this
  · right
    have hlt : p.getCluster.toNat < b.clusters.length := by omega
    have hcast : ((p.getCluster.toNat : Nat) : Int) = p.getCluster := Int.toNat_of_nonneg h0
    refine ⟨p.getCluster.toNat, b.clusters.get ⟨_, hlt⟩, hcast.symm,
      by simp [List.getElem?_eq_getElem hlt], ?_, ?_⟩
    · have := hcount j p hj p.getCluster.toNat _
        (show b.clusters[p.getCluster.toNat]? = some (b.clusters.get ⟨_, hlt⟩) by
          simp [List.getElem?_eq_getElem hlt])
      rw [if_pos hcast.symm] at this
      exact List.count_pos_iff.mp (by rw [Cluster.countID] at this; omega)
    · intro u c1 hu hne
      have := hcount j p hj u c1 hu
      have hne2 : ¬ (p.getCluster = (u : Int)) := by omega
      rw [if_neg hne2] at this
      exact List.count_eq_zero.mp this

theorem KMeans.partitioned_of_boundary (km : KMeans) (b : Snapshot)
    (h : km.BoundaryOK b) (hph : b.phase ≠ Phase.initialization) :
    Partitioned b.clusters b.points := by
  obtain ⟨hall, hsub⟩ := km.seedsPartitioned_of_boundary b h
  refine ⟨?_, hsub⟩
  intro p hp
  rcases hall p hp with ⟨h1, _⟩ | h2
  · have := (h.2.2.2.1 hph p hp).1
    omega
  · exact h2

/-- C6 (amended): when `K` is greater than `total_points`, `run` returns to its caller at
once and normally: no failure is reported, no cluster is formed and no point is touched. -/
theorem KMeans.run_returns_early (km : KMeans) (rand : List Nat)
    (sched : Int → Nat → List (List Nat)) (points : List Point)
    (h : km.K > km.total_points) :
    km.run rand sched points = Except.ok (Outcome.returnedEarly km points) := by
  simp only [KMeans.run, h, if_true, Fault.pure_eq]

/-- C6, witness. -/
theorem KMeans.run_returns_early_witness :
    greedyKM.run [0, 1, 2] (fun _ _ => [[0, 1, 2]]) [originPoint] =
      Except.ok (Outcome.returnedEarly greedyKM [originPoint]) :=
  KMeans.run_returns_early greedyKM [0, 1, 2] (fun _ _ => [[0, 1, 2]]) [originPoint]
    (by decide)

/-- C6, counterexample: with `K = 2` and no point at all, `run` reports no failure; it
returns normally, leaving the engine without any cluster. -/
theorem KMeans.run_no_failure_reported :
    (KMeans.new 2 0 1 5).K > (KMeans.new 2 0 1 5).total_points ∧
    (∀ e, (KMeans.new 2 0 1 5).run [] (fun _ _ => [[0, 1]]) [] ≠ Except.error e) ∧
    (KMeans.new 2 0 1 5).run [] (fun _ _ => [[0, 1]]) [] =
      Except.ok (Outcome.returnedEarly (KMeans.new 2 0 1 5) []) ∧
    (KMeans.new 2 0 1 5).clusters = [] := by
  have h : (KMeans.new 2 0 1 5).run [] (fun _ _ => [[0, 1]]) [] =
      Except.ok (Outcome.returnedEarly (KMeans.new 2 0 1 5) []) := by
    simp [KMeans.run, KMeans.new, Fault.pure_eq]
  refine ⟨by decide, ?_, h, rfl⟩
  intro e
  rw [h]
  simp

theorem soloKM_fresh : soloKM.FreshInput twoPoints := by
  unfold KMeans.FreshInput soloKM twoPoints
  decide

theorem soloKM_valid : ∀ (it : Int) (i : Nat), soloKM.ValidSchedule (soloSched it i) := by
  intro it i
  unfold KMeans.ValidSchedule soloKM soloSched
  decide

/-- C3 (amended): in every run on a fresh input (`1 ≤ K ≤` point count, unique point ids,
points unassigned) whose initialization finishes, `run` completes, and at every phase
boundary a point is either unassigned and in no member list or in exactly the cluster its
`clusterId` names, every member being a point; at the boundaries after each assignment phase
and after each recompute phase no point is unassigned: the clusters partition the point
set. -/
theorem KMeans.run_partition (km : KMeans) (rand : List Nat)
    (sched : Int → Nat → List (List Nat)) (points : List Point) (s0 : InitState)
    (hf : km.FreshInput points) (hv : ∀ it i, km.ValidSchedule (sched it i))
    (h : km.initialize rand points = Except.ok s0) :
    ∃ r, km.run rand sched points = Except.ok (Outcome.completed r) ∧
      (∃ rest, r.trace = initTrace s0 ++ rest ∧ rest.length = 2 * r.iter.toNat) ∧
      ∀ b ∈ r.trace, SeedsPartitioned b.clusters b.points ∧
        (b.phase ≠ Phase.initialization → Partitioned b.clusters b.points) := by
  obtain ⟨r, hr, _, _, ⟨rest, h1, h2⟩, _, hb, _⟩ := km.run_spec rand sched points s0 hf hv h
  refine ⟨r, hr, ⟨rest, h1, ?_⟩, ?_⟩
  · rw [h2]
    congr 2
    omega
  · intro b hbm
    exact ⟨km.seedsPartitioned_of_boundary b (hb b hbm),
      fun hph => km.partitioned_of_boundary b (hb b hbm) hph⟩

/-- C3, witness: a run of one cluster over two points. -/
theorem KMeans.run_partition_witness :
    ∃ r, soloKM.run [0] soloSched twoPoints = Except.ok (Outcome.completed r) ∧
      (∃ rest, r.trace = initTrace
          { rand := [], prohibited_indexes := [0]
            clusters := [Cluster.ofSeed 0 ((Point.new 0 [0] "").setCluster 0)]
            points := [(Point.new 0 [0] "").setCluster 0, Point.new 1 [5] ""] } ++ rest ∧
        rest.length = 2 * r.iter.toNat) ∧
      ∀ b ∈ r.trace, SeedsPartitioned b.clusters b.points ∧
        (b.phase ≠ Phase.initialization → Partitioned b.clusters b.points) :=
  KMeans.run_partition soloKM [0] soloSched twoPoints _ soloKM_fresh soloKM_valid rfl

/-- C3, counterexample: `K = 1` and two points. At the boundary after the initialization the
second point has `clusterId = -1`, which names no cluster, and no member list holds its id:
the member lists do not cover the point set. -/
theorem KMeans.run_unassigned_after_init :
    soloKM.FreshInput twoPoints ∧
    ∃ r, soloKM.run [0] soloSched twoPoints = Except.ok (Outcome.completed r) ∧
      ∃ b ∈ r.trace, b.phase = Phase.initialization ∧
        ∃ p ∈ b.points, p.getCluster = -1 ∧
          ∀ c ∈ b.clusters, p.getID ∉ c.points.map Point.getID := by
  refine ⟨soloKM_fresh, ?_⟩
  obtain ⟨r, hr, _, _, ⟨rest, h1, _⟩, _⟩ :=
    soloKM.run_spec [0] soloSched twoPoints _ soloKM_fresh soloKM_valid rfl
  refine ⟨r, hr, _, by rw [h1]; exact List.mem_append_left _ (List.mem_singleton.mpr rfl),
    rfl, ?_⟩
  decide

/-- C4 (amended): on a fresh input (`1 ≤ K ≤` point count) whose initialization finishes,
for every value of `maxIterations` the convergence loop ends, `run` completes, the trace
holds exactly `iter` pairs of an assignment and a recompute phase, and the reported
iteration count `iter` is at least 1 and at most the larger of 1 and `maxIterations`. -/
theorem KMeans.run_iterations_bounded (km : KMeans) (rand : List Nat)
    (sched : Int → Nat → List (List Nat)) (points : List Point) (s0 : InitState)
    (hf : km.FreshInput points) (hv : ∀ it i, km.ValidSchedule (sched it i))
    (h : km.initialize rand points = Except.ok s0) :
    ∃ r, km.run rand sched points = Except.ok (Outcome.completed r) ∧
      1 ≤ r.iter ∧ r.iter ≤ max 1 km.max_iterations ∧
      ∃ rest, r.trace = initTrace s0 ++ rest ∧ rest.length = 2 * r.iter.toNat := by
  obtain ⟨r, hr, h1, h2, ⟨rest, h3, h4⟩, _⟩ := km.run_spec rand sched points s0 hf hv h
  refine ⟨r, hr, h1, ?_, rest, h3, ?_⟩
  · rcases h2 with h2 | h2
    · exact le_trans h2 (le_max_left _ _)
    · exact le_trans h2 (le_max_right _ _)
  · rw [h4]
    congr 2
    omega

/-- C4, witness: a run of one cluster over two points with an iteration cap of 3. -/
theorem KMeans.run_iterations_bounded_witness :
    ∃ r, soloKM.run [0] soloSched twoPoints = Except.ok (Outcome.completed r) ∧
      1 ≤ r.iter ∧ r.iter ≤ max 1 soloKM.max_iterations ∧
      ∃ rest, r.trace = initTrace
          { rand := [], prohibited_indexes := [0]
            clusters := [Cluster.ofSeed 0 ((Point.new 0 [0] "").setCluster 0)]
            points := [(Point.new 0 [0] "").setCluster 0, Point.new 1 [5] ""] } ++ rest ∧
        rest.length = 2 * r.iter.toNat :=
  KMeans.run_iterations_bounded soloKM [0] soloSched twoPoints _ soloKM_fresh soloKM_valid rfl

theorem cappedKM_fresh : cappedKM.FreshInput twoPoints := by
  unfold KMeans.FreshInput cappedKM twoPoints
  decide

theorem cappedKM_valid : ∀ (it : Int) (i : Nat), cappedKM.ValidSchedule (soloSched it i) := by
  intro it i
  unfold KMeans.ValidSchedule cappedKM soloSched
  decide

/-- C4, counterexample: with `maxIterations = 0` the loop still runs its body once and
reports the iteration count 1, which is above `maxIterations`. -/
theorem KMeans.run_exceeds_zero_cap :
    cappedKM.FreshInput twoPoints ∧ cappedKM.max_iterations = 0 ∧
    ∃ r, cappedKM.run [0] soloSched twoPoints = Except.ok (Outcome.completed r) ∧
      r.iter = 1 ∧ ¬ r.iter ≤ cappedKM.max_iterations := by
  refine ⟨cappedKM_fresh, rfl, ?_⟩
  obtain ⟨r, hr, h1, h2, _⟩ :=
    cappedKM.run_spec [0] soloSched twoPoints _ cappedKM_fresh cappedKM_valid rfl
  have hmax : cappedKM.max_iterations = 0 := rfl
  have hone : r.iter = 1 := by
    rcases h2 with h2 | h2
    · omega
    · rw [hmax] at h2
      omega
  refine ⟨r, hr, hone, ?_⟩
  rw [hone, hmax]
  decide

/-- C5 (amended): in every run on a fresh input whose initialization finishes and that stops
at an iteration count strictly below `maxIterations`, the flag `done` of the final
assignment phase is true, the boundary before that phase, the boundary after it and the final
boundary carry the same clusters and points (the phase changed no point and no membership),
and the assignment phase applied once more to the final state, under the schedules of the
final iteration, returns that state unchanged with `done` true. -/
theorem KMeans.run_converged_fixed_point (km : KMeans) (rand : List Nat)
    (sched : Int → Nat → List (List Nat)) (points : List Point) (s0 : InitState)
    (hf : km.FreshInput points) (hv : ∀ it i, km.ValidSchedule (sched it i))
    (h : km.initialize rand points = Except.ok s0) :
    ∃ r, km.run rand sched points = Except.ok (Outcome.completed r) ∧
      (r.iter < km.max_iterations →
        r.done = true ∧
        (∃ pre b,
          r.trace = pre ++ b :: iterationTrace r.iter r.km.clusters r.km.clusters r.points ∧
          b.clusters = r.km.clusters ∧ b.points = r.points) ∧
        KMeans.assignPhase r.km (sched r.iter) r.points =
          Except.ok { clusters := r.km.clusters, points := r.points, done := true }) := by
  obtain ⟨r, hr, _, _, _, h4, _, _, _, _, _, _, _, h12, h13⟩ :=
    km.run_spec rand sched points s0 hf hv h
  refine ⟨r, hr, ?_⟩
  intro hlt
  have hd := h4 hlt
  exact ⟨hd, h13 hd, h12 hd⟩

/-- C5, witness: a run of one cluster over two points with an iteration cap of 3. -/
theorem KMeans.run_converged_fixed_point_witness :
    ∃ r, soloKM.run [0] soloSched twoPoints = Except.ok (Outcome.completed r) ∧
      (r.iter < soloKM.max_iterations →
        r.done = true ∧
        (∃ pre b,
          r.trace = pre ++ b :: iterationTrace r.iter r.km.clusters r.km.clusters r.points ∧
          b.clusters = r.km.clusters ∧ b.points = r.points) ∧
        KMeans.assignPhase r.km (soloSched r.iter) r.points =
          Except.ok { clusters := r.km.clusters, points := r.points, done := true }) :=
  KMeans.run_converged_fixed_point soloKM [0] soloSched twoPoints
    { rand := [], prohibited_indexes := [0]
      clusters := [Cluster.ofSeed 0 ((Point.new 0 [0] "").setCluster 0)]
      points := [(Point.new 0 [0] "").setCluster 0, Point.new 1 [5] ""] }
    soloKM_fresh soloKM_valid rfl

theorem twinKM_fresh : twinKM.FreshInput twinPoints := by
  unfold KMeans.FreshInput twinKM twinPoints
  decide

theorem twinKM_valid : ∀ (it : Int) (i : Nat), twinKM.ValidSchedule (twinSched it i) := by
  intro it i
  unfold KMeans.ValidSchedule twinKM twinSched
  by_cases h : i = 0
  · simp only [h, if_true]
    decide
  · simp only [h, if_false]
    decide

theorem twinKM_init : twinKM.initialize [0, 1] twinPoints = Except.ok twinSeeded := rfl

theorem twinReady_dist (p : Point) (hp : p.values = [0]) (i : Nat) (hi : i < 2) :
    twinReady.dist p i = 0 := by
  interval_cases i <;>
    simp [twinReady, twinSeeded, KMeans.dist, sqDist, Cluster.ofSeed, Point.new,
      Point.setCluster, hp]

theorem twinReady_near (p : Point) (hp : p.values = [0]) :
    twinReady.getIDNearestCenter [[0], [1]] p = Except.ok 0 ∧
    twinReady.getIDNearestCenter [[1], [0]] p = Except.ok 1 := by
  have hr : twinReady.SearchReady p := by
    refine ⟨rfl, ?_, by rw [hp]; rfl⟩
    intro c hc
    simp only [twinReady, twinSeeded, List.mem_cons, List.mem_singleton, List.not_mem_nil,
      or_false] at hc
    rcases hc with rfl | rfl <;> rfl
  constructor
  · rw [twinReady.getIDNearestCenter_eq_scan _ p hr (by decide)]
    simp [KMeans.scan, KMeans.cand, KMeans.keep, twinReady_dist p hp, zero_lt_DBL_MAX]
  · rw [twinReady.getIDNearestCenter_eq_scan _ p hr (by decide)]
    simp [KMeans.scan, KMeans.cand, KMeans.keep, twinReady_dist p hp, zero_lt_DBL_MAX]

/-- The assignment phase of the first iteration of `twinKM` changes nothing. -/
theorem twinReady_assign :
    twinReady.assignPhase (twinSched 1) twinSeeded.points =
      Except.ok { clusters := twinSeeded.clusters, points := twinSeeded.points, done := true } := by
  have h0 := twinReady.assignPoint_stay (twinSched 1 0) 0
    { clusters := twinSeeded.clusters, points := twinSeeded.points, done := true }
    ((Point.new 0 [0] "").setCluster 0) 0 rfl (twinReady_near _ rfl).1 rfl
  have h1 := twinReady.assignPoint_stay (twinSched 1 1) 1
    { clusters := twinSeeded.clusters, points := twinSeeded.points, done := true }
    ((Point.new 1 [0] "").setCluster 1) 1 rfl (twinReady_near _ rfl).2 rfl
  have hrange : List.range twinReady.total_points.toNat = [0, 1] := by decide
  rw [KMeans.assignPhase, forLoop, hrange]
  show forLoopFrom (fun i s => twinReady.assignPoint (twinSched 1 i) i s) [0, 1]
    { clusters := twinSeeded.clusters, points := twinSeeded.points, done := true } = _
  rw [forLoopFrom_cons_ok (fun i s => twinReady.assignPoint (twinSched 1 i) i s) 0 [1] _ _ h0,
    forLoopFrom_cons_ok (fun i s => twinReady.assignPoint (twinSched 1 i) i s) 1 [] _ _ h1]
  rfl

theorem twinReady_recompute :
    KMeans.recomputePhase { twinReady with clusters := twinSeeded.clusters } =
      Except.ok twinSeeded.clusters := by
  obtain ⟨hcr, _, _, hcen, _⟩ := twinKM.initialize_entry [0, 1] twinPoints twinSeeded
    twinKM_fresh twinKM_init
  have := KMeans.recomputePhase_eq { twinKM with clusters := twinSeeded.clusters } hcr
  rw [show KMeans.clusters { twinKM with clusters := twinSeeded.clusters } = twinSeeded.clusters
    from rfl] at this
  rw [show List.map (Cluster.recenter
    (KMeans.total_values { twinKM with clusters := twinSeeded.clusters }).toNat)
    twinSeeded.clusters = twinSeeded.clusters from hcen] at this
  exact this

/-- The run of `twinKM` stops in iteration 1 with `done` true, in the state the
initialization left. -/
theorem twinKM_run :
    twinKM.run [0, 1] twinSched twinPoints = Except.ok (Outcome.completed
      { km := twinReady, points := twinSeeded.points, iter := 1, done := true
        trace := initTrace twinSeeded ++
          iterationTrace 1 twinSeeded.clusters twinSeeded.clusters twinSeeded.points }) := by
  have hloop := twinReady.loop_exit twinSched twinSeeded.points 1 (initTrace twinSeeded) _ _
    twinReady_assign twinReady_recompute (Or.inl rfl)
  have hK : ¬ twinKM.K > twinKM.total_points := by decide
  simp only [KMeans.run, hK, if_false, twinKM_init, Fault.ok_bind]
  simp only [initTrace] at hloop
  show (twinReady.loop twinSched twinSeeded.points 1 _ >>= _) = _
  rw [hloop]
  rfl

/-- C5, counterexample: two points with the same coordinate seed the two clusters. In
iteration 1 the search of point 0 merges cluster 0 first and the search of point 1 merges
cluster 1 first, so no point changes and the run stops at iteration 1, below the cap 2. When
the assignment phase is applied once more to the final state and every search merges cluster
0 first, point 1 moves from cluster 1 to cluster 0. -/
theorem KMeans.run_converged_not_stable :
    twinKM.FreshInput twinPoints ∧ (∀ it i, twinKM.ValidSchedule (twinSched it i)) ∧
    ∃ r, twinKM.run [0, 1] twinSched twinPoints = Except.ok (Outcome.completed r) ∧
      r.iter < twinKM.max_iterations ∧ r.done = true ∧
      (∀ i, r.km.ValidSchedule (lowFirst i)) ∧
      ∀ s, KMeans.assignPhase r.km lowFirst r.points = Except.ok s →
        s.done = false ∧ s.points ≠ r.points := by
  refine ⟨twinKM_fresh, twinKM_valid, _, twinKM_run, by decide, rfl, ?_, ?_⟩
  · intro i
    show List.Perm [0, 1] (List.range 2)
    decide
  · intro s hs
    have h0 := twinReady.assignPoint_stay (lowFirst 0) 0
      { clusters := twinSeeded.clusters, points := twinSeeded.points, done := true }
      ((Point.new 0 [0] "").setCluster 0) 0 rfl (twinReady_near _ rfl).1 rfl
    have hrange : List.range twinReady.total_points.toNat = [0, 1] := by decide
    rw [KMeans.assignPhase, forLoop, hrange] at hs
    have hs1 : forLoopFrom (fun i s => twinReady.assignPoint (lowFirst i) i s) [0, 1]
      { clusters := twinSeeded.clusters, points := twinSeeded.points, done := true } =
        Except.ok s := hs
    rw [forLoopFrom_cons_ok (fun i s => twinReady.assignPoint (lowFirst i) i s) 0 [1] _ _ h0]
      at hs1
    obtain ⟨s1, h1, h2⟩ := Fault.bind_eq_ok _ _ _ hs1
    have hs2 : s = s1 := (Except.ok.inj h2).symm
    subst hs2
    obtain ⟨hd, hp⟩ := twinReady.assignPoint_move (lowFirst 1) 1
      { clusters := twinSeeded.clusters, points := twinSeeded.points, done := true } s
      ((Point.new 1 [0] "").setCluster 1) 0 rfl (twinReady_near _ rfl).1 (by decide) h1
    refine ⟨hd, ?_⟩
    rw [hp]
    decide

/-! ## The operations of `Point` -/

theorem Point.apply_keepsSize (p : Point) (op : PointOp) (h : op.keepsSize = true) :
    (p.apply op).values = p.values ∧ (p.apply op).getTotalValues = p.getTotalValues := by
  cases op <;> simp_all [Point.apply, PointOp.keepsSize, Point.setCluster, Point.getTotalValues]

/-- C18 (amended): every sequence of `setCluster` and getter calls on a constructed point
leaves the coordinate vector as the constructor stored it, so the number of stored
coordinates stays equal to `getTotalValues`; `addValue` appends one coordinate to the
vector, which is thereby resized. -/
theorem Point.coordinates_kept (id_point : Int) (values : List ℚ) (name : String)
    (ops : List PointOp) (h : ∀ op ∈ ops, op.keepsSize = true) :
    (ops.foldl Point.apply (Point.new id_point values name)).values = values ∧
    (((ops.foldl Point.apply (Point.new id_point values name)).values.length : Nat) : Int) =
      (ops.foldl Point.apply (Point.new id_point values name)).getTotalValues ∧
    ∀ (p : Point) (value : ℚ), (p.addValue value).values = p.values ++ [value] ∧
      (p.addValue value).values.length = p.values.length + 1 := by
  have key : ∀ (l : List PointOp) (p : Point), (∀ op ∈ l, op.keepsSize = true) →
      (l.foldl Point.apply p).values = p.values ∧
      (l.foldl Point.apply p).getTotalValues = p.getTotalValues := by
    intro l
    induction l with
    | nil => intro p _; exact ⟨rfl, rfl⟩
    | cons op rest ih =>
      intro p hl
      obtain ⟨h1, h2⟩ := p.apply_keepsSize op (hl op (List.mem_cons_self _ _))
      obtain ⟨h3, h4⟩ := ih (p.apply op) (fun o ho => hl o (List.mem_cons_of_mem _ ho))
      exact ⟨by rw [List.foldl_cons, h3, h1], by rw [List.foldl_cons, h4, h2]⟩
  obtain ⟨h1, h2⟩ := key ops (Point.new id_point values name) h
  refine ⟨h1, ?_, ?_⟩
  · rw [h1, h2]
    rfl
  · intro p value
    simp [Point.addValue]

/-- C18, witness: a point of two coordinates, retagged and queried. -/
theorem Point.coordinates_kept_witness :
    ([PointOp.setCluster 3, PointOp.getTotalValues, PointOp.getValue 1].foldl Point.apply
      (Point.new 7 [1, 2] "a")).values = [1, 2] ∧
    ((([PointOp.setCluster 3, PointOp.getTotalValues, PointOp.getValue 1].foldl Point.apply
      (Point.new 7 [1, 2] "a")).values.length : Nat) : Int) =
      ([PointOp.setCluster 3, PointOp.getTotalValues, PointOp.getValue 1].foldl Point.apply
        (Point.new 7 [1, 2] "a")).getTotalValues ∧
    ∀ (p : Point) (value : ℚ), (p.addValue value).values = p.values ++ [value] ∧
      (p.addValue value).values.length = p.values.length + 1 :=
  Point.coordinates_kept 7 [1, 2] "a"
    [PointOp.setCluster 3, PointOp.getTotalValues, PointOp.getValue 1] (by decide)

/-- C18, counterexample: after `addValue` on a point constructed with one coordinate the
vector holds two coordinates while `getTotalValues` still reports one. -/
theorem Point.addValue_resizes :
    ([PointOp.addValue 2].foldl Point.apply (Point.new 0 [1] "")).values = [1, 2] ∧
    ([PointOp.addValue 2].foldl Point.apply (Point.new 0 [1] "")).values.length = 2 ∧
    ([PointOp.addValue 2].foldl Point.apply (Point.new 0 [1] "")).getTotalValues = 1 := by
  refine ⟨rfl, rfl, rfl⟩

/-! ## The chosen seeds -/

theorem KMeans.chooseCenter_chosen (km : KMeans) (points : List Point) (k : Nat)
    (s s1 : InitState) (hn : 1 ≤ km.total_points) (hs : km.ChosenOK points k s)
    (h : km.chooseCenter (k : Int) s.prohibited_indexes s.clusters s.points s.rand =
      Except.ok s1) : km.ChosenOK points (k + 1) s1 := by
  obtain ⟨hlen, hcl, hpl, hnd, hall⟩ := hs
  obtain ⟨idx, p, c, r, _, hidx, hnot, h0, hget, _, hpts, hcs, hproh⟩ :=
    km.chooseCenter_ok (k : Int) _ _ _ _ s1 h
  have hilt : idx.toNat < s.points.length := (List.getElem?_eq_some.mp hget).1
  unfold KMeans.ChosenOK
  rw [hpts, hcs, hproh]
  refine ⟨by simp [hlen], by simp [hcl, Nat.add_assoc], by simpa using hpl, ?_, ?_⟩
  · rw [List.nodup_append]
    refine ⟨hnd, List.nodup_singleton _, ?_⟩
    intro a ha hb
    rw [List.mem_singleton.mp hb] at ha
    exact hnot ha
  · intro a ha
    rcases List.mem_append.mp ha with h1 | h1
    · exact hall a h1
    · rw [List.mem_singleton.mp h1]
      refine ⟨h0, ?_, by omega⟩
      rw [hidx]
      exact Int.emod_lt_of_pos _ (by omega)

theorem KMeans.initialize_chosen (km : KMeans) (rand : List Nat) (points : List Point)
    (s0 : InitState) (hK : km.K ≤ km.total_points)
    (h : km.initialize rand points = Except.ok s0) : km.ChosenOK points km.K.toNat s0 := by
  refine forLoop_inv_of_ok km.K _ (fun k s => km.ChosenOK points k s)
    (fun k hk s s1 hs hb => km.chooseCenter_chosen points k s s1 (by omega) hs hb) _ s0 ?_ h
  exact ⟨rfl, rfl, rfl, List.nodup_nil, fun idx hidx => absurd hidx (List.not_mem_nil _)⟩

/-- C12: when the initialization of `run` (made for `K ≤ total_points`) finishes on a stream of
draws, the `K` indices it has chosen are pairwise distinct, each is in `[0, total_points)` and
the index of a point, and there is one new cluster for each chosen index; a draw whose
remainder is an index already chosen is skipped: the search for the center goes on with the
next draw, and nothing else has changed. -/
theorem KMeans.initialize_distinct (km : KMeans) (rand : List Nat) (points : List Point)
    (s0 : InitState) (hK0 : 0 ≤ km.K) (hK : km.K ≤ km.total_points)
    (h : km.initialize rand points = Except.ok s0) :
    (s0.prohibited_indexes.length : Int) = km.K ∧ s0.prohibited_indexes.Nodup ∧
    (∀ idx ∈ s0.prohibited_indexes,
      0 ≤ idx ∧ idx < km.total_points ∧ idx.toNat < points.length) ∧
    s0.clusters.length = km.clusters.length + s0.prohibited_indexes.length ∧
    ∀ (i : Int) (proh : List Int) (cs : List Cluster) (pts : List Point) (r : Nat)
      (rest : List Nat), km.total_points ≠ 0 → (r : Int) % km.total_points ∈ proh →
      km.chooseCenter i proh cs pts (r :: rest) = km.chooseCenter i proh cs pts rest := by
  obtain ⟨hlen, hcl, _, hnd, hall⟩ := km.initialize_chosen rand points s0 hK h
  refine ⟨by rw [hlen]; exact Int.toNat_of_nonneg hK0, hnd, hall, by rw [hcl, hlen], ?_⟩
  intro i proh cs pts r rest hz hin
  rw [KMeans.chooseCenter]
  simp only [hz, if_false, hin, if_true]

/-- C12, witness: two clusters over two points; the second draw repeats the first index and
is skipped. -/
theorem KMeans.initialize_distinct_witness :
    (twinSeeded.prohibited_indexes.length : Int) = twinKM.K ∧
    twinSeeded.prohibited_indexes.Nodup ∧
    (∀ idx ∈ twinSeeded.prohibited_indexes,
      0 ≤ idx ∧ idx < twinKM.total_points ∧ idx.toNat < twinPoints.length) ∧
    twinSeeded.clusters.length = twinKM.clusters.length + twinSeeded.prohibited_indexes.length ∧
    ∀ (i : Int) (proh : List Int) (cs : List Cluster) (pts : List Point) (r : Nat)
      (rest : List Nat), twinKM.total_points ≠ 0 → (r : Int) % twinKM.total_points ∈ proh →
      twinKM.chooseCenter i proh cs pts (r :: rest) = twinKM.chooseCenter i proh cs pts rest :=
  KMeans.initialize_distinct twinKM [0, 2, 1] twinPoints twinSeeded (by decide) (by decide) rfl

theorem getElem?_append_singleton {α : Type} (l : List α) (x y : α) (t : Nat)
    (h : (l ++ [x])[t]? = some y) : (t < l.length ∧ l[t]? = some y) ∨ (t = l.length ∧ y = x) := by
  by_cases ht : t < l.length
  · rw [List.getElem?_append_left ht] at h
    exact Or.inl ⟨ht, h⟩
  · rw [List.getElem?_append_right (by omega)] at h
    have ht2 : t = l.length := by
      by_contra hcon
      have : t - l.length ≠ 0 := by omega
      obtain ⟨u, hu⟩ := Nat.exists_eq_succ_of_ne_zero this
      rw [hu] at h
      simp at h
    subst ht2
    simp only [Nat.sub_self, List.getElem?_cons_zero, Option.some.injEq] at h
    exact Or.inr ⟨rfl, h.symm⟩

theorem KMeans.chooseCenter_seeds (km : KMeans) (points : List Point) (k : Nat)
    (s s1 : InitState)
    (hpts : ∀ p ∈ points, p.getTotalValues = (p.values.length : Int))
    (hs : KMeans.SeedsOK points k s)
    (h : km.chooseCenter (k : Int) s.prohibited_indexes s.clusters s.points s.rand =
      Except.ok s1) : KMeans.SeedsOK points (k + 1) s1 := by
  obtain ⟨hlen, hcl, hpl, hseed, hrest⟩ := hs
  obtain ⟨idx, p, c, r, _, _, hnot, h0, hget, hnew, hpts1, hcs, hproh⟩ :=
    km.chooseCenter_ok (k : Int) _ _ _ _ s1 h
  have hidx : ((idx.toNat : Nat) : Int) = idx := Int.toNat_of_nonneg h0
  have hget0 : points[idx.toNat]? = some p := by
    rw [← hrest idx.toNat (by rw [hidx]; exact hnot)]
    exact hget
  have hpmem : p ∈ points := List.mem_iff_getElem?.mpr ⟨_, hget0⟩
  have hc : c = Cluster.ofSeed (k : Int) (p.setCluster k) := by
    have := Cluster.new_eq (k : Int) (p.setCluster k) (by
      show p.getTotalValues.toNat = p.values.length
      rw [hpts p hpmem]
      rfl)
    rw [this] at hnew
    exact (Except.ok.inj hnew).symm
  have hilt : idx.toNat < s.points.length := (List.getElem?_eq_some.mp hget).1
  unfold KMeans.SeedsOK
  rw [hpts1, hcs, hproh]
  refine ⟨by simp [hlen], by simp [hcl], by simpa using hpl, ?_, ?_⟩
  · intro i a ha
    rcases getElem?_append_singleton _ _ _ _ ha with ⟨hi, ha1⟩ | ⟨hi, ha1⟩
    · obtain ⟨ha0, q, hq, hcq, hpq⟩ := hseed i a ha1
      refine ⟨ha0, q, hq, ?_, ?_⟩
      · rw [List.getElem?_append_left (by omega)]
        exact hcq
      · have hne : a ≠ idx := fun e => hnot (e ▸ List.mem_iff_getElem?.mpr ⟨i, ha1⟩)
        have hne2 : idx.toNat ≠ a.toNat := by omega
        rw [List.getElem?_set_ne hne2]
        exact hpq
    · subst ha1
      refine ⟨h0, p, hget0, ?_, ?_⟩
      · rw [hi, hlen, ← hcl, List.getElem?_append_right (le_refl _)]
        simp [hc, hcl]
      · rw [hi, hlen, List.getElem?_set_self hilt]
  · intro j hj
    have hj1 : (j : Int) ∉ s.prohibited_indexes := fun e => hj (List.mem_append_left _ e)
    have hj2 : (j : Int) ≠ idx := fun e => hj (List.mem_append_right _ (by simp [e]))
    have hji : idx.toNat ≠ j := by omega
    rw [List.getElem?_set_ne hji]
    exact hrest j hj1

/-- A finished initialization of a new engine leaves the seeds as `SeedsOK` says. -/
theorem KMeans.initialize_seeds_inv (km : KMeans) (rand : List Nat) (points : List Point)
    (s0 : InitState) (hcl : km.clusters = [])
    (hpts : ∀ p ∈ points, p.getTotalValues = (p.values.length : Int))
    (h : km.initialize rand points = Except.ok s0) :
    KMeans.SeedsOK points km.K.toNat s0 := by
  refine forLoop_inv_of_ok km.K _ (fun k s => KMeans.SeedsOK points k s)
    (fun k _ s s1 hs hb => km.chooseCenter_seeds points k s s1 hpts hs hb) _ s0 ?_ h
  refine ⟨rfl, by simp [hcl], rfl, ?_, fun j _ => rfl⟩
  intro i idx hi
  simp at hi

/-- C11: when the initialization of `run` (made for `K ≤ total_points`) finishes on a new
engine and points as their constructor leaves them, there are exactly `K` clusters and `K`
chosen indices, and for every `i` in `0 .. K-1` the `i`-th cluster has id `i`, its centroid is
the coordinates of the `i`-th chosen point, its member list is exactly that point, and that
point is stored with cluster id `i`; every point not chosen is as it was, with cluster id
`-1`. -/
theorem KMeans.initialize_seeds (km : KMeans) (rand : List Nat) (points : List Point)
    (s0 : InitState) (hcl : km.clusters = []) (hK0 : 0 ≤ km.K)
    (hpts : ∀ p ∈ points, p.getTotalValues = (p.values.length : Int) ∧ p.getCluster = -1)
    (h : km.initialize rand points = Except.ok s0) :
    (s0.clusters.length : Int) = km.K ∧ (s0.prohibited_indexes.length : Int) = km.K ∧
    s0.points.length = points.length ∧
    (∀ i : Nat, (i : Int) < km.K → ∃ (idx : Int) (p : Point) (c : Cluster),
      s0.prohibited_indexes[i]? = some idx ∧ 0 ≤ idx ∧ points[idx.toNat]? = some p ∧
      s0.clusters[i]? = some c ∧ c.getID = (i : Int) ∧ c.central_values = p.values ∧
      c.points = [p.setCluster (i : Int)] ∧
      s0.points[idx.toNat]? = some (p.setCluster (i : Int)) ∧
      (p.setCluster (i : Int)).getCluster = (i : Int) ∧
      (p.setCluster (i : Int)).values = p.values ∧
      (p.setCluster (i : Int)).getID = p.getID) ∧
    (∀ (j : Nat) (p : Point), (j : Int) ∉ s0.prohibited_indexes → s0.points[j]? = some p →
      points[j]? = some p ∧ p.getCluster = -1) := by
  obtain ⟨hlen, hcll, hpl, hseed, hrest⟩ :=
    km.initialize_seeds_inv rand points s0 hcl (fun p hp => (hpts p hp).1) h
  refine ⟨by rw [hcll]; exact Int.toNat_of_nonneg hK0,
    by rw [hlen]; exact Int.toNat_of_nonneg hK0, hpl, ?_, ?_⟩
  · intro i hi
    have hilt : i < s0.prohibited_indexes.length := by omega
    obtain ⟨h0, p, hp, hc, hsp⟩ := hseed i _ (List.getElem?_eq_getElem hilt)
    exact ⟨_, p, _, List.getElem?_eq_getElem hilt, h0, hp, hc, rfl, rfl, rfl, hsp, rfl, rfl, rfl⟩
  · intro j p hj hp
    rw [hrest j hj] at hp
    exact ⟨hp, (hpts p (List.mem_iff_getElem?.mpr ⟨j, hp⟩)).2⟩

/-- C11, witness: one cluster over the two points `0` and `5`; the draw `1` chooses the
second point. -/
theorem KMeans.initialize_seeds_witness :
    ∃ s0, soloKM.initialize [1] twoPoints = Except.ok s0 ∧
    (s0.clusters.length : Int) = soloKM.K ∧ (s0.prohibited_indexes.length : Int) = soloKM.K ∧
    s0.points.length = twoPoints.length ∧
    (∀ i : Nat, (i : Int) < soloKM.K → ∃ (idx : Int) (p : Point) (c : Cluster),
      s0.prohibited_indexes[i]? = some idx ∧ 0 ≤ idx ∧ twoPoints[idx.toNat]? = some p ∧
      s0.clusters[i]? = some c ∧ c.getID = (i : Int) ∧ c.central_values = p.values ∧
      c.points = [p.setCluster (i : Int)] ∧
      s0.points[idx.toNat]? = some (p.setCluster (i : Int)) ∧
      (p.setCluster (i : Int)).getCluster = (i : Int) ∧
      (p.setCluster (i : Int)).values = p.values ∧
      (p.setCluster (i : Int)).getID = p.getID) ∧
    (∀ (j : Nat) (p : Point), (j : Int) ∉ s0.prohibited_indexes → s0.points[j]? = some p →
      twoPoints[j]? = some p ∧ p.getCluster = -1) :=
  ⟨_, rfl, KMeans.initialize_seeds soloKM [1] twoPoints _ rfl (by decide) (by decide) rfl⟩

/-! ## The assignment phase, step by step -/

/-- The squared distances depend on the centroids and on the coordinates of the point only. -/
theorem KMeans.dist_congr (km1 km2 : KMeans) (p q : Point)
    (hc : km1.clusters.map Cluster.central_values = km2.clusters.map Cluster.central_values)
    (hpq : p.values = q.values) (i : Nat) : km1.dist p i = km2.dist q i := by
  have h := congrArg (fun l => l[i]?) hc
  simp only [List.getElem?_map] at h
  unfold KMeans.dist
  cases h1 : km1.clusters[i]? <;> cases h2 : km2.clusters[i]? <;> simp_all

theorem KMeans.scan_congr (km1 km2 : KMeans) (p q : Point)
    (hc : km1.clusters.map Cluster.central_values = km2.clusters.map Cluster.central_values)
    (hpq : p.values = q.values) (order : List Nat) : km1.scan p order = km2.scan q order := by
  unfold KMeans.scan
  congr 1
  apply List.map_congr_left
  intro i _
  unfold KMeans.cand
  rw [KMeans.dist_congr km1 km2 p q hc hpq i]

theorem KMeans.searchReady_congr (km1 km2 : KMeans) (p q : Point) (hK : km1.K = km2.K)
    (hd : km1.total_values = km2.total_values)
    (hc : km1.clusters.map Cluster.central_values = km2.clusters.map Cluster.central_values)
    (hpq : p.values = q.values) (hr : km1.SearchReady p) : km2.SearchReady q := by
  obtain ⟨h1, h2, h3⟩ := hr
  refine ⟨?_, ?_, ?_⟩
  · have := congrArg List.length hc
    simp only [List.length_map] at this
    rw [← this, h1, hK]
  · intro c hcm
    have hm : c.central_values ∈ km1.clusters.map Cluster.central_values := by
      rw [hc]
      exact List.mem_map.mpr ⟨c, hcm, rfl⟩
    obtain ⟨c1, hc1, he⟩ := List.mem_map.mp hm
    rw [← he, ← hd]
    exact h2 c1 hc1
  · rw [← hpq, ← hd]
    exact h3

/-- The search depends on the centroids and on the coordinates of the point only. -/
theorem KMeans.getIDNearestCenter_congr (km1 km2 : KMeans) (p q : Point)
    (sched : List (List Nat)) (hK : km1.K = km2.K) (hd : km1.total_values = km2.total_values)
    (hc : km1.clusters.map Cluster.central_values = km2.clusters.map Cluster.central_values)
    (hpq : p.values = q.values) (hr : km1.SearchReady p) (hs : km1.ValidSchedule sched) :
    km1.getIDNearestCenter sched p = km2.getIDNearestCenter sched q := by
  have hr2 := KMeans.searchReady_congr km1 km2 p q hK hd hc hpq hr
  have hs2 : km2.ValidSchedule sched := by
    unfold KMeans.ValidSchedule
    rw [← hK]
    exact hs
  rw [km1.getIDNearestCenter_eq_scan sched p hr (km1.valid_bound sched hs),
    km2.getIDNearestCenter_eq_scan sched q hr2 (km2.valid_bound sched hs2),
    KMeans.scan_congr km1 km2 p q hc hpq]

theorem Point.setCluster_getCluster (p : Point) : p.setCluster p.getCluster = p := by
  cases p
  rfl

/-- A step of the assignment phase never faults on a state of the right shape and keeps what
`PhaseOK` says. -/
theorem KMeans.assignPoint_good (km : KMeans) (cs0 : List Cluster) (pts : List Point)
    (sch : List (List Nat)) (k : Nat) (s : PhaseState) (hK : 1 ≤ km.K)
    (hv : km.ValidSchedule sch) (hk : k < km.total_points.toNat)
    (hs : km.PhaseOK cs0 pts k s) :
    ∃ s1, km.assignPoint sch k s = Except.ok s1 ∧ km.PhaseOK cs0 pts (k + 1) s1 := by
  obtain ⟨hcs, ⟨hplen, hpval, hptag⟩, hcen, hlater, hsame⟩ := hs
  have hilt : k < s.points.length := by omega
  have hp : s.points[k]? = some (s.points.get ⟨k, hilt⟩) := by
    simp [List.getElem?_eq_getElem hilt]
  generalize s.points.get ⟨k, hilt⟩ = p at hp
  have hpmem : p ∈ s.points := List.mem_iff_getElem?.mpr ⟨k, hp⟩
  obtain ⟨near, hnear, _, hcase⟩ :=
    km.assignPoint_eq sch k s p hK hv hcs hp (hpval p hpmem) (hptag p hpmem)
  rcases hcase with ⟨_, hres⟩ | ⟨_, cs2, hres, hl2, hg⟩
  · exact ⟨s, hres, hcs, ⟨hplen, hpval, hptag⟩, hcen, fun j hj => hlater j (by omega), hsame⟩
  · obtain ⟨hclen, hccv, hcmem⟩ := hcs
    have hfrom : ∀ (t : Nat) (c2 : Cluster), cs2[t]? = some c2 →
        ∃ c0, s.clusters[t]? = some c0 ∧
          c2 = Cluster.moved p.getCluster near (p.setCluster near) t c0 := by
      intro t c2 hc2
      rw [hg t] at hc2
      obtain ⟨c0, hc0, rfl⟩ := Option.map_eq_some'.mp hc2
      exact ⟨c0, hc0, rfl⟩
    refine ⟨_, hres, ⟨hl2.trans hclen, ?_, ?_⟩, ⟨by simpa using hplen, ?_, ?_⟩, ?_, ?_, ?_⟩
    · intro c2 hc2
      obtain ⟨t, ht⟩ := List.mem_iff_getElem?.mp hc2
      obtain ⟨c0, hc0, rfl⟩ := hfrom t c2 ht
      rw [Cluster.moved_central]
      exact hccv c0 (List.mem_iff_getElem?.mpr ⟨t, hc0⟩)
    · intro c2 hc2 q hq
      obtain ⟨t, ht⟩ := List.mem_iff_getElem?.mp hc2
      obtain ⟨c0, hc0, rfl⟩ := hfrom t c2 ht
      rcases Cluster.moved_mem _ _ _ _ _ q hq with h | rfl
      · exact hcmem c0 (List.mem_iff_getElem?.mpr ⟨t, hc0⟩) q h
      · exact hpval p hpmem
    · intro q hq
      rcases List.mem_or_eq_of_mem_set hq with h | rfl
      · exact hpval q h
      · exact hpval p hpmem
    · intro q hq
      rcases List.mem_or_eq_of_mem_set hq with h | rfl
      · exact hptag q h
      · right
        simp only [Point.getCluster, Point.setCluster]
        omega
    · rw [← hcen]
      apply List.ext_getElem?
      intro t
      show (cs2.map Cluster.central_values)[t]? = (s.clusters.map Cluster.central_values)[t]?
      rw [List.getElem?_map, List.getElem?_map, hg t]
      cases s.clusters[t]? with
      | none => rfl
      | some c => simp [Cluster.moved_central]
    · intro j hj
      show (s.points.set k (p.setCluster near))[j]? = pts[j]?
      rw [List.getElem?_set_ne (by omega)]
      exact hlater j (by omega)
    · intro j q hq
      have hq2 : (s.points.set k (p.setCluster near))[j]? = some q := hq
      by_cases hjk : j = k
      · subst hjk
        rw [List.getElem?_set_self hilt] at hq2
        have hq1 : q = p.setCluster near := (Option.some.inj hq2).symm
        subst hq1
        exact hsame j p hp
      · rw [List.getElem?_set_ne (fun e => hjk e.symm)] at hq2
        exact hsame j q hq2

/-- The assignment phase never faults on a state of the right shape; it keeps what `PhaseOK`
says and every property `J` that each of its steps keeps. -/
theorem KMeans.assignPhase_gen (km : KMeans) (sched : Nat → List (List Nat))
    (pts : List Point) (hK : 1 ≤ km.K) (hv : ∀ i, km.ValidSchedule (sched i))
    (hcs : km.ClustersReady km.clusters) (hps : km.PointsReady pts)
    (J : Nat → PhaseState → Prop) (h0 : J 0 { clusters := km.clusters, points := pts, done := true })
    (hstep : ∀ (k : Nat) (s s1 : PhaseState), k < km.total_points.toNat →
      km.PhaseOK km.clusters pts k s → J k s → km.assignPoint (sched k) k s = Except.ok s1 →
      J (k + 1) s1) :
    ∃ s, km.assignPhase sched pts = Except.ok s ∧
      km.PhaseOK km.clusters pts km.total_points.toNat s ∧ J km.total_points.toNat s := by
  refine forLoop_inv km.total_points (fun i s => km.assignPoint (sched i) i s)
    (fun k s => km.PhaseOK km.clusters pts k s ∧ J k s) ?_
    { clusters := km.clusters, points := pts, done := true } ⟨⟨hcs, hps, rfl, fun _ _ => rfl, ?_⟩, h0⟩
  · intro k hk s ⟨h1, h2⟩
    obtain ⟨s1, hs1, g1⟩ := km.assignPoint_good km.clusters pts (sched k) k s hK (hv k) hk h1
    exact ⟨s1, hs1, g1, hstep k s s1 hk h1 h2 hs1⟩
  · intro j p hp
    exact ⟨p, hp, rfl, rfl⟩

theorem Cluster.moved_points (old : Int) (near : Nat) (p1 : Point) (t : Nat) (c : Cluster)
    (hne : old ≠ (near : Int)) :
    (Cluster.moved old near p1 t c).getID = c.getID ∧
    (Cluster.moved old near p1 t c).points =
      if t = near then c.points ++ [p1]
      else if (t : Int) = old then (c.removePoint p1.getID).2.points else c.points := by
  by_cases htn : t = near
  · subst htn
    have hto : ¬ ((t : Int) = old) := fun e => hne e.symm
    simp [Cluster.moved, hto, Cluster.addPoint, Cluster.getID]
  · by_cases hto : (t : Int) = old
    · have hid : (c.removePoint p1.getID).2.getID = c.getID := by
        unfold Cluster.removePoint Cluster.getID
        cases Cluster.firstIndex p1.getID c.points <;> rfl
      simp [Cluster.moved, htn, hto, hid]
    · simp [Cluster.moved, htn, hto]

theorem twinReady_clusters : twinReady.ClustersReady twinReady.clusters := by
  unfold KMeans.ClustersReady twinReady twinKM twinSeeded
  decide

theorem twinReady_points : twinReady.PointsReady twinSeeded.points := by
  unfold KMeans.PointsReady twinReady twinKM twinSeeded
  decide

theorem twinReady_lowFirst : ∀ i, twinReady.ValidSchedule (lowFirst i) := by
  intro i
  unfold KMeans.ValidSchedule twinReady twinKM lowFirst
  decide

/-- C16: an assignment phase entered with `K` clusters and `total_points` points of the right
shape runs through without a fault and leaves the centroids as they were. Its flag `done` is
false afterwards if and only if the search of at least one point returned another id than the
point's cluster id, and every point ends tagged with the id its search returned. In each step,
on every state of the right shape: when the search returns the point's cluster id, the state
is unchanged; otherwise `done` is cleared, the point is stored with the returned id, the
first member with the point's id is removed from the cluster the old id names (no cluster
is touched for the old id `-1`), the retagged point is appended to the returned cluster, and
every other cluster is unchanged. -/
theorem KMeans.assignPhase_steps (km : KMeans) (sched : Nat → List (List Nat))
    (pts : List Point) (hK : 1 ≤ km.K) (hv : ∀ i, km.ValidSchedule (sched i))
    (hcs : km.ClustersReady km.clusters) (hps : km.PointsReady pts) :
    (∃ s, km.assignPhase sched pts = Except.ok s ∧
      s.clusters.map Cluster.central_values = km.clusters.map Cluster.central_values ∧
      (s.done = false ↔ ∃ (i : Nat) (p : Point), pts[i]? = some p ∧
        km.getIDNearestCenter (sched i) p ≠ Except.ok p.getCluster) ∧
      (∀ (i : Nat) (p : Point), pts[i]? = some p → ∃ near : Nat, (near : Int) < km.K ∧
        km.getIDNearestCenter (sched i) p = Except.ok (near : Int) ∧
        s.points[i]? = some (p.setCluster (near : Int)))) ∧
    (∀ (i : Nat) (st : PhaseState) (p : Point), km.ClustersReady st.clusters →
      st.points[i]? = some p → p.values.length = km.total_values.toNat →
      (p.getCluster = -1 ∨ (0 ≤ p.getCluster ∧ p.getCluster < km.K)) →
      ∃ near : Nat, (near : Int) < km.K ∧
        KMeans.getIDNearestCenter { km with clusters := st.clusters } (sched i) p =
          Except.ok (near : Int) ∧
        (p.getCluster = (near : Int) → km.assignPoint (sched i) i st = Except.ok st) ∧
        (p.getCluster = -1 →
          KMeans.leaveOld st.clusters p.getCluster p.getID = Except.ok st.clusters) ∧
        (p.getCluster ≠ (near : Int) → ∃ cs2,
          km.assignPoint (sched i) i st = Except.ok
            { clusters := cs2, points := st.points.set i (p.setCluster (near : Int))
              done := false } ∧
          cs2.length = st.clusters.length ∧
          ∀ (t : Nat) (c : Cluster), st.clusters[t]? = some c →
            ∃ c2, cs2[t]? = some c2 ∧ c2.central_values = c.central_values ∧
              c2.getID = c.getID ∧
              c2.points =
                if t = near then c.points ++ [p.setCluster (near : Int)]
                else if (t : Int) = p.getCluster then (c.removePoint p.getID).2.points
                else c.points)) := by
  constructor
  · obtain ⟨s, hs, ⟨_, _, hcen, _, _⟩, hJ1, hJ2⟩ := km.assignPhase_gen sched pts hK hv hcs hps
      (fun k s =>
        (s.done = false ↔ ∃ (i : Nat) (p : Point), i < k ∧ pts[i]? = some p ∧
          km.getIDNearestCenter (sched i) p ≠ Except.ok p.getCluster) ∧
        (∀ (i : Nat) (p : Point), i < k → pts[i]? = some p → ∃ near : Nat, (near : Int) < km.K ∧
          km.getIDNearestCenter (sched i) p = Except.ok (near : Int) ∧
          s.points[i]? = some (p.setCluster (near : Int))))
      (by
        constructor
        · constructor
          · intro h
            simp at h
          · rintro ⟨i, _, hi, _⟩
            exact absurd hi (Nat.not_lt_zero i)
        · intro i _ hi
          exact absurd hi (Nat.not_lt_zero i))
      (by
        intro k s s1 hk ⟨g1, ⟨_, g2v, g2t⟩, g3, g4, _⟩ ⟨j1, j2⟩ hs1
        have hklt : k < pts.length := by
          have := hps.1
          omega
        have hp0 : pts[k]? = some (pts.get ⟨k, hklt⟩) := by
          simp [List.getElem?_eq_getElem hklt]
        generalize pts.get ⟨k, hklt⟩ = p at hp0
        have hp : s.points[k]? = some p := by
          rw [g4 k (le_refl k)]
          exact hp0
        have hpmem : p ∈ s.points := List.mem_iff_getElem?.mpr ⟨k, hp⟩
        obtain ⟨near, hnear, hget, hcase⟩ :=
          km.assignPoint_eq (sched k) k s p hK (hv k) g1 hp (g2v p hpmem) (g2t p hpmem)
        have hget2 : km.getIDNearestCenter (sched k) p = Except.ok (near : Int) := by
          rw [← hget]
          exact (KMeans.getIDNearestCenter_congr { km with clusters := s.clusters } km p p
            (sched k) rfl rfl g3 rfl ⟨g1.1, g1.2.1, g2v p hpmem⟩ (hv k)).symm
        rcases hcase with ⟨heq, hres⟩ | ⟨hne, cs2, hres, _, _⟩
        · rw [hres] at hs1
          have hs1e : s1 = s := (Except.ok.inj hs1).symm
          subst hs1e
          constructor
          · rw [j1]
            constructor
            · rintro ⟨i, q, hi, hq, hd⟩
              exact ⟨i, q, by omega, hq, hd⟩
            · rintro ⟨i, q, hi, hq, hd⟩
              by_cases hik : i = k
              · subst hik
                rw [hp0] at hq
                have hqp : p = q := Option.some.inj hq
                subst hqp
                rw [hget2, heq] at hd
                exact absurd rfl hd
              · exact ⟨i, q, by omega, hq, hd⟩
          · intro i q hi hq
            by_cases hik : i = k
            · subst hik
              rw [hp0] at hq
              have hqp : p = q := Option.some.inj hq
              subst hqp
              refine ⟨near, by omega, hget2, ?_⟩
              rw [← heq, Point.setCluster_getCluster]
              exact hp
            · exact j2 i q (by omega) hq
        · rw [hres] at hs1
          have hs1e := (Except.ok.inj hs1).symm
          subst hs1e
          constructor
          · constructor
            · intro _
              refine ⟨k, p, by omega, hp0, ?_⟩
              rw [hget2]
              intro e
              exact hne (Except.ok.inj e).symm
            · intro _
              rfl
          · intro i q hi hq
            have hilt : k < s.points.length := (List.getElem?_eq_some.mp hp).1
            by_cases hik : i = k
            · subst hik
              rw [hp0] at hq
              have hqp : p = q := Option.some.inj hq
              subst hqp
              exact ⟨near, by omega, hget2, List.getElem?_set_self hilt⟩
            · obtain ⟨n1, hn1, hg1, hpt1⟩ := j2 i q (by omega) hq
              refine ⟨n1, hn1, hg1, ?_⟩
              show (s.points.set k (p.setCluster near))[i]? = _
              rw [List.getElem?_set_ne (fun e => hik e.symm)]
              exact hpt1)
    refine ⟨s, hs, hcen, ?_, ?_⟩
    · rw [hJ1]
      constructor
      · rintro ⟨i, p, _, hp, hd⟩
        exact ⟨i, p, hp, hd⟩
      · rintro ⟨i, p, hp, hd⟩
        have hilt : i < pts.length := (List.getElem?_eq_some.mp hp).1
        have := hps.1
        exact ⟨i, p, by omega, hp, hd⟩
    · intro i p hp
      have hilt : i < pts.length := (List.getElem?_eq_some.mp hp).1
      have := hps.1
      exact hJ2 i p (by omega) hp
  · intro i st p hcst hp hpv hold
    obtain ⟨near, hnear, hget, hcase⟩ := km.assignPoint_eq (sched i) i st p hK (hv i) hcst hp hpv hold
    refine ⟨near, by omega, hget, ?_, ?_, ?_⟩
    · intro heq
      rcases hcase with ⟨_, hres⟩ | ⟨hne, _⟩
      · exact hres
      · exact absurd heq hne
    · intro hm
      rw [hm]
      rfl
    · intro hne
      rcases hcase with ⟨heq, _⟩ | ⟨_, cs2, hres, hl2, hg⟩
      · exact absurd heq hne
      · refine ⟨cs2, hres, hl2, ?_⟩
        intro t c hc
        refine ⟨_, by rw [hg t, hc]; rfl, Cluster.moved_central _ _ _ _ _, ?_⟩
        exact Cluster.moved_points p.getCluster near (p.setCluster near) t c hne

/-- C16, witness: the two seeded clusters of `twinKM`, every search merging cluster 0
first. -/
theorem KMeans.assignPhase_steps_witness :
    (∃ s, twinReady.assignPhase lowFirst twinSeeded.points = Except.ok s ∧
      s.clusters.map Cluster.central_values = twinReady.clusters.map Cluster.central_values ∧
      (s.done = false ↔ ∃ (i : Nat) (p : Point), twinSeeded.points[i]? = some p ∧
        twinReady.getIDNearestCenter (lowFirst i) p ≠ Except.ok p.getCluster) ∧
      (∀ (i : Nat) (p : Point), twinSeeded.points[i]? = some p → ∃ near : Nat,
        (near : Int) < twinReady.K ∧
        twinReady.getIDNearestCenter (lowFirst i) p = Except.ok (near : Int) ∧
        s.points[i]? = some (p.setCluster (near : Int)))) ∧
    (∀ (i : Nat) (st : PhaseState) (p : Point), twinReady.ClustersReady st.clusters →
      st.points[i]? = some p → p.values.length = twinReady.total_values.toNat →
      (p.getCluster = -1 ∨ (0 ≤ p.getCluster ∧ p.getCluster < twinReady.K)) →
      ∃ near : Nat, (near : Int) < twinReady.K ∧
        KMeans.getIDNearestCenter { twinReady with clusters := st.clusters } (lowFirst i) p =
          Except.ok (near : Int) ∧
        (p.getCluster = (near : Int) → twinReady.assignPoint (lowFirst i) i st = Except.ok st) ∧
        (p.getCluster = -1 →
          KMeans.leaveOld st.clusters p.getCluster p.getID = Except.ok st.clusters) ∧
        (p.getCluster ≠ (near : Int) → ∃ cs2,
          twinReady.assignPoint (lowFirst i) i st = Except.ok
            { clusters := cs2, points := st.points.set i (p.setCluster (near : Int))
              done := false } ∧
          cs2.length = st.clusters.length ∧
          ∀ (t : Nat) (c : Cluster), st.clusters[t]? = some c →
            ∃ c2, cs2[t]? = some c2 ∧ c2.central_values = c.central_values ∧
              c2.getID = c.getID ∧
              c2.points =
                if t = near then c.points ++ [p.setCluster (near : Int)]
                else if (t : Int) = p.getCluster then (c.removePoint p.getID).2.points
                else c.points)) :=
  KMeans.assignPhase_steps twinReady lowFirst twinSeeded.points (by decide) twinReady_lowFirst
    twinReady_clusters twinReady_points

/-! ## Member counts -/

theorem sum_map_indicator (s : List Int) (x : Int) :
    (s.map (fun a => if x = a then 1 else 0)).sum = s.count x := by
  induction s with
  | nil => rfl
  | cons b rest ih =>
    rw [List.map_cons, List.sum_cons, ih, List.count_cons]
    by_cases h : x = b
    · simp [h, Nat.add_comm]
    · have h2 : ¬ b = x := fun e => h e.symm
      simp [h, h2]

theorem sum_map_count (l s : List Int) (hs : s.Nodup) (hsub : ∀ x ∈ l, x ∈ s) :
    (s.map (fun a => l.count a)).sum = l.length := by
  induction l with
  | nil => simp
  | cons x rest ih =>
    have h1 : (fun a => (x :: rest).count a) =
        (fun a => rest.count a + (fun a => if x = a then 1 else 0) a) := by
      funext a
      rw [List.count_cons]
      by_cases h : x = a
      · simp [h]
      · simp [h]
    rw [h1, List.sum_map_add, ih (fun y hy => hsub y (List.mem_cons_of_mem _ hy)),
      sum_map_indicator, List.count_eq_one_of_mem hs (hsub x (List.mem_cons_self _ _))]
    rfl

theorem sum_map_sum_comm {α β : Type} (l1 : List α) (l2 : List β) (f : α → β → Nat) :
    (l1.map (fun x => (l2.map (f x)).sum)).sum =
      (l2.map (fun y => (l1.map (fun x => f x y)).sum)).sum := by
  induction l1 with
  | nil => simp
  | cons x rest ih =>
    simp only [List.map_cons, List.sum_cons]
    rw [ih, ← List.sum_map_add]

theorem sum_range_indicator (x : Int) (n : Nat) :
    ((List.range n).map (fun t : Nat => if x = (t : Int) then 1 else 0)).sum =
      if 0 ≤ x ∧ x < (n : Int) then 1 else 0 := by
  induction n with
  | zero =>
    have : ¬ (0 ≤ x ∧ x < ((0 : Nat) : Int)) := by omega
    rw [if_neg this]
    rfl
  | succ n ih =>
    rw [List.range_succ, List.map_append, List.sum_append, ih]
    simp only [List.map_cons, List.map_nil, List.sum_cons, List.sum_nil, Nat.add_zero]
    split_ifs <;> omega

/-- With consistent bookkeeping and every point assigned, the member counts of the clusters
add up to the number of points. -/
theorem members_sum (cs : List Cluster) (pts : List Point) (hM : MembersConsistent cs pts)
    (ha : ∀ p ∈ pts, 0 ≤ p.getCluster ∧ p.getCluster < (cs.length : Int)) :
    (cs.map (fun c => c.points.length)).sum = pts.length := by
  obtain ⟨hnd, hcount, hsub⟩ := hM
  have h1 : cs.map (fun c => c.points.length) =
      cs.map (fun c => ((pts.map Point.getID).map (fun a => c.countID a)).sum) := by
    apply List.map_congr_left
    intro c hc
    have := sum_map_count (c.points.map Point.getID) (pts.map Point.getID) hnd (by
      intro x hx
      obtain ⟨q, hq, rfl⟩ := List.mem_map.mp hx
      exact hsub c hc q hq)
    rw [List.length_map] at this
    exact this.symm
  rw [h1, sum_map_sum_comm cs (pts.map Point.getID) (fun c a => c.countID a), List.map_map]
  have h2 : pts.map ((fun y => (cs.map (fun x => x.countID y)).sum) ∘ Point.getID) =
      pts.map (fun _ => 1) := by
    apply List.map_congr_left
    intro p hp
    obtain ⟨j, hj⟩ := List.mem_iff_getElem?.mp hp
    have h3 : cs.map (fun x => x.countID p.getID) =
        (List.range cs.length).map (fun t : Nat => if p.getCluster = (t : Int) then 1 else 0) := by
      apply List.ext_getElem?
      intro t
      rw [List.getElem?_map, List.getElem?_map]
      by_cases ht : t < cs.length
      · rw [List.getElem?_eq_getElem ht, List.getElem?_range ht]
        simp only [Option.map_some']
        rw [hcount j p hj t _ (List.getElem?_eq_getElem ht)]
      · rw [List.getElem?_eq_none (by omega), List.getElem?_eq_none (by simp; omega)]
        rfl
    show (cs.map (fun x => x.countID p.getID)).sum = 1
    rw [h3, sum_range_indicator, if_pos (ha p hp)]
  rw [h2]
  simp

/-- C19: in every run on a fresh input (`1 ≤ K ≤` point count, unique point ids) whose
initialization finishes, `run` completes, its trace holds the boundary after the
initialization and two boundaries for each iteration, and at every boundary after an
assignment or a recompute phase, and in the final state, there are `K` clusters and
`total_points` points, no point is unassigned: its `clusterId` lies in `[0, K)`, its id
occurs exactly once in the member list of the cluster that `clusterId` names and in no other
member list, and the member counts of all clusters add up to the number of points. -/
theorem KMeans.run_all_assigned (km : KMeans) (rand : List Nat)
    (sched : Int → Nat → List (List Nat)) (points : List Point) (s0 : InitState)
    (hf : km.FreshInput points) (hv : ∀ it i, km.ValidSchedule (sched it i))
    (h : km.initialize rand points = Except.ok s0) :
    ∃ r, km.run rand sched points = Except.ok (Outcome.completed r) ∧
      (∃ rest, r.trace = initTrace s0 ++ rest ∧ rest.length = 2 * r.iter.toNat) ∧
      (∀ b ∈ r.trace, b.phase ≠ Phase.initialization →
        (b.clusters.length : Int) = km.K ∧ (b.points.length : Int) = km.total_points ∧
        (∀ p ∈ b.points, p.getCluster ≠ -1 ∧ 0 ≤ p.getCluster ∧ p.getCluster < km.K ∧
          ∀ (t : Nat) (c : Cluster), b.clusters[t]? = some c →
            c.countID p.getID = if p.getCluster = (t : Int) then 1 else 0) ∧
        (b.clusters.map (fun c => c.points.length)).sum = b.points.length) ∧
      (r.km.clusters.length : Int) = km.K ∧ (r.points.length : Int) = km.total_points ∧
      (∀ p ∈ r.points, p.getCluster ≠ -1 ∧ 0 ≤ p.getCluster ∧ p.getCluster < km.K ∧
        ∀ (t : Nat) (c : Cluster), r.km.clusters[t]? = some c →
          c.countID p.getID = if p.getCluster = (t : Int) then 1 else 0) ∧
      (r.km.clusters.map (fun c => c.points.length)).sum = r.points.length := by
  obtain ⟨r, hr, _, _, ⟨rest, h1, h2⟩, _, hb, _, hcs, hps, hM, ha, _⟩ :=
    km.run_spec rand sched points s0 hf hv h
  have hK : 1 ≤ km.K := hf.2.1
  have hn : km.K ≤ km.total_points := hf.2.2.1
  have key : ∀ (cs : List Cluster) (pts : List Point), km.ClustersReady cs →
      km.PointsReady pts → MembersConsistent cs pts → km.AllAssigned pts →
      (cs.length : Int) = km.K ∧ (pts.length : Int) = km.total_points ∧
      (∀ p ∈ pts, p.getCluster ≠ -1 ∧ 0 ≤ p.getCluster ∧ p.getCluster < km.K ∧
        ∀ (t : Nat) (c : Cluster), cs[t]? = some c →
          c.countID p.getID = if p.getCluster = (t : Int) then 1 else 0) ∧
      (cs.map (fun c => c.points.length)).sum = pts.length := by
    intro cs pts g1 g2 g3 g4
    have hcl : (cs.length : Int) = km.K := by
      rw [g1.1]
      omega
    refine ⟨hcl, by rw [g2.1]; omega, ?_, ?_⟩
    · intro p hp
      obtain ⟨j, hj⟩ := List.mem_iff_getElem?.mp hp
      obtain ⟨a1, a2⟩ := g4 p hp
      exact ⟨by omega, a1, a2, fun t c hc => g3.2.1 j p hj t c hc⟩
    · apply members_sum cs pts g3
      intro p hp
      obtain ⟨a1, a2⟩ := g4 p hp
      exact ⟨a1, by omega⟩
  refine ⟨r, hr, ⟨rest, h1, ?_⟩, ?_, key _ _ hcs hps hM ha⟩
  · rw [h2]
    congr 2
    omega
  · intro b hbm hph
    obtain ⟨g1, g2, g3, g4, _⟩ := hb b hbm
    exact key _ _ g1 g2 g3 (g4 hph)

/-- C19, witness: a run of two clusters over two points with the same coordinate. -/
theorem KMeans.run_all_assigned_witness :
    ∃ r, twinKM.run [0, 1] twinSched twinPoints = Except.ok (Outcome.completed r) ∧
      (∃ rest, r.trace = initTrace twinSeeded ++ rest ∧ rest.length = 2 * r.iter.toNat) ∧
      (∀ b ∈ r.trace, b.phase ≠ Phase.initialization →
        (b.clusters.length : Int) = twinKM.K ∧ (b.points.length : Int) = twinKM.total_points ∧
        (∀ p ∈ b.points, p.getCluster ≠ -1 ∧ 0 ≤ p.getCluster ∧ p.getCluster < twinKM.K ∧
          ∀ (t : Nat) (c : Cluster), b.clusters[t]? = some c →
            c.countID p.getID = if p.getCluster = (t : Int) then 1 else 0) ∧
        (b.clusters.map (fun c => c.points.length)).sum = b.points.length) ∧
      (r.km.clusters.length : Int) = twinKM.K ∧ (r.points.length : Int) = twinKM.total_points ∧
      (∀ p ∈ r.points, p.getCluster ≠ -1 ∧ 0 ≤ p.getCluster ∧ p.getCluster < twinKM.K ∧
        ∀ (t : Nat) (c : Cluster), r.km.clusters[t]? = some c →
          c.countID p.getID = if p.getCluster = (t : Int) then 1 else 0) ∧
      (r.km.clusters.map (fun c => c.points.length)).sum = r.points.length :=
  KMeans.run_all_assigned twinKM [0, 1] twinSched twinPoints twinSeeded twinKM_fresh twinKM_valid
    twinKM_init

/-! ## The shape of the state during a run -/

/-- A loop whose body either keeps the invariant or ends in the fault `e` either ends with
the invariant or in the fault `e`. -/
theorem forLoop_inv_or {σ : Type} (n : Int) (body : Nat → σ → Except Fault σ)
    (Inv : Nat → σ → Prop) (e : Fault)
    (h : ∀ k, k < n.toNat → ∀ s, Inv k s →
      (∃ s1, body k s = Except.ok s1 ∧ Inv (k + 1) s1) ∨ body k s = Except.error e)
    (s : σ) (hs : Inv 0 s) :
    (∃ s1, forLoop n body s = Except.ok s1 ∧ Inv n.toNat s1) ∨
      forLoop n body s = Except.error e := by
  have key : ∀ m a : Nat, a + m = n.toNat → ∀ s, Inv a s →
      (∃ s1, forLoopFrom body (List.range' a m) s = Except.ok s1 ∧ Inv n.toNat s1) ∨
        forLoopFrom body (List.range' a m) s = Except.error e := by
    intro m
    induction m with
    | zero =>
      intro a ha s hs
      rw [Nat.add_zero] at ha
      subst ha
      exact Or.inl ⟨s, rfl, hs⟩
    | succ m ih =>
      intro a ha s hs
      rcases h a (by omega) s hs with ⟨s1, h1, hs1⟩ | herr
      · rw [List.range'_succ, forLoopFrom_cons_ok body a _ s s1 h1]
        exact ih (a + 1) (by omega) s1 hs1
      · right
        rw [List.range'_succ]
        show (body a s >>= fun s1 => forLoopFrom body (List.range' (a + 1) m) s1) = _
        rw [herr]
        rfl
  rw [forLoop, List.range_eq_range']
  exact key n.toNat 0 (by omega) s hs

/-- On points of the right shape the search for a center either succeeds or uses up the
draws. -/
theorem KMeans.chooseCenter_total (km : KMeans) (i : Int) (proh : List Int)
    (cs : List Cluster) (pts : List Point) (hn : 1 ≤ km.total_points)
    (hlen : pts.length = km.total_points.toNat)
    (hpts : ∀ p ∈ pts, p.getTotalValues.toNat = p.values.length) : ∀ rand : List Nat,
    (∃ s1, km.chooseCenter i proh cs pts rand = Except.ok s1) ∨
      km.chooseCenter i proh cs pts rand = Except.error Fault.randExhausted := by
  intro rand
  induction rand with
  | nil => exact Or.inr rfl
  | cons r rest ih =>
    rw [KMeans.chooseCenter]
    have hz : ¬ km.total_points = 0 := by omega
    simp only [hz, if_false]
    by_cases hin : (r : Int) % km.total_points ∈ proh
    · simp only [hin, if_true]
      exact ih
    · simp only [hin, if_false]
      left
      have h0 : 0 ≤ (r : Int) % km.total_points := Int.emod_nonneg _ hz
      have h1 : (r : Int) % km.total_points < km.total_points := Int.emod_lt_of_pos _ (by omega)
      have hilt : ((r : Int) % km.total_points).toNat < pts.length := by omega
      have hget : pts[((r : Int) % km.total_points).toNat]? =
          some (pts.get ⟨_, hilt⟩) := by
        simp [List.getElem?_eq_getElem hilt]
      generalize pts.get ⟨_, hilt⟩ = p at hget
      have hpmem : p ∈ pts := List.mem_iff_getElem?.mpr ⟨_, hget⟩
      have hget1 : (pts.set ((r : Int) % km.total_points).toNat (p.setCluster i))[
          ((r : Int) % km.total_points).toNat]? = some (p.setCluster i) :=
        List.getElem?_set_self hilt
      have hnew := Cluster.new_eq i (p.setCluster i) (hpts p hpmem)
      rw [vecGet_toNat pts _ p h0 hget, Fault.ok_bind, vecSet_toNat pts _ p _ h0 hget,
        Fault.ok_bind, vecGet_toNat _ _ _ h0 hget1, Fault.ok_bind, hnew, Fault.ok_bind]
      exact ⟨_, rfl⟩

theorem KMeans.chooseCenter_shape (km : KMeans) (k : Nat) (s s1 : InitState)
    (hk : (k : Int) < km.K) (hs : km.InitShape k s)
    (h : km.chooseCenter (k : Int) s.prohibited_indexes s.clusters s.points s.rand =
      Except.ok s1) : km.InitShape (k + 1) s1 := by
  obtain ⟨hlen, hcv, hmv, ⟨hplen, hpv, htag⟩, htv⟩ := hs
  obtain ⟨idx, p, c, r, _, _, _, h0, hget, hnew, hpts, hcs, _⟩ :=
    km.chooseCenter_ok (k : Int) _ _ _ _ s1 h
  have hpmem : p ∈ s.points := List.mem_iff_getElem?.mpr ⟨_, hget⟩
  have hc : c = Cluster.ofSeed (k : Int) (p.setCluster k) := by
    have := Cluster.new_eq (k : Int) (p.setCluster k) (htv p hpmem)
    rw [this] at hnew
    exact (Except.ok.inj hnew).symm
  unfold KMeans.InitShape
  rw [hpts, hcs]
  refine ⟨by simp [hlen], ?_, ?_, ⟨by simpa using hplen, ?_, ?_⟩, ?_⟩
  · intro c1 hc1
    rcases List.mem_append.mp hc1 with h1 | h1
    · exact hcv c1 h1
    · rw [List.mem_singleton.mp h1, hc]
      exact hpv p hpmem
  · intro c1 hc1 q hq
    rcases List.mem_append.mp hc1 with h1 | h1
    · exact hmv c1 h1 q hq
    · rw [List.mem_singleton.mp h1, hc] at hq
      rw [List.mem_singleton.mp hq]
      exact hpv p hpmem
  · intro q hq
    rcases List.mem_or_eq_of_mem_set hq with h1 | rfl
    · exact hpv q h1
    · exact hpv p hpmem
  · intro q hq
    rcases List.mem_or_eq_of_mem_set hq with h1 | rfl
    · exact htag q h1
    · right
      simp only [Point.getCluster, Point.setCluster]
      omega
  · intro q hq
    rcases List.mem_or_eq_of_mem_set hq with h1 | rfl
    · exact htv q h1
    · exact htv p hpmem

theorem KMeans.initShape_start (km : KMeans) (points : List Point) (rand : List Nat)
    (hs : km.SafeInput points) :
    km.InitShape 0
      { rand := rand, prohibited_indexes := [], clusters := km.clusters, points := points } := by
  obtain ⟨hcl, hK, hKn, hlen, hpts⟩ := hs
  have hlen2 : points.length = km.total_points.toNat := by omega
  refine ⟨by simp [hcl], by simp [hcl], by simp [hcl], ⟨hlen2, ?_, ?_⟩, ?_⟩
  · intro p hp
    have := (hpts p hp).1
    omega
  · intro p hp
    exact (hpts p hp).2.2
  · intro p hp
    obtain ⟨h1, h2, _⟩ := hpts p hp
    rw [h2, ← h1]
    rfl

/-- On a safe input the initialization either finishes with a state of the right shape or
uses up the draws. -/
theorem KMeans.initialize_shape (km : KMeans) (rand : List Nat) (points : List Point)
    (hs : km.SafeInput points) :
    (∃ s0, km.initialize rand points = Except.ok s0 ∧ km.InitShape km.K.toNat s0) ∨
      km.initialize rand points = Except.error Fault.randExhausted := by
  have hK : 1 ≤ km.K := hs.2.1
  have hn : km.K ≤ km.total_points := hs.2.2.1
  refine forLoop_inv_or km.K _ (fun k s => km.InitShape k s) Fault.randExhausted ?_ _
    (km.initShape_start points rand hs)
  intro k hk s hsh
  rcases km.chooseCenter_total (k : Int) s.prohibited_indexes s.clusters s.points (by omega)
    hsh.2.2.2.1.1 hsh.2.2.2.2 s.rand with ⟨s1, h1⟩ | herr
  · exact Or.inl ⟨s1, h1, km.chooseCenter_shape k s s1 (by omega) hsh h1⟩
  · exact Or.inr herr

theorem KMeans.clustersReady_recenter (km : KMeans) (cs : List Cluster)
    (hcs : km.ClustersReady cs) :
    km.ClustersReady (cs.map (Cluster.recenter km.total_values.toNat)) := by
  refine ⟨?_, ?_, ?_⟩
  · simpa using hcs.1
  · intro c hc
    obtain ⟨c0, hc0, rfl⟩ := List.mem_map.mp hc
    exact Cluster.recenter_length _ c0 (hcs.2.1 c0 hc0)
  · intro c hc q hq
    obtain ⟨c0, hc0, rfl⟩ := List.mem_map.mp hc
    rw [Cluster.recenter_points] at hq
    exact hcs.2.2 c0 hc0 q hq

/-- The convergence loop never faults on a state of the right shape; it keeps the shape and
every property `I` of the clusters and points that both phases keep, and its iteration count
stays within the cap once it moves. -/
theorem KMeans.loop_gen (sched : Int → Nat → List (List Nat)) (km0 : KMeans)
    (I : List Cluster → List Point → Prop) (hK : 1 ≤ km0.K)
    (hv : ∀ it i, km0.ValidSchedule (sched it i))
    (hA : ∀ (cs : List Cluster) (pts : List Point) (sch : Nat → List (List Nat))
      (s : PhaseState), km0.ClustersReady cs → km0.PointsReady pts →
      (∀ i, km0.ValidSchedule (sch i)) → I cs pts →
      KMeans.assignPhase { km0 with clusters := cs } sch pts = Except.ok s →
      I s.clusters s.points)
    (hR : ∀ (cs : List Cluster) (pts : List Point), km0.ClustersReady cs →
      km0.PointsReady pts → I cs pts →
      I (cs.map (Cluster.recenter km0.total_values.toNat)) pts) :
    ∀ (m : Nat) (cs : List Cluster) (pts : List Point) (iter : Int) (trace : List Snapshot),
      (km0.max_iterations - iter).toNat = m → km0.ClustersReady cs → km0.PointsReady pts →
      I cs pts →
      ∃ r, KMeans.loop { km0 with clusters := cs } sched pts iter trace = Except.ok r ∧
        iter ≤ r.iter ∧ (r.iter ≤ iter ∨ r.iter ≤ km0.max_iterations) ∧
        r.km = { km0 with clusters := r.km.clusters } ∧
        km0.ClustersReady r.km.clusters ∧ km0.PointsReady r.points ∧
        I r.km.clusters r.points := by
  intro m
  induction m with
  | zero =>
    intro cs pts iter trace hm hcs hps hI
    obtain ⟨s, hs, ⟨a1, a2, _⟩, _⟩ := KMeans.assignPhase_gen { km0 with clusters := cs }
      (sched iter) pts hK (hv iter) hcs hps (fun _ _ => True) trivial
      (fun _ _ _ _ _ _ _ => trivial)
    have hI1 := hA cs pts (sched iter) s hcs hps (hv iter) hI hs
    have hr := KMeans.recomputePhase_eq { km0 with clusters := s.clusters } a1
    have hge : iter ≥ km0.max_iterations := by omega
    exact ⟨_, KMeans.loop_exit { km0 with clusters := cs } sched pts iter trace s _ hs hr
      (Or.inr hge), le_rfl, Or.inl le_rfl, rfl, km0.clustersReady_recenter _ a1, a2,
      hR _ _ a1 a2 hI1⟩
  | succ m ih =>
    intro cs pts iter trace hm hcs hps hI
    obtain ⟨s, hs, ⟨a1, a2, _⟩, _⟩ := KMeans.assignPhase_gen { km0 with clusters := cs }
      (sched iter) pts hK (hv iter) hcs hps (fun _ _ => True) trivial
      (fun _ _ _ _ _ _ _ => trivial)
    have hI1 := hA cs pts (sched iter) s hcs hps (hv iter) hI hs
    have hr := KMeans.recomputePhase_eq { km0 with clusters := s.clusters } a1
    by_cases hdone : s.done = true
    · exact ⟨_, KMeans.loop_exit { km0 with clusters := cs } sched pts iter trace s _ hs hr
        (Or.inl hdone), le_rfl, Or.inl le_rfl, rfl, km0.clustersReady_recenter _ a1, a2,
        hR _ _ a1 a2 hI1⟩
    · have hlt : iter < km0.max_iterations := by omega
      have hcont : ¬ (s.done = true ∨ iter ≥ km0.max_iterations) := by
        intro h
        rcases h with h | h
        · exact hdone h
        · omega
      rw [KMeans.loop_continue { km0 with clusters := cs } sched pts iter trace s _ hs hr hcont]
      obtain ⟨r, hrr, q1, q2, q3, q4, q5, q6⟩ :=
        ih (s.clusters.map (Cluster.recenter km0.total_values.toNat)) s.points (iter + 1)
          (trace ++ iterationTrace iter s.clusters
            (s.clusters.map (Cluster.recenter km0.total_values.toNat)) s.points)
          (by omega) (km0.clustersReady_recenter _ a1) a2 (hR _ _ a1 a2 hI1)
      refine ⟨r, hrr, by omega, ?_, q3, q4, q5, q6⟩
      right
      rcases q2 with h | h
      · omega
      · exact h

/-- Once the draws suffice for the initialization of a safe input, `run` completes without a
fault; its result has the right shape and every property `I` that the state after the
initialization has and both phases keep. -/
theorem KMeans.run_gen (km : KMeans) (rand : List Nat) (sched : Int → Nat → List (List Nat))
    (points : List Point) (s0 : InitState) (I : List Cluster → List Point → Prop)
    (hs : km.SafeInput points) (hv : ∀ it i, km.ValidSchedule (sched it i))
    (h : km.initialize rand points = Except.ok s0)
    (h0 : km.ClustersReady s0.clusters → km.PointsReady s0.points → I s0.clusters s0.points)
    (hA : ∀ (cs : List Cluster) (pts : List Point) (sch : Nat → List (List Nat))
      (s : PhaseState), km.ClustersReady cs → km.PointsReady pts →
      (∀ i, km.ValidSchedule (sch i)) → I cs pts →
      KMeans.assignPhase { km with clusters := cs } sch pts = Except.ok s →
      I s.clusters s.points)
    (hR : ∀ (cs : List Cluster) (pts : List Point), km.ClustersReady cs →
      km.PointsReady pts → I cs pts →
      I (cs.map (Cluster.recenter km.total_values.toNat)) pts) :
    ∃ r, km.run rand sched points = Except.ok (Outcome.completed r) ∧
      1 ≤ r.iter ∧ (r.iter ≤ 1 ∨ r.iter ≤ km.max_iterations) ∧
      km.ClustersReady s0.clusters ∧ km.PointsReady s0.points ∧
      r.km = { km with clusters := r.km.clusters } ∧
      km.ClustersReady r.km.clusters ∧ km.PointsReady r.points ∧
      I r.km.clusters r.points := by
  have hsh : km.InitShape km.K.toNat s0 := by
    rcases km.initialize_shape rand points hs with ⟨s1, h1, hsh⟩ | herr
    · rw [h] at h1
      rw [Except.ok.inj h1]
      exact hsh
    · rw [h] at herr
      exact absurd herr (by simp)
  obtain ⟨c1, c2, c3, c4, _⟩ := hsh
  have hcs : km.ClustersReady s0.clusters := ⟨c1, c2, c3⟩
  obtain ⟨r, hr, q1, q2, q3, q4, q5, q6⟩ := KMeans.loop_gen sched km I hs.2.1 hv hA hR _
    s0.clusters s0.points 1 (initTrace s0) rfl hcs c4 (h0 hcs c4)
  refine ⟨r, ?_, q1, q2, hcs, c4, q3, q4, q5, q6⟩
  have hK : ¬ km.K > km.total_points := by
    have := hs.2.2.1
    omega
  simp only [KMeans.run, hK, if_false, h, Fault.ok_bind]
  simp only [initTrace] at hr
  rw [hr]
  rfl

/-- On a safe input whose draws do not suffice for the initialization, `run` ends when the
stream is used up. -/
theorem KMeans.run_exhausted (km : KMeans) (rand : List Nat)
    (sched : Int → Nat → List (List Nat)) (points : List Point) (hs : km.SafeInput points)
    (h : km.initialize rand points = Except.error Fault.randExhausted) :
    km.run rand sched points = Except.error Fault.randExhausted := by
  have hK : ¬ km.K > km.total_points := by
    have := hs.2.2.1
    omega
  simp only [KMeans.run, hK, if_false, h]
  rfl

theorem Fault.ne_of_ok {α : Type} (x : Except Fault α) (a : α) (e : Fault)
    (h : x = Except.ok a) : x ≠ Except.error e := by
  rw [h]
  intro h1
  cases h1

theorem Fault.ok_of_toOption {α : Type} (x : Except Fault α) (a : α)
    (h : x.toOption = some a) : x = Except.ok a := by
  cases x with
  | error e => simp [Except.toOption] at h
  | ok b =>
    simp only [Except.toOption, Option.some.injEq] at h
    rw [h]

/-! ## Points with the same coordinates: the initialization -/

/-- A cluster strictly nearer than every other one, and nearer than
`numeric_limits<double>::max()`, is what the search returns under every valid schedule. -/
theorem KMeans.getIDNearestCenter_strict (km : KMeans) (sched : List (List Nat))
    (point : Point) (c : Nat) (hr : km.SearchReady point) (hs : km.ValidSchedule sched)
    (hc : c < km.K.toNat) (hlt : km.dist point c < DBL_MAX)
    (hmin : ∀ i : Nat, i < km.K.toNat → i ≠ c → km.dist point c < km.dist point i) :
    km.getIDNearestCenter sched point = Except.ok (c : Int) := by
  rw [km.getIDNearestCenter_eq_scan sched point hr (km.valid_bound sched hs)]
  have hcm : c ∈ sched.flatten := (km.mem_of_valid sched hs c).mpr hc
  rcases km.scan_spec point sched.flatten with
    ⟨_, hall⟩ | ⟨before, c1, after, hord, hscan, _, hbef, haft⟩
  · exact absurd hlt (not_lt.mpr (hall c hcm))
  · have hc1 : c1 = c := by
      by_contra hne
      have hc1m : c1 ∈ sched.flatten := by
        rw [hord]
        simp
      have h1 := hmin c1 ((km.mem_of_valid sched hs c1).mp hc1m) hne
      rw [hord] at hcm
      rcases List.mem_append.mp hcm with h | h
      · exact absurd (hbef c h) (not_lt.mpr (le_of_lt h1))
      · rcases List.mem_cons.mp h with h | h
        · exact hne h.symm
        · exact absurd h1 (not_lt.mpr (haft c h))
    rw [hscan, hc1]
    rfl

/-- As many pairwise distinct indices below `n` as there are indices below `n` are all of
them. -/
theorem mem_of_nodup_full (l : List Int) (n : Nat) (hnd : l.Nodup) (hlen : l.length = n)
    (hall : ∀ idx ∈ l, 0 ≤ idx ∧ idx.toNat < n) (j : Nat) (hj : j < n) : (j : Int) ∈ l := by
  have hnd2 : (l.map Int.toNat).Nodup := by
    apply List.Nodup.map_on _ hnd
    intro x hx y hy hxy
    have := (hall x hx).1
    have := (hall y hy).1
    omega
  have hsub : l.map Int.toNat ⊆ List.range n := by
    intro x hx
    obtain ⟨idx, hidx, rfl⟩ := List.mem_map.mp hx
    exact List.mem_range.mpr (hall idx hidx).2
  have hperm : (l.map Int.toNat).Perm (List.range n) :=
    (List.subperm_of_subset hnd2 hsub).perm_of_length_le (by simp [hlen])
  have hjm : j ∈ l.map Int.toNat := hperm.symm.subset (List.mem_range.mpr hj)
  obtain ⟨idx, hidx, he⟩ := List.mem_map.mp hjm
  have := (hall idx hidx).1
  have hji : (j : Int) = idx := by omega
  rw [hji]
  exact hidx

theorem nodup_index_inj {α : Type} (l : List α) (hn : l.Nodup) (i j : Nat) (x : α)
    (hi : l[i]? = some x) (hj : l[j]? = some x) : i = j := by
  obtain ⟨h1, h2⟩ := List.getElem?_eq_some.mp hi
  obtain ⟨h3, h4⟩ := List.getElem?_eq_some.mp hj
  exact (List.Nodup.getElem_inj_iff hn).mp (by rw [h2, h4])

theorem Fault.exists_of_holds {α : Type} (x : Except Fault α) (P : α → Bool)
    (h : Fault.holds x P = true) : ∃ a, x = Except.ok a ∧ P a = true := by
  cases x with
  | error e => simp [Fault.holds] at h
  | ok a => exact ⟨a, rfl, h⟩

theorem Outcome.exists_of_completedWith (x : Except Fault Outcome) (P : RunResult → Bool)
    (h : Fault.holds x (Outcome.completedWith P) = true) :
    ∃ r, x = Except.ok (Outcome.completed r) ∧ P r = true := by
  obtain ⟨o, ho, hP⟩ := Fault.exists_of_holds x _ h
  cases o with
  | returnedEarly km pts => simp [Outcome.completedWith] at hP
  | completed r => exact ⟨r, ho, hP⟩

theorem twinKM_freshTwo : twinKM.FreshInput twoPoints := by
  unfold KMeans.FreshInput twinKM twoPoints
  decide

theorem twinKM_ascending : ∀ (it : Int) (i : Nat), twinKM.ValidSchedule (ascending it i) := by
  intro it i
  unfold KMeans.ValidSchedule twinKM ascending
  decide

/-! ## Schedules without ties -/

/-- Two loops whose bodies agree on the states an invariant of the second one describes
agree. -/
theorem forLoop_congr_inv {σ : Type} (n : Int) (body1 body2 : Nat → σ → Except Fault σ)
    (Inv : Nat → σ → Prop)
    (hinv : ∀ k, k < n.toNat → ∀ s, Inv k s → ∃ s1, body2 k s = Except.ok s1 ∧ Inv (k + 1) s1)
    (hagree : ∀ k, k < n.toNat → ∀ s, Inv k s → body1 k s = body2 k s)
    (s : σ) (hs : Inv 0 s) : forLoop n body1 s = forLoop n body2 s := by
  have key : ∀ m a : Nat, a + m = n.toNat → ∀ s, Inv a s →
      forLoopFrom body1 (List.range' a m) s = forLoopFrom body2 (List.range' a m) s := by
    intro m
    induction m with
    | zero =>
      intro a _ s _
      rfl
    | succ m ih =>
      intro a ha s hs
      obtain ⟨s1, h1, hs1⟩ := hinv a (by omega) s hs
      have h2 : body1 a s = Except.ok s1 := by
        rw [hagree a (by omega) s hs]
        exact h1
      rw [List.range'_succ, forLoopFrom_cons_ok body1 a _ s s1 h2,
        forLoopFrom_cons_ok body2 a _ s s1 h1]
      exact ih (a + 1) (by omega) s1 hs1
  rw [forLoop, forLoop, List.range_eq_range']
  exact key n.toNat 0 (by omega) s hs

/-- A step of the assignment phase depends on the engine and on the schedule through the
result of the search only. -/
theorem KMeans.assignPoint_congr (km1 km2 : KMeans) (sch1 sch2 : List (List Nat)) (k : Nat)
    (s : PhaseState) (p : Point) (hp : s.points[k]? = some p)
    (h : KMeans.getIDNearestCenter { km1 with clusters := s.clusters } sch1 p =
      KMeans.getIDNearestCenter { km2 with clusters := s.clusters } sch2 p) :
    km1.assignPoint sch1 k s = km2.assignPoint sch2 k s := by
  simp only [KMeans.assignPoint, vecGet_of_getElem? _ k p hp, Fault.ok_bind, h]

/-- Without ties the assignment phase is the same under all valid schedules, and it depends
on the engine through `K`, `total_values`, `total_points` and the clusters only. -/
theorem KMeans.assignPhase_congr (km1 km2 : KMeans) (sched1 sched2 : Nat → List (List Nat))
    (pts : List Point) (hKe : km1.K = km2.K) (hde : km1.total_values = km2.total_values)
    (hne : km1.total_points = km2.total_points) (hce : km1.clusters = km2.clusters)
    (hK : 1 ≤ km2.K) (hv1 : ∀ i, km1.ValidSchedule (sched1 i))
    (hv2 : ∀ i, km2.ValidSchedule (sched2 i)) (hcs : km2.ClustersReady km2.clusters)
    (hps : km2.PointsReady pts) (htf : km2.TieFree pts) :
    km1.assignPhase sched1 pts = km2.assignPhase sched2 pts := by
  unfold KMeans.assignPhase
  rw [hne, hce]
  apply forLoop_congr_inv km2.total_points _ _ (fun k s => km2.PhaseOK km2.clusters pts k s)
  · intro k hk s hs
    exact km2.assignPoint_good km2.clusters pts (sched2 k) k s hK (hv2 k) hk hs
  · intro k hk s hs
    obtain ⟨g1, ⟨g2l, g2v, _⟩, g3, g4, _⟩ := hs
    have hklt : k < pts.length := by
      have := hps.1
      omega
    have hp0 : pts[k]? = some (pts.get ⟨k, hklt⟩) := by
      simp [List.getElem?_eq_getElem hklt]
    generalize pts.get ⟨k, hklt⟩ = p at hp0
    have hp : s.points[k]? = some p := by
      rw [g4 k (le_refl k)]
      exact hp0
    have hpmem : p ∈ s.points := List.mem_iff_getElem?.mpr ⟨k, hp⟩
    obtain ⟨c, hc, hlt, hmin⟩ := htf p (List.mem_iff_getElem?.mpr ⟨k, hp0⟩)
    have hd : ∀ i, KMeans.dist { km2 with clusters := s.clusters } p i = km2.dist p i :=
      fun i => KMeans.dist_congr { km2 with clusters := s.clusters } km2 p p g3 rfl i
    have hr2 : KMeans.SearchReady { km2 with clusters := s.clusters } p :=
      ⟨g1.1, g1.2.1, g2v p hpmem⟩
    have h2 : KMeans.getIDNearestCenter { km2 with clusters := s.clusters } (sched2 k) p =
        Except.ok (c : Int) := by
      apply KMeans.getIDNearestCenter_strict { km2 with clusters := s.clusters } (sched2 k) p c
        hr2 (hv2 k) (List.mem_range.mp hc)
      · rw [hd]
        exact hlt
      · intro i hi hic
        rw [hd, hd]
        exact hmin i (List.mem_range.mpr hi) hic
    have h1 : KMeans.getIDNearestCenter { km1 with clusters := s.clusters } (sched1 k) p =
        Except.ok (c : Int) := by
      rw [KMeans.getIDNearestCenter_congr { km1 with clusters := s.clusters }
        { km2 with clusters := s.clusters } p p (sched1 k) hKe hde rfl rfl
        (KMeans.searchReady_congr { km2 with clusters := s.clusters }
          { km1 with clusters := s.clusters } p p hKe.symm hde.symm rfl rfl hr2) (hv1 k)]
      apply KMeans.getIDNearestCenter_strict { km2 with clusters := s.clusters } (sched1 k) p c
        hr2 _ (List.mem_range.mp hc)
      · rw [hd]
        exact hlt
      · intro i hi hic
        rw [hd, hd]
        exact hmin i (List.mem_range.mpr hi) hic
      · have := hv1 k
        unfold KMeans.ValidSchedule at this ⊢
        rw [← hKe]
        exact this
    exact KMeans.assignPoint_congr km1 km2 (sched1 k) (sched2 k) k s p hp (by rw [h1, h2])
  · exact ⟨hcs, hps, rfl, fun _ _ => rfl, fun j p hp => ⟨p, hp, rfl, rfl⟩⟩

/-- A loop that is entered at iteration 1 with a cap of at least 2, whose second iteration
leaves a state the third one does not change, ends at iteration 2 or 3 with that state. -/
theorem KMeans.loop_two_then_stable (km : KMeans) (sched : Int → Nat → List (List Nat))
    (pts : List Point) (trace : List Snapshot) (a1 a2 : PhaseState) (cs1 cs2 : List Cluster)
    (hmax : 2 ≤ km.max_iterations)
    (h1 : km.assignPhase (sched 1) pts = Except.ok a1) (hd1 : a1.done = false)
    (r1 : KMeans.recomputePhase { km with clusters := a1.clusters } = Except.ok cs1)
    (h2 : KMeans.assignPhase { km with clusters := cs1 } (sched (1 + 1)) a1.points =
      Except.ok a2)
    (r2 : KMeans.recomputePhase { km with clusters := a2.clusters } = Except.ok cs2)
    (h3 : KMeans.assignPhase { km with clusters := cs2 } (sched (1 + 1 + 1)) a2.points =
      Except.ok { clusters := cs2, points := a2.points, done := true })
    (r3 : KMeans.recomputePhase { km with clusters := cs2 } = Except.ok cs2) :
    ∃ r, km.loop sched pts 1 trace = Except.ok r ∧ r.km.clusters = cs2 ∧
      r.points = a2.points ∧ 2 ≤ r.iter ∧ r.iter ≤ 3 ∧ r.iter ≤ km.max_iterations := by
  have hc1 : ¬ (a1.done = true ∨ (1 : Int) ≥ km.max_iterations) := by
    intro h
    rcases h with h | h
    · rw [hd1] at h
      exact absurd h (by decide)
    · omega
  rw [km.loop_continue sched pts 1 trace a1 cs1 h1 r1 hc1]
  by_cases hc2 : a2.done = true ∨ (1 + 1 : Int) ≥ km.max_iterations
  · refine ⟨_, KMeans.loop_exit { km with clusters := cs1 } sched a1.points (1 + 1) _ a2 cs2
      h2 r2 hc2, rfl, rfl, ?_, ?_, ?_⟩
    · show (2 : Int) ≤ 1 + 1
      decide
    · show (1 + 1 : Int) ≤ 3
      decide
    · show (1 + 1 : Int) ≤ km.max_iterations
      omega
  · rw [KMeans.loop_continue { km with clusters := cs1 } sched a1.points (1 + 1) _ a2 cs2
      h2 r2 hc2]
    have hmax3 : (1 + 1 + 1 : Int) ≤ km.max_iterations := by
      have : ¬ ((1 + 1 : Int) ≥ km.max_iterations) := fun h => hc2 (Or.inr h)
      omega
    refine ⟨_, KMeans.loop_exit { km with clusters := cs2 } sched a2.points (1 + 1 + 1) _
      { clusters := cs2, points := a2.points, done := true } cs2 h3 r3 (Or.inl rfl),
      rfl, rfl, ?_, ?_, hmax3⟩
    · show (2 : Int) ≤ 1 + 1 + 1
      decide
    · show (1 + 1 + 1 : Int) ≤ 3
      decide

/-! ## The points 1, 2, 9, 10 -/

/-- Whichever two different points seed the clusters, the run under ascending scans is as
`lineCheck` says. -/
theorem lineCheck_all :
    ∀ a ∈ List.range 4, ∀ b ∈ List.range 4, a ≠ b → lineCheck a b = true := by
  decide!

theorem linePoints_total : ∀ p ∈ linePoints, p.getTotalValues.toNat = p.values.length := by
  decide

/-- Every finished initialization of `lineKM` has chosen two different points, and its
clusters and points are those of `lineSeeds`. -/
theorem lineKM_seeds (m : Int) (rand : List Nat) (s0 : InitState)
    (h : KMeans.initialize (lineKM m) rand linePoints = Except.ok s0) :
    ∃ a b : Nat, a ∈ List.range 4 ∧ b ∈ List.range 4 ∧ a ≠ b ∧
      lineSeeds a b = some (s0.clusters, s0.points) := by
  have h' : forLoopFrom (fun i s => (lineKM m).chooseCenter (i : Int) s.prohibited_indexes
      s.clusters s.points s.rand) [0, 1]
      { rand := rand, prohibited_indexes := [], clusters := [], points := linePoints } =
      Except.ok s0 := h
  obtain ⟨s1, h1, g1⟩ := Fault.bind_eq_ok _ _ _ h'
  obtain ⟨s2, h2, g2⟩ := Fault.bind_eq_ok _ _ _ g1
  have hs2 : s2 = s0 := Except.ok.inj g2
  subst hs2
  obtain ⟨a, pa, ca, _, _, _, _, ha0, hpa, hca, hpts1, hcs1, hproh1⟩ :=
    (lineKM m).chooseCenter_ok _ _ _ _ _ s1 h1
  obtain ⟨b, pb, cb, _, _, _, hbnot, hb0, hpb, hcb, hpts2, hcs2, _⟩ :=
    (lineKM m).chooseCenter_ok _ _ _ _ _ s2 h2
  have hpa1 : linePoints[a.toNat]? = some pa := hpa
  have hpts1a : s1.points = linePoints.set a.toNat (pa.setCluster 0) := hpts1
  have hcs1a : s1.clusters = [ca] := hcs1
  have hproh1a : s1.prohibited_indexes = [a] := hproh1
  have hba : b ≠ a := by
    intro e
    apply hbnot
    rw [hproh1a, e]
    exact List.mem_singleton.mpr rfl
  have hab : a.toNat ≠ b.toNat := by omega
  have hpb1 : linePoints[b.toNat]? = some pb := by
    rw [hpts1a, List.getElem?_set_ne hab] at hpb
    exact hpb
  have halt : a.toNat < linePoints.length := (List.getElem?_eq_some.mp hpa1).1
  have hblt : b.toNat < linePoints.length := (List.getElem?_eq_some.mp hpb1).1
  have hca1 : ca = Cluster.ofSeed 0 (pa.setCluster 0) := by
    have := Cluster.new_eq 0 (pa.setCluster 0)
      (linePoints_total pa (List.mem_iff_getElem?.mpr ⟨_, hpa1⟩))
    have hca2 : Cluster.new 0 (pa.setCluster 0) = Except.ok ca := hca
    rw [this] at hca2
    exact (Except.ok.inj hca2).symm
  have hcb1 : cb = Cluster.ofSeed 1 (pb.setCluster 1) := by
    have := Cluster.new_eq 1 (pb.setCluster 1)
      (linePoints_total pb (List.mem_iff_getElem?.mpr ⟨_, hpb1⟩))
    have hcb2 : Cluster.new 1 (pb.setCluster 1) = Except.ok cb := hcb
    rw [this] at hcb2
    exact (Except.ok.inj hcb2).symm
  refine ⟨a.toNat, b.toNat, List.mem_range.mpr halt, List.mem_range.mpr hblt, hab, ?_⟩
  have hpts2a : s2.points = s1.points.set b.toNat (pb.setCluster 1) := hpts2
  unfold lineSeeds
  rw [hpa1, hpb1, hcs2, hcs1a, hpts2a, hpts1a, hca1, hcb1]
  rfl

/-- What `lineCheck` says, iteration by iteration. -/
theorem lineCheck_spec (a b : Nat) (cs0 : List Cluster) (pts0 : List Point)
    (hs : lineSeeds a b = some (cs0, pts0)) (h : lineCheck a b = true) :
    ∃ a1 a2 : PhaseState, lineStep cs0 pts0 = some a1 ∧
      lineStep (a1.clusters.map (Cluster.recenter 1)) a1.points = some a2 ∧
      LineReady cs0 pts0 ∧ a1.done = false ∧
      (lineAt a1.clusters).ClustersReady a1.clusters ∧
      LineReady (a1.clusters.map (Cluster.recenter 1)) a1.points ∧
      (lineAt a2.clusters).ClustersReady a2.clusters ∧
      LineReady (a2.clusters.map (Cluster.recenter 1)) a2.points ∧
      lineStep (a2.clusters.map (Cluster.recenter 1)) a2.points =
        some { clusters := a2.clusters.map (Cluster.recenter 1), points := a2.points
               done := true } ∧
      (a2.clusters.map (Cluster.recenter 1)).map (Cluster.recenter 1) =
        a2.clusters.map (Cluster.recenter 1) ∧
      lineFinal (a2.clusters.map (Cluster.recenter 1)) = true := by
  unfold lineCheck at h
  rw [hs] at h
  dsimp only at h
  cases h1 : lineStep cs0 pts0 with
  | none =>
    rw [h1] at h
    exact absurd h (by simp)
  | some a1 =>
    rw [h1] at h
    dsimp only at h
    cases h2 : lineStep (a1.clusters.map (Cluster.recenter 1)) a1.points with
    | none =>
      rw [h2] at h
      exact absurd h (by simp)
    | some a2 =>
      rw [h2] at h
      dsimp only at h
      exact ⟨a1, a2, rfl, h2, of_decide_eq_true h⟩

/-- The assignment phase of `lineKM`, whatever its iteration cap, is under every valid
schedule the one under ascending scans when there is no tie. -/
theorem lineStep_transfer (m : Int) (sch : Nat → List (List Nat)) (cs : List Cluster)
    (pts : List Point) (a : PhaseState) (hv : ∀ i, (lineKM m).ValidSchedule (sch i))
    (hr : LineReady cs pts) (hst : lineStep cs pts = some a) :
    KMeans.assignPhase { lineKM m with clusters := cs } sch pts = Except.ok a := by
  rw [KMeans.assignPhase_congr { lineKM m with clusters := cs } (lineAt cs) sch (ascending 0)
    pts rfl rfl rfl rfl (by show (1 : Int) ≤ 2; decide) hv
    (by
      intro i
      show ([[0, 1]] : List (List Nat)).flatten.Perm (List.range 2)
      decide) hr.1 hr.2.1 hr.2.2]
  exact Fault.ok_of_toOption _ _ hst

theorem line_recompute (m : Int) (cs : List Cluster) (h : (lineAt cs).ClustersReady cs) :
    KMeans.recomputePhase { lineKM m with clusters := cs } =
      Except.ok (cs.map (Cluster.recenter 1)) :=
  KMeans.recomputePhase_eq { lineKM m with clusters := cs } h

theorem lineFinal_spec (cs : List Cluster) (h : lineFinal cs = true) :
    ∃ lo hi : Cluster, (cs = [lo, hi] ∨ cs = [hi, lo]) ∧
      lo.Holds (3 / 2) [(0, [1]), (1, [2])] ∧ hi.Holds (19 / 2) [(2, [9]), (3, [10])] := by
  match cs, h with
  | [c0, c1], h =>
    rcases of_decide_eq_true h with ⟨h1, h2⟩ | ⟨h1, h2⟩
    · exact ⟨c0, c1, Or.inl rfl, h1, h2⟩
    · exact ⟨c1, c0, Or.inr rfl, h1, h2⟩

/-- C13: for the four one-dimensional points `1`, `2`, `9`, `10` (ids `0 .. 3`), `K = 2`,
every iteration cap `m ≥ 2`, every valid schedule and every stream of draws on which the
initialization finishes (whichever two different points it has chosen, in whichever order),
`run` completes within `m` iterations, and of its two final clusters one has the centroid
`3/2` and as members exactly the points `1` and `2`, the other has the centroid `19/2`
and as members exactly the points `9` and `10`. -/
theorem KMeans.run_line (m : Int) (rand : List Nat) (sched : Int → Nat → List (List Nat))
    (s0 : InitState) (hm : 2 ≤ m) (hv : ∀ it i, (lineKM m).ValidSchedule (sched it i))
    (h : KMeans.initialize (lineKM m) rand linePoints = Except.ok s0) :
    ∃ (r : RunResult) (lo hi : Cluster),
      (lineKM m).run rand sched linePoints = Except.ok (Outcome.completed r) ∧
      2 ≤ r.iter ∧ r.iter ≤ 3 ∧ r.iter ≤ m ∧
      (r.km.clusters = [lo, hi] ∨ r.km.clusters = [hi, lo]) ∧
      lo.Holds (3 / 2) [(0, [1]), (1, [2])] ∧ hi.Holds (19 / 2) [(2, [9]), (3, [10])] := by
  obtain ⟨a, b, ha, hb, hab, hseeds⟩ := lineKM_seeds m rand s0 h
  obtain ⟨a1, a2, e1, e2, g0, hd1, c1, g1, c2, g2, e3, hfix, hfin⟩ :=
    lineCheck_spec a b s0.clusters s0.points hseeds (lineCheck_all a ha b hb hab)
  obtain ⟨r, hr, q1, q2, q3, q4, q5⟩ :=
    KMeans.loop_two_then_stable { lineKM m with clusters := s0.clusters } sched s0.points
      (initTrace s0) a1 a2 (a1.clusters.map (Cluster.recenter 1))
      (a2.clusters.map (Cluster.recenter 1)) hm
      (lineStep_transfer m (sched 1) s0.clusters s0.points a1 (hv 1) g0 e1) hd1
      (line_recompute m a1.clusters c1)
      (lineStep_transfer m (sched (1 + 1)) _ a1.points a2 (hv (1 + 1)) g1 e2)
      (line_recompute m a2.clusters c2)
      (lineStep_transfer m (sched (1 + 1 + 1)) _ a2.points _ (hv (1 + 1 + 1)) g2 e3)
      (by
        have := line_recompute m (a2.clusters.map (Cluster.recenter 1)) g2.1
        rw [hfix] at this
        exact this)
  obtain ⟨lo, hi, hcs, hlo, hhi⟩ := lineFinal_spec _ hfin
  refine ⟨r, lo, hi, ?_, q3, q4, q5, by rw [q1]; exact hcs, hlo, hhi⟩
  have hK : ¬ (lineKM m).K > (lineKM m).total_points := by
    show ¬ ((2 : Int) > 4)
    decide
  simp only [KMeans.run, hK, if_false, h, Fault.ok_bind]
  simp only [initTrace] at hr
  rw [hr]
  rfl

theorem lineKM_valid : ∀ (it : Int) (i : Nat), (lineKM 5).ValidSchedule (twinSched it i) := by
  intro it i
  unfold KMeans.ValidSchedule lineKM twinSched
  by_cases h : i = 0
  · simp only [h, if_true]
    decide
  · simp only [h, if_false]
    decide

/-- C13, witness: an iteration cap of 5; the draws choose the point `2`, repeat it, and
choose the point `9`. -/
theorem KMeans.run_line_witness :
    ∃ (r : RunResult) (lo hi : Cluster),
      (lineKM 5).run [1, 5, 2] twinSched linePoints = Except.ok (Outcome.completed r) ∧
      2 ≤ r.iter ∧ r.iter ≤ 3 ∧ r.iter ≤ 5 ∧
      (r.km.clusters = [lo, hi] ∨ r.km.clusters = [hi, lo]) ∧
      lo.Holds (3 / 2) [(0, [1]), (1, [2])] ∧ hi.Holds (19 / 2) [(2, [9]), (3, [10])] :=
  KMeans.run_line 5 [1, 5, 2] twinSched _ (by decide) lineKM_valid rfl

/-! ## Rounding and the values of computed distances -/

theorem roundMagnitude_nonneg (n d : Nat) : 0 ≤ roundMagnitude n d := by
  unfold roundMagnitude
  simp only
  split
  · exact Nat.cast_nonneg _
  · exact div_nonneg (Nat.cast_nonneg _) (Nat.cast_nonneg _)

theorem DBL_MAX_lt_top : DBL_MAX < 2 ^ 1024 := by
  norm_num [DBL_MAX]

theorem DBL_MAX_nonneg : (0 : ℚ) ≤ DBL_MAX := by
  norm_num [DBL_MAX]

theorem roundDouble_good (q : ℚ) (h : 0 ≤ q) : (roundDouble q).Good := by
  unfold roundDouble
  by_cases h0 : q = 0
  · rw [if_pos h0]
    exact ⟨le_rfl, DBL_MAX_nonneg⟩
  · rw [if_neg h0]
    simp only
    have hn : ¬ q < 0 := not_lt.mpr h
    by_cases h1 : DBL_MAX < roundMagnitude q.num.natAbs q.den
    · rw [if_pos h1]
      simp [Dbl.Good, hn]
    · rw [if_neg h1, if_neg hn]
      exact ⟨roundMagnitude_nonneg _ _, not_lt.mp h1⟩

theorem roundDouble_ne_nan (q : ℚ) : roundDouble q ≠ Dbl.nan := by
  unfold roundDouble
  by_cases h0 : q = 0
  · rw [if_pos h0]
    simp
  · rw [if_neg h0]
    simp only
    split <;> simp

theorem Dbl.add_good (a b : Dbl) (ha : a.Good) (hb : b.Good) : (Dbl.add a b).Good := by
  cases a with
  | fin x =>
    cases b with
    | fin y => exact roundDouble_good _ (add_nonneg ha.1 hb.1)
    | inf t => exact hb
    | nan => exact hb.elim
  | inf s =>
    cases b with
    | fin y => exact ha
    | inf t =>
      have hs : s = false := ha
      have ht : t = false := hb
      subst hs
      subst ht
      simp [Dbl.add, Dbl.Good]
    | nan => exact hb.elim
  | nan => exact ha.elim

theorem Dbl.square_good (x y : ℚ) :
    (Dbl.mul (Dbl.sub (Dbl.fin x) (Dbl.fin y)) (Dbl.sub (Dbl.fin x) (Dbl.fin y))).Good := by
  have hd : Dbl.sub (Dbl.fin x) (Dbl.fin y) = roundDouble (x + -y) := rfl
  rw [hd]
  have hnan := roundDouble_ne_nan (x + -y)
  cases hr : roundDouble (x + -y) with
  | fin a => exact roundDouble_good _ (mul_self_nonneg a)
  | inf s => simp [Dbl.mul, Dbl.Good]
  | nan => exact absurd hr hnan

theorem foldl_add_good (l : List Dbl) (init : Dbl) (hi : init.Good) (hl : ∀ x ∈ l, x.Good) :
    (l.foldl Dbl.add init).Good := by
  induction l generalizing init with
  | nil => exact hi
  | cons x rest ih =>
    rw [List.foldl_cons]
    exact ih _ (Dbl.add_good _ _ hi (hl x (by simp)))
      (fun y hy => hl y (List.mem_cons_of_mem x hy))

theorem IEEE.sqDist_good (a b : List ℚ) : (IEEE.sqDist a b).Good := by
  unfold IEEE.sqDist
  apply foldl_add_good
  · exact ⟨le_rfl, DBL_MAX_nonneg⟩
  · intro x hx
    obtain ⟨i, hi⟩ := List.mem_iff_getElem?.mp hx
    rw [List.getElem?_zipWith] at hi
    cases ha : a[i]? with
    | none => simp [ha] at hi
    | some u =>
      cases hb : b[i]? with
      | none => simp [ha, hb] at hi
      | some v =>
        simp only [ha, hb, Option.map_some', Option.bind_some, Option.some.injEq] at hi
        rw [← hi]
        exact Dbl.square_good u v

theorem IEEE.dist_good (km : KMeans) (point : Point) (i : Nat) :
    (IEEE.dist km point i).Good := by
  unfold IEEE.dist
  cases km.clusters[i]? with
  | none => exact ⟨le_rfl, DBL_MAX_nonneg⟩
  | some c => exact IEEE.sqDist_good _ _

/-- On the values of computed distances `<` is the order of the keys. -/
theorem Dbl.lt_iff_key (a b : Dbl) (ha : a.Good) (hb : b.Good) :
    Dbl.lt a b = true ↔ a.key < b.key := by
  cases a with
  | fin x =>
    cases b with
    | fin y => simp [Dbl.lt, Dbl.key]
    | inf t =>
      have ht : t = false := hb
      subst ht
      simp only [Dbl.lt, Dbl.key, Bool.not_false, true_iff]
      exact lt_of_le_of_lt ha.2 DBL_MAX_lt_top
    | nan => exact hb.elim
  | inf s =>
    have hs : s = false := ha
    subst hs
    cases b with
    | fin y =>
      simp only [Dbl.lt, Dbl.key, Bool.false_eq_true, false_iff, not_lt]
      exact le_of_lt (lt_of_le_of_lt hb.2 DBL_MAX_lt_top)
    | inf t => simp [Dbl.lt, Dbl.key]
    | nan => exact hb.elim
  | nan => exact ha.elim

/-! ## The nearest-center search in binary64 -/

theorem foldl_take_succ {α β : Type} (f : β → α → β) (b : β) (l : List α) (k : Nat)
    (h : k < l.length) :
    (l.take (k + 1)).foldl f b = f ((l.take k).foldl f b) (l.get ⟨k, h⟩) := by
  rw [List.take_succ, List.foldl_append, List.getElem?_eq_getElem h]
  rfl

theorem IEEE.distLoop_dbl (km : KMeans) (point : Point) (i : Nat) (c : Cluster)
    (hi : km.clusters[i]? = some c)
    (hc : c.central_values.length = km.total_values.toNat)
    (hp : point.values.length = km.total_values.toNat) :
    forLoop km.total_values (IEEE.distStep km point i) (Dbl.fin 0) =
      Except.ok (IEEE.dist km point i) := by
  have hilt : i < km.clusters.length := by
    rcases List.getElem?_eq_some.mp hi with ⟨h, _⟩
    exact h
  have hget : km.clusters.get ⟨i, hilt⟩ = c := by
    rcases List.getElem?_eq_some.mp hi with ⟨_, h⟩
    exact h
  let zs := List.zipWith (fun x y =>
    Dbl.mul (Dbl.sub (Dbl.fin x) (Dbl.fin y)) (Dbl.sub (Dbl.fin x) (Dbl.fin y)))
    c.central_values point.values
  have hzlen : zs.length = km.total_values.toNat := by
    simp [zs, hc, hp]
  have h := forLoop_seq km.total_values (IEEE.distStep km point i)
    (fun k => (zs.take k).foldl Dbl.add (Dbl.fin 0)) (by
    intro k hk
    have hk1 : k < c.central_values.length := by omega
    have hk2 : k < point.values.length := by omega
    have hkz : k < zs.length := by omega
    simp only [IEEE.distStep, vecGet_natCast km.clusters i hilt, hget, Fault.ok_bind,
      Cluster.getCentralValue, Point.getValue, vecGet_natCast _ k hk1, vecGet_natCast _ k hk2,
      Fault.pure_eq]
    rw [foldl_take_succ Dbl.add (Dbl.fin 0) zs k hkz]
    simp [zs])
  simp only [List.take_zero, List.foldl_nil] at h
  rw [h, IEEE.dist, hi]
  simp only [IEEE.sqDist]
  rw [← hzlen, List.take_length]

theorem IEEE.visit_dbl (km : KMeans) (point : Point) (i : Nat) (ld : Dbl × Int)
    (hr : km.SearchReady point) (hi : i < km.K.toNat) :
    IEEE.visit km point i ld = Except.ok (IEEE.keep ld (IEEE.cand km point i)) := by
  obtain ⟨hlen, hc, hp⟩ := hr
  have hilt : i < km.clusters.length := by omega
  have hsome : km.clusters[i]? = some (km.clusters.get ⟨i, hilt⟩) := by
    simp [List.getElem?_eq_getElem hilt]
  have hd := IEEE.distLoop_dbl km point i _ hsome (hc _ (List.get_mem _ _ _)) hp
  simp only [IEEE.visit, hd, Fault.ok_bind, Fault.pure_eq, IEEE.keep, IEEE.cand]

theorem IEEE.worker_dbl (km : KMeans) (point : Point) (hr : km.SearchReady point)
    (w : List Nat) (hw : ∀ i ∈ w, i < km.K.toNat) (ld : Dbl × Int) :
    forLoopFrom (IEEE.visit km point) w ld =
      Except.ok ((w.map (IEEE.cand km point)).foldl IEEE.keep ld) := by
  induction w generalizing ld with
  | nil => rfl
  | cons i rest ih =>
    rw [forLoopFrom_cons_ok _ i rest ld _ (IEEE.visit_dbl km point i ld hr (hw i (by simp)))]
    rw [ih (fun k hk => hw k (List.mem_cons_of_mem i hk))]
    simp

theorem IEEE.localMins_dbl (km : KMeans) (point : Point) (hr : km.SearchReady point)
    (sched : List (List Nat)) (hs : ∀ w ∈ sched, ∀ i ∈ w, i < km.K.toNat) :
    IEEE.localMins km point sched =
      Except.ok (sched.map (fun w =>
        (w.map (IEEE.cand km point)).foldl IEEE.keep (Dbl.fin DBL_MAX, 0))) := by
  induction sched with
  | nil => rfl
  | cons w ws ih =>
    simp only [IEEE.localMins, IEEE.worker_dbl km point hr w (hs w (by simp)),
      ih (fun v hv => hs v (List.mem_cons_of_mem w hv)), Fault.ok_bind, Fault.pure_eq,
      List.map_cons]

theorem IEEE.combine_dbl (l : List (Dbl × Int)) (best : Dbl × Int) :
    IEEE.combine l best = l.foldl IEEE.keep best := by
  induction l generalizing best with
  | nil => rfl
  | cons x rest ih =>
    simp only [IEEE.combine, List.foldl_cons, IEEE.keep, ih]

/-- A scan of computed distances is, on the keys, a scan of rationals. -/
theorem IEEE.foldl_keep_key (l : List (Dbl × Int)) (init : Dbl × Int) (hi : init.1.Good)
    (hl : ∀ x ∈ l, x.1.Good) :
    (l.foldl IEEE.keep init).1.Good ∧
    ((l.foldl IEEE.keep init).1.key, (l.foldl IEEE.keep init).2) =
      (l.map (fun x => (x.1.key, x.2))).foldl KMeans.keep (init.1.key, init.2) := by
  induction l generalizing init with
  | nil => exact ⟨hi, rfl⟩
  | cons x rest ih =>
    have hx : x.1.Good := hl x (by simp)
    have hrest : ∀ y ∈ rest, y.1.Good := fun y hy => hl y (List.mem_cons_of_mem x hy)
    simp only [List.foldl_cons, List.map_cons]
    by_cases h : Dbl.lt x.1 init.1 = true
    · have e1 : IEEE.keep init x = x := by simp [IEEE.keep, h]
      have e2 : KMeans.keep (init.1.key, init.2) (x.1.key, x.2) = (x.1.key, x.2) := by
        simp [KMeans.keep, (Dbl.lt_iff_key _ _ hx hi).mp h]
      rw [e1, e2]
      exact ih x hx hrest
    · have e1 : IEEE.keep init x = init := by simp [IEEE.keep, h]
      have h2 : ¬ x.1.key < init.1.key := fun hlt => h ((Dbl.lt_iff_key _ _ hx hi).mpr hlt)
      have e2 : KMeans.keep (init.1.key, init.2) (x.1.key, x.2) = (init.1.key, init.2) := by
        simp [KMeans.keep, h2]
      rw [e1, e2]
      exact ih init hi hrest

/-- The search in binary64 returns the id a single scan of the keys keeps, in the order in
which the workers are merged. -/
theorem IEEE.getIDNearestCenter_key (km : KMeans) (sched : List (List Nat))
    (point : Point) (hr : km.SearchReady point)
    (hs : ∀ w ∈ sched, ∀ i ∈ w, i < km.K.toNat) :
    IEEE.getIDNearestCenter km sched point = Except.ok
      ((sched.flatten.map (IEEE.keyCand km point)).foldl KMeans.keep (DBL_MAX, 0)).2 := by
  have hgood0 : (Dbl.fin DBL_MAX).Good := ⟨DBL_MAX_nonneg, le_rfl⟩
  have hcand : ∀ (w : List Nat), ∀ x ∈ w.map (IEEE.cand km point), x.1.Good := by
    intro w x hx
    obtain ⟨i, _, rfl⟩ := List.mem_map.mp hx
    exact IEEE.dist_good km point i
  have hworker : ∀ w : List Nat,
      (((w.map (IEEE.cand km point)).foldl IEEE.keep (Dbl.fin DBL_MAX, 0)).1.key,
        ((w.map (IEEE.cand km point)).foldl IEEE.keep (Dbl.fin DBL_MAX, 0)).2) =
      (w.map (IEEE.keyCand km point)).foldl KMeans.keep (DBL_MAX, 0) := by
    intro w
    have h := (IEEE.foldl_keep_key (w.map (IEEE.cand km point)) (Dbl.fin DBL_MAX, 0) hgood0
      (hcand w)).2
    rw [h, List.map_map]
    rfl
  simp only [IEEE.getIDNearestCenter, IEEE.localMins_dbl km point hr sched hs, Fault.ok_bind,
    Fault.pure_eq, IEEE.combine_dbl]
  have hmins : ∀ x ∈ sched.map (fun w =>
      (w.map (IEEE.cand km point)).foldl IEEE.keep (Dbl.fin DBL_MAX, 0)), x.1.Good := by
    intro x hx
    obtain ⟨w, _, rfl⟩ := List.mem_map.mp hx
    exact (IEEE.foldl_keep_key _ _ hgood0 (hcand w)).1
  have h2 := (IEEE.foldl_keep_key _ (Dbl.fin DBL_MAX, 0) hgood0 hmins).2
  have h3 := congrArg Prod.snd h2
  simp only at h3
  rw [h3, List.map_map]
  have hfun : ((fun x : Dbl × Int => (x.1.key, x.2)) ∘ fun w : List Nat =>
      (w.map (IEEE.cand km point)).foldl IEEE.keep (Dbl.fin DBL_MAX, 0)) =
      fun w : List Nat => (w.map (IEEE.keyCand km point)).foldl KMeans.keep (DBL_MAX, 0) := by
    funext w
    exact hworker w
  rw [hfun]
  rw [show ((Dbl.fin DBL_MAX).key, (0 : Int)) = (DBL_MAX, 0) from rfl]
  rw [KMeans.foldl_two_level (IEEE.keyCand km point) (DBL_MAX, 0) sched (DBL_MAX, 0) le_rfl]

/-- What the search in binary64 returns, on the keys of the computed distances. -/
theorem IEEE.search_spec (km : KMeans) (sched : List (List Nat)) (point : Point)
    (hr : km.SearchReady point) (hs : ∀ w ∈ sched, ∀ i ∈ w, i < km.K.toNat) :
    (IEEE.getIDNearestCenter km sched point = Except.ok 0 ∧
      ∀ i ∈ sched.flatten, DBL_MAX ≤ (IEEE.dist km point i).key) ∨
    (∃ (before : List Nat) (c : Nat) (after : List Nat),
      sched.flatten = before ++ c :: after ∧
      IEEE.getIDNearestCenter km sched point = Except.ok (c : Int) ∧
      (IEEE.dist km point c).key < DBL_MAX ∧
      (∀ i ∈ before, (IEEE.dist km point c).key < (IEEE.dist km point i).key) ∧
      (∀ i ∈ after, (IEEE.dist km point c).key ≤ (IEEE.dist km point i).key)) := by
  rw [IEEE.getIDNearestCenter_key km sched point hr hs]
  rcases KMeans.foldl_keep_spec (sched.flatten.map (IEEE.keyCand km point)) (DBL_MAX, 0) with
    ⟨h0, hall⟩ | ⟨hlt, before, after, hl, hb, ha⟩
  · refine Or.inl ⟨by rw [h0], ?_⟩
    intro i hi
    exact hall _ (List.mem_map_of_mem _ hi)
  · right
    obtain ⟨b, rest, hbr, hb1, hrest⟩ := List.map_eq_append_iff.mp hl
    obtain ⟨c, a, hca, hc1, ha1⟩ := List.map_eq_cons_iff.mp hrest
    refine ⟨b, c, a, by rw [hbr, hca], by rw [← hc1]; rfl, ?_, ?_, ?_⟩
    · have := hlt
      rw [← hc1] at this
      exact this
    · intro i hi
      have := hb (IEEE.keyCand km point i) (by rw [← hb1]; exact List.mem_map_of_mem _ hi)
      rw [← hc1] at this
      exact this
    · intro i hi
      have := ha (IEEE.keyCand km point i) (by rw [← ha1]; exact List.mem_map_of_mem _ hi)
      rw [← hc1] at this
      exact this

/-- The search in binary64 finds an id in range. -/
theorem IEEE.getIDNearestCenter_inRange (km : KMeans) (sched : List (List Nat))
    (point : Point) (hK : 1 ≤ km.K) (hr : km.SearchReady point)
    (hs : km.ValidSchedule sched) :
    ∃ c : Nat, IEEE.getIDNearestCenter km sched point = Except.ok (c : Int) ∧
      c < km.K.toNat := by
  have hmem := km.mem_of_valid sched hs
  rcases IEEE.search_spec km sched point hr (km.valid_bound sched hs) with
    ⟨h0, _⟩ | ⟨before, c, after, ho, hc, _, _, _⟩
  · exact ⟨0, h0, by omega⟩
  · have hcin : c ∈ sched.flatten := by
      rw [ho]
      simp
    exact ⟨c, hc, (hmem c).mp hcin⟩

/-- A cluster whose computed distance is below the initial `min_dist` and strictly below
that of every other cluster is the one the search returns, under every schedule. -/
theorem IEEE.getIDNearestCenter_only (km : KMeans) (sched : List (List Nat))
    (point : Point) (c : Nat) (hr : km.SearchReady point) (hs : km.ValidSchedule sched)
    (hc : c < km.K.toNat) (hlt : Dbl.lt (IEEE.dist km point c) (Dbl.fin DBL_MAX) = true)
    (hmin : ∀ i : Nat, i < km.K.toNat → i ≠ c →
      Dbl.lt (IEEE.dist km point c) (IEEE.dist km point i) = true) :
    IEEE.getIDNearestCenter km sched point = Except.ok (c : Int) := by
  have hgood0 : (Dbl.fin DBL_MAX).Good := ⟨DBL_MAX_nonneg, le_rfl⟩
  have hcm : c ∈ sched.flatten := (km.mem_of_valid sched hs c).mpr hc
  have hltk : (IEEE.dist km point c).key < DBL_MAX :=
    (Dbl.lt_iff_key _ _ (IEEE.dist_good km point c) hgood0).mp hlt
  rcases IEEE.search_spec km sched point hr (km.valid_bound sched hs) with
    ⟨_, hall⟩ | ⟨before, c1, after, hord, hres, _, hbef, haft⟩
  · exact absurd hltk (not_lt.mpr (hall c hcm))
  · have hc1 : c1 = c := by
      by_contra hne
      have hc1m : c1 ∈ sched.flatten := by
        rw [hord]
        simp
      have hc1K : c1 < km.K.toNat := (km.mem_of_valid sched hs c1).mp hc1m
      have hstrict : (IEEE.dist km point c).key < (IEEE.dist km point c1).key :=
        (Dbl.lt_iff_key _ _ (IEEE.dist_good km point c) (IEEE.dist_good km point c1)).mp
          (hmin c1 hc1K hne)
      rw [hord] at hcm
      rcases List.mem_append.mp hcm with h | h
      · exact absurd (hbef c h) (not_lt.mpr (le_of_lt hstrict))
      · rcases List.mem_cons.mp h with h | h
        · exact hne h.symm
        · exact absurd (haft c h) (not_le.mpr hstrict)
    rw [hres, hc1]

/-- What the search in binary64 does by design, under every schedule: when some computed
squared distance is below the initial `min_dist`, the cluster it returns is one whose
computed squared distance no other cluster's is below. -/
theorem IEEE.getIDNearestCenter_computed_min (km : KMeans) (sched : List (List Nat))
    (point : Point) (hr : km.SearchReady point) (hs : km.ValidSchedule sched)
    (hmax : ∃ i : Nat, (i : Int) < km.K ∧
      Dbl.lt (IEEE.dist km point i) (Dbl.fin DBL_MAX) = true) :
    ∃ c : Nat, IEEE.getIDNearestCenter km sched point = Except.ok (c : Int) ∧
      (c : Int) < km.K ∧
      ∀ i : Nat, (i : Int) < km.K →
        Dbl.lt (IEEE.dist km point i) (IEEE.dist km point c) = false := by
  have hgood0 : (Dbl.fin DBL_MAX).Good := ⟨DBL_MAX_nonneg, le_rfl⟩
  have hmem := km.mem_of_valid sched hs
  have hlt : ∀ i : Nat, (i : Int) < km.K ↔ i < km.K.toNat := by
    intro i
    omega
  have hnot : ∀ i c : Nat, (IEEE.dist km point c).key ≤ (IEEE.dist km point i).key →
      Dbl.lt (IEEE.dist km point i) (IEEE.dist km point c) = false := by
    intro i c hle
    cases hb : Dbl.lt (IEEE.dist km point i) (IEEE.dist km point c) with
    | false => rfl
    | true =>
      exact absurd ((Dbl.lt_iff_key _ _ (IEEE.dist_good km point i)
        (IEEE.dist_good km point c)).mp hb) (not_lt.mpr hle)
  rcases IEEE.search_spec km sched point hr (km.valid_bound sched hs) with
    ⟨_, hall⟩ | ⟨before, c, after, ho, hc, hcm, hb, ha⟩
  · obtain ⟨i, hi, hd⟩ := hmax
    have hk := (Dbl.lt_iff_key _ _ (IEEE.dist_good km point i) hgood0).mp hd
    exact absurd hk (not_lt.mpr (hall i ((hmem i).mpr ((hlt i).mp hi))))
  · have hcin : c ∈ sched.flatten := by
      rw [ho]
      simp
    refine ⟨c, hc, (hlt c).mpr ((hmem c).mp hcin), ?_⟩
    intro i hi
    have hin : i ∈ sched.flatten := (hmem i).mpr ((hlt i).mp hi)
    rw [ho] at hin
    rcases List.mem_append.mp hin with h | h
    · exact hnot i c (le_of_lt (hb i h))
    · rcases List.mem_cons.mp h with h | h
      · rw [h]
        exact hnot c c le_rfl
      · exact hnot i c (ha i h)

theorem edgeRunKM_fresh : edgeRunKM.FreshInput edgePoints := by
  unfold KMeans.FreshInput edgeRunKM edgePoints
  decide

/-- C1, the code at the failing input: two clusters in three dimensions whose centroid
coordinates are `double`s, the point `(0, 0, 0)` and one worker that scans the clusters
0, 1. The squared distance of the first centroid is `2^1200`, computed as the positive
infinity; that of the second is `numeric_limits<double>::max()`, computed without any
rounding. Neither is strictly below the initial `min_dist`, and the search returns the
initial id 0: the cluster that is farther, in the exact and in the computed distances.
`run` meets this state on the three points that are the two centroids and `(0, 0, 0)` when
the draws choose the first two as the seeds: it ends at iteration 2 with the third point in
cluster 0. -/
theorem IEEE.getIDNearestCenter_misses_nearest :
    1 ≤ edgeKM.K ∧ edgeKM.SearchReady originPoint3 ∧
    (∀ c ∈ edgeKM.clusters, ∀ v ∈ c.central_values, IsDouble v) ∧
    edgeKM.ValidSchedule edgeKM.sequential ∧
    IEEE.getIDNearestCenter edgeKM edgeKM.sequential originPoint3 = Except.ok 0 ∧
    IEEE.dist edgeKM originPoint3 0 = Dbl.inf false ∧
    IEEE.dist edgeKM originPoint3 1 = Dbl.fin DBL_MAX ∧
    Dbl.lt (IEEE.dist edgeKM originPoint3 1) (IEEE.dist edgeKM originPoint3 0) = true ∧
    edgeKM.dist originPoint3 1 < edgeKM.dist originPoint3 0 ∧
    edgeRunKM.FreshInput edgePoints ∧
    (∀ p ∈ edgePoints, ∀ v ∈ p.values, IsDouble v) ∧
    (∃ s0, edgeRunKM.initialize [0, 1] edgePoints = Except.ok s0 ∧
      s0.clusters.map Cluster.central_values = edgeKM.clusters.map Cluster.central_values) ∧
    ∃ r, IEEE.run edgeRunKM [0, 1] ascending edgePoints = Except.ok (Outcome.completed r) ∧
      r.iter = 2 ∧ r.points.map Point.getCluster = [0, 1, 0] := by
  have hv : edgeKM.ValidSchedule edgeKM.sequential := by
    simp [KMeans.ValidSchedule, KMeans.sequential]
  refine ⟨by decide, edgeKM_ready, by decide!, hv, ?_, by decide!, by decide!, by decide!, ?_,
    edgeRunKM_fresh, by decide!, ⟨_, rfl, rfl⟩, ?_⟩
  · apply Fault.ok_of_toOption
    decide!
  · rw [edgeKM_dist_zero, edgeKM_dist_one]
    exact DBL_MAX_lt_pow
  · have h : Fault.holds (IEEE.run edgeRunKM [0, 1] ascending edgePoints)
        (Outcome.completedWith (fun r => decide (r.iter = 2 ∧
          r.points.map Point.getCluster = [0, 1, 0]))) = true := by
      decide!
    obtain ⟨r, hr, hP⟩ := Outcome.exists_of_completedWith _ _ h
    exact ⟨r, hr, of_decide_eq_true hP⟩

/-- C17, the code at the failing input: the clusters and the point of C1, one worker for
each cluster. Both workers end with the initial pair `(max double, 0)`, and so does the
merge: the minimum it keeps is the one a single sequential scan keeps, the least computed
distance, but the id 0 it returns is the cluster whose computed distance is the infinity;
the cluster at the minimum is cluster 1. -/
theorem IEEE.getIDNearestCenter_merge_misses :
    edgeKM.ValidSchedule [[0], [1]] ∧
    (IEEE.localMins edgeKM originPoint3 [[0], [1]]).toOption =
      some [(Dbl.fin DBL_MAX, 0), (Dbl.fin DBL_MAX, 0)] ∧
    IEEE.combine [(Dbl.fin DBL_MAX, 0), (Dbl.fin DBL_MAX, 0)] (Dbl.fin DBL_MAX, 0) =
      (Dbl.fin DBL_MAX, 0) ∧
    (forLoopFrom (IEEE.visit edgeKM originPoint3) [0, 1] (Dbl.fin DBL_MAX, 0)).toOption =
      some (Dbl.fin DBL_MAX, 0) ∧
    IEEE.getIDNearestCenter edgeKM [[0], [1]] originPoint3 = Except.ok 0 ∧
    IEEE.dist edgeKM originPoint3 0 = Dbl.inf false ∧
    IEEE.dist edgeKM originPoint3 1 = Dbl.fin DBL_MAX := by
  have hv : edgeKM.ValidSchedule [[0], [1]] := by
    unfold KMeans.ValidSchedule edgeKM
    decide
  refine ⟨hv, by decide!, by decide!, by decide!, ?_, by decide!, by decide!⟩
  apply Fault.ok_of_toOption
  decide!

/-- C7 (amended): when the concatenation of the workers' visits, in the order the workers
are merged, lists the clusters in ascending order (a single worker scanning `0 .. K-1` is one
such schedule) and some squared distance, as computed in `double`, is below
`numeric_limits<double>::max()`, `getIDNearestCenter` returns the least index among the
clusters whose computed squared distance is the minimum. -/
theorem IEEE.getIDNearestCenter_least_index (km : KMeans) (sched : List (List Nat))
    (point : Point) (hr : km.SearchReady point)
    (hs : sched.flatten = List.range km.K.toNat)
    (hmax : ∃ i : Nat, (i : Int) < km.K ∧
      Dbl.lt (IEEE.dist km point i) (Dbl.fin DBL_MAX) = true) :
    ∃ c : Nat, IEEE.getIDNearestCenter km sched point = Except.ok (c : Int) ∧
      (c : Int) < km.K ∧
      (∀ i : Nat, (i : Int) < km.K →
        Dbl.lt (IEEE.dist km point i) (IEEE.dist km point c) = false) ∧
      (∀ i : Nat, (i : Int) < km.K → IEEE.dist km point i = IEEE.dist km point c → c ≤ i) := by
  have hgood0 : (Dbl.fin DBL_MAX).Good := ⟨DBL_MAX_nonneg, le_rfl⟩
  have hv : km.ValidSchedule sched := by
    rw [KMeans.ValidSchedule, hs]
  have hmem := km.mem_of_valid sched hv
  have hlt : ∀ i : Nat, (i : Int) < km.K ↔ i < km.K.toNat := by
    intro i
    omega
  have hnot : ∀ i c : Nat, (IEEE.dist km point c).key ≤ (IEEE.dist km point i).key →
      Dbl.lt (IEEE.dist km point i) (IEEE.dist km point c) = false := by
    intro i c hle
    cases hb : Dbl.lt (IEEE.dist km point i) (IEEE.dist km point c) with
    | false => rfl
    | true =>
      exact absurd ((Dbl.lt_iff_key _ _ (IEEE.dist_good km point i)
        (IEEE.dist_good km point c)).mp hb) (not_lt.mpr hle)
  rcases IEEE.search_spec km sched point hr (km.valid_bound sched hv) with
    ⟨_, hall⟩ | ⟨before, c, after, ho, hc, hcm, hb, ha⟩
  · obtain ⟨i, hi, hd⟩ := hmax
    have hk := (Dbl.lt_iff_key _ _ (IEEE.dist_good km point i) hgood0).mp hd
    exact absurd hk (not_lt.mpr (hall i ((hmem i).mpr ((hlt i).mp hi))))
  · have hcin : c ∈ sched.flatten := by
      rw [ho]
      simp
    have hsplit : ∀ i, i ∈ sched.flatten → i ∈ before ∨ i = c ∨ i ∈ after := by
      intro i hin
      rw [ho] at hin
      rcases List.mem_append.mp hin with h | h
      · exact Or.inl h
      · rcases List.mem_cons.mp h with h | h
        · exact Or.inr (Or.inl h)
        · exact Or.inr (Or.inr h)
    have hsorted : (before ++ c :: after).Sorted (· < ·) := by
      rw [← ho, hs]
      exact List.sorted_lt_range _
    have hafter : ∀ i ∈ after, c < i := by
      intro i hi
      have h2 := (List.pairwise_append.mp hsorted).2.1
      exact List.rel_of_pairwise_cons h2 hi
    refine ⟨c, hc, (hlt c).mpr ((hmem c).mp hcin), ?_, ?_⟩
    · intro i hi
      rcases hsplit i ((hmem i).mpr ((hlt i).mp hi)) with h | rfl | h
      · exact hnot i c (le_of_lt (hb i h))
      · exact hnot i i le_rfl
      · exact hnot i c (ha i h)
    · intro i hi heq
      rcases hsplit i ((hmem i).mpr ((hlt i).mp hi)) with h | rfl | h
      · have := hb i h
        rw [heq] at this
        exact absurd this (lt_irrefl _)
      · exact le_rfl
      · exact le_of_lt (hafter i h)

/-- C7, witness: the amended statement at two tied clusters, visited in ascending order by
two workers. -/
theorem IEEE.getIDNearestCenter_least_index_witness :
    ∃ c : Nat, IEEE.getIDNearestCenter tieKM [[0], [1]] originPoint = Except.ok (c : Int) ∧
      (c : Int) < tieKM.K ∧
      (∀ i : Nat, (i : Int) < tieKM.K →
        Dbl.lt (IEEE.dist tieKM originPoint i) (IEEE.dist tieKM originPoint c) = false) ∧
      (∀ i : Nat, (i : Int) < tieKM.K →
        IEEE.dist tieKM originPoint i = IEEE.dist tieKM originPoint c → c ≤ i) :=
  IEEE.getIDNearestCenter_least_index tieKM [[0], [1]] originPoint tieKM_ready
    (by unfold tieKM; decide) ⟨0, by decide, by decide!⟩

theorem tinyKM_ready : tinyKM.SearchReady originPoint := by
  refine ⟨rfl, ?_, rfl⟩
  intro c hc
  simp only [tinyKM, List.mem_cons, List.mem_singleton, List.not_mem_nil, or_false] at hc
  rcases hc with rfl | rfl <;> rfl

/-- C7, counterexample: two clusters with the same centroid are both at squared distance 1
from the point, exactly and as computed; when the worker that visited cluster 1 is merged
before the worker that visited cluster 0, `getIDNearestCenter` returns 1 and not the lowest
id 0. And with the centroids `2^(-600)` and `0`, the point `0` and one worker scanning the
clusters in ascending order, cluster 1 alone is at the least squared distance, but the
square `2^(-1200)` is computed as 0, the computed distances tie, and the search returns 0. -/
theorem IEEE.getIDNearestCenter_merge_order :
    1 ≤ tieKM.K ∧ tieKM.SearchReady originPoint ∧ tieKM.ValidSchedule [[1], [0]] ∧
    tieKM.dist originPoint 0 = tieKM.dist originPoint 1 ∧
    IEEE.dist tieKM originPoint 0 = Dbl.fin 1 ∧ IEEE.dist tieKM originPoint 1 = Dbl.fin 1 ∧
    IEEE.getIDNearestCenter tieKM [[1], [0]] originPoint = Except.ok 1 ∧
    tinyKM.SearchReady originPoint ∧
    tinyKM.sequential.flatten = List.range tinyKM.K.toNat ∧
    (∀ c ∈ tinyKM.clusters, ∀ x ∈ c.central_values, IsDouble x) ∧
    tinyKM.dist originPoint 1 < tinyKM.dist originPoint 0 ∧
    IEEE.dist tinyKM originPoint 0 = Dbl.fin 0 ∧ IEEE.dist tinyKM originPoint 1 = Dbl.fin 0 ∧
    IEEE.getIDNearestCenter tinyKM tinyKM.sequential originPoint = Except.ok 0 := by
  have hv : tieKM.ValidSchedule [[1], [0]] := by
    unfold KMeans.ValidSchedule tieKM
    decide
  refine ⟨by decide, tieKM_ready, hv, by rw [tieKM_dist 0 (by omega), tieKM_dist 1 (by omega)],
    by decide!, by decide!, ?_, tinyKM_ready, by simp [KMeans.sequential], by decide!,
    by decide!, by decide!, by decide!, ?_⟩
  · apply Fault.ok_of_toOption
    decide!
  · apply Fault.ok_of_toOption
    decide!

/-! ## The assignment phase in binary64 -/

/-- One step of the assignment phase with the search in binary64, in closed form. -/
theorem IEEE.assignPoint_closed (km : KMeans) (sch : List (List Nat)) (i : Nat) (s : PhaseState)
    (p : Point) (hK : 1 ≤ km.K) (hv : km.ValidSchedule sch)
    (hcs : km.ClustersReady s.clusters) (hp : s.points[i]? = some p)
    (hpv : p.values.length = km.total_values.toNat)
    (hold : p.getCluster = -1 ∨ (0 ≤ p.getCluster ∧ p.getCluster < km.K)) :
    ∃ near : Nat, near < km.K.toNat ∧
      IEEE.getIDNearestCenter { km with clusters := s.clusters } sch p =
        Except.ok (near : Int) ∧
      ((p.getCluster = (near : Int) ∧ IEEE.assignPoint km sch i s = Except.ok s) ∨
       (p.getCluster ≠ (near : Int) ∧ ∃ cs2,
          IEEE.assignPoint km sch i s = Except.ok
            { clusters := cs2, points := s.points.set i (p.setCluster near), done := false } ∧
          cs2.length = s.clusters.length ∧
          ∀ t : Nat, cs2[t]? =
            (s.clusters[t]?).map (Cluster.moved p.getCluster near (p.setCluster near) t))) := by
  have hr : KMeans.SearchReady { km with clusters := s.clusters } p := ⟨hcs.1, hcs.2.1, hpv⟩
  obtain ⟨near, hnear, hlt⟩ :=
    IEEE.getIDNearestCenter_inRange { km with clusters := s.clusters } sch p hK hr hv
  have hlt : near < km.K.toNat := hlt
  refine ⟨near, hlt, hnear, ?_⟩
  by_cases heq : p.getCluster = (near : Int)
  · left
    refine ⟨heq, ?_⟩
    simp only [IEEE.assignPoint, vecGet_of_getElem? _ i p hp, Fault.ok_bind, hnear, heq,
      ne_eq, not_true_eq_false, if_false, Fault.pure_eq]
  · right
    refine ⟨heq, ?_⟩
    have hlen : s.clusters.length = km.K.toNat := hcs.1
    obtain ⟨cs1, h1, hl1, hg1⟩ := KMeans.leaveOld_eq s.clusters p.getCluster p.getID (by
      rcases hold with h | ⟨h0, hK1⟩
      · exact Or.inl h
      · right
        constructor
        · exact h0
        · omega)
    obtain ⟨cs2, h2, hl2, hg2⟩ := KMeans.joinNearest_eq cs1 near (p.setCluster near) (by omega)
    have hi : i < s.points.length := (List.getElem?_eq_some.mp hp).1
    have hp1 : (s.points.set i (p.setCluster near))[i]? = some (p.setCluster near) :=
      List.getElem?_set_self hi
    refine ⟨cs2, ?_, by omega, ?_⟩
    · simp only [IEEE.assignPoint, vecGet_of_getElem? _ i p hp, Fault.ok_bind, hnear, ne_eq,
        heq, not_false_eq_true, if_true, h1, vecSet_of_getElem? _ i p _ hp,
        vecGet_of_getElem? _ i _ hp1, h2, Fault.pure_eq]
    · intro t
      rw [hg2 t, hg1 t]
      cases s.clusters[t]? with
      | none => rfl
      | some c => rfl

/-- A step whose search in binary64 returns the cluster the point is in changes nothing. -/
theorem IEEE.assignPoint_stays (km : KMeans) (sch : List (List Nat)) (i : Nat)
    (s : PhaseState) (p : Point) (near : Int) (hp : s.points[i]? = some p)
    (hn : IEEE.getIDNearestCenter { km with clusters := s.clusters } sch p = Except.ok near)
    (he : p.getCluster = near) : IEEE.assignPoint km sch i s = Except.ok s := by
  simp only [IEEE.assignPoint, vecGet_of_getElem? _ i p hp, Fault.ok_bind, hn, he, ne_eq,
    not_true_eq_false, if_false, Fault.pure_eq]

/-- A step with the search in binary64 never faults on a state of the right shape and keeps
what `PhaseOK` says. -/
theorem IEEE.assignPoint_shape (km : KMeans) (cs0 : List Cluster) (pts : List Point)
    (sch : List (List Nat)) (k : Nat) (s : PhaseState) (hK : 1 ≤ km.K)
    (hv : km.ValidSchedule sch) (hk : k < km.total_points.toNat)
    (hs : km.PhaseOK cs0 pts k s) :
    ∃ s1, IEEE.assignPoint km sch k s = Except.ok s1 ∧ km.PhaseOK cs0 pts (k + 1) s1 := by
  obtain ⟨hcs, ⟨hplen, hpval, hptag⟩, hcen, hlater, hsame⟩ := hs
  have hilt : k < s.points.length := by omega
  have hp : s.points[k]? = some (s.points.get ⟨k, hilt⟩) := by
    simp [List.getElem?_eq_getElem hilt]
  generalize s.points.get ⟨k, hilt⟩ = p at hp
  have hpmem : p ∈ s.points := List.mem_iff_getElem?.mpr ⟨k, hp⟩
  obtain ⟨near, hnear, _, hcase⟩ :=
    IEEE.assignPoint_closed km sch k s p hK hv hcs hp (hpval p hpmem) (hptag p hpmem)
  rcases hcase with ⟨_, hres⟩ | ⟨_, cs2, hres, hl2, hg⟩
  · exact ⟨s, hres, hcs, ⟨hplen, hpval, hptag⟩, hcen, fun j hj => hlater j (by omega), hsame⟩
  · obtain ⟨hclen, hccv, hcmem⟩ := hcs
    have hfrom : ∀ (t : Nat) (c2 : Cluster), cs2[t]? = some c2 →
        ∃ c0, s.clusters[t]? = some c0 ∧
          c2 = Cluster.moved p.getCluster near (p.setCluster near) t c0 := by
      intro t c2 hc2
      rw [hg t] at hc2
      obtain ⟨c0, hc0, rfl⟩ := Option.map_eq_some'.mp hc2
      exact ⟨c0, hc0, rfl⟩
    refine ⟨_, hres, ⟨hl2.trans hclen, ?_, ?_⟩, ⟨by simpa using hplen, ?_, ?_⟩, ?_, ?_, ?_⟩
    · intro c2 hc2
      obtain ⟨t, ht⟩ := List.mem_iff_getElem?.mp hc2
      obtain ⟨c0, hc0, rfl⟩ := hfrom t c2 ht
      rw [Cluster.moved_central]
      exact hccv c0 (List.mem_iff_getElem?.mpr ⟨t, hc0⟩)
    · intro c2 hc2 q hq
      obtain ⟨t, ht⟩ := List.mem_iff_getElem?.mp hc2
      obtain ⟨c0, hc0, rfl⟩ := hfrom t c2 ht
      rcases Cluster.moved_mem _ _ _ _ _ q hq with h | rfl
      · exact hcmem c0 (List.mem_iff_getElem?.mpr ⟨t, hc0⟩) q h
      · exact hpval p hpmem
    · intro q hq
      rcases List.mem_or_eq_of_mem_set hq with h | rfl
      · exact hpval q h
      · exact hpval p hpmem
    · intro q hq
      rcases List.mem_or_eq_of_mem_set hq with h | rfl
      · exact hptag q h
      · right
        simp only [Point.getCluster, Point.setCluster]
        omega
    · rw [← hcen]
      apply List.ext_getElem?
      intro t
      show (cs2.map Cluster.central_values)[t]? = (s.clusters.map Cluster.central_values)[t]?
      rw [List.getElem?_map, List.getElem?_map, hg t]
      cases s.clusters[t]? with
      | none => rfl
      | some c => simp [Cluster.moved_central]
    · intro j hj
      show (s.points.set k (p.setCluster near))[j]? = pts[j]?
      rw [List.getElem?_set_ne (by omega)]
      exact hlater j (by omega)
    · intro j q hq
      have hq2 : (s.points.set k (p.setCluster near))[j]? = some q := hq
      by_cases hjk : j = k
      · subst hjk
        rw [List.getElem?_set_self hilt] at hq2
        have hq1 : q = p.setCluster near := (Option.some.inj hq2).symm
        subst hq1
        exact hsame j p hp
      · rw [List.getElem?_set_ne (fun e => hjk e.symm)] at hq2
        exact hsame j q hq2

/-- The assignment phase with the searches in binary64 never faults on a state of the right
shape; it keeps what `PhaseOK` says and every property `J` that each of its steps keeps. -/
theorem IEEE.assignPhase_shape (km : KMeans) (sched : Nat → List (List Nat))
    (pts : List Point) (hK : 1 ≤ km.K) (hv : ∀ i, km.ValidSchedule (sched i))
    (hcs : km.ClustersReady km.clusters) (hps : km.PointsReady pts)
    (J : Nat → PhaseState → Prop) (h0 : J 0 { clusters := km.clusters, points := pts, done := true })
    (hstep : ∀ (k : Nat) (s s1 : PhaseState), k < km.total_points.toNat →
      km.PhaseOK km.clusters pts k s → J k s → IEEE.assignPoint km (sched k) k s = Except.ok s1 →
      J (k + 1) s1) :
    ∃ s, IEEE.assignPhase km sched pts = Except.ok s ∧
      km.PhaseOK km.clusters pts km.total_points.toNat s ∧ J km.total_points.toNat s := by
  refine forLoop_inv km.total_points (fun i s => IEEE.assignPoint km (sched i) i s)
    (fun k s => km.PhaseOK km.clusters pts k s ∧ J k s) ?_
    { clusters := km.clusters, points := pts, done := true } ⟨⟨hcs, hps, rfl, fun _ _ => rfl, ?_⟩, h0⟩
  · intro k hk s ⟨h1, h2⟩
    obtain ⟨s1, hs1, g1⟩ := IEEE.assignPoint_shape km km.clusters pts (sched k) k s hK (hv k) hk h1
    exact ⟨s1, hs1, g1, hstep k s s1 hk h1 h2 hs1⟩
  · intro j p hp
    exact ⟨p, hp, rfl, rfl⟩

/-- The loop that sums coordinate `j` over the members of cluster `i`, in binary64. -/
theorem IEEE.sumLoop_dbl (clusters : List Cluster) (i j : Nat) (c : Cluster)
    (hi : clusters[i]? = some c) (hv : ∀ q ∈ c.points, j < q.values.length) :
    forLoop c.getTotalPoints (IEEE.sumStep clusters i j) (Dbl.fin 0) =
      Except.ok ((c.points.map (fun q => q.values.getD j 0)).foldl
        (fun sum v => Dbl.add sum (Dbl.fin v)) (Dbl.fin 0)) := by
  let zs := c.points.map (fun q => q.values.getD j 0)
  have hzlen : zs.length = c.points.length := by simp [zs]
  have h := forLoop_seq c.getTotalPoints (IEEE.sumStep clusters i j)
    (fun p => (zs.take p).foldl (fun sum v => Dbl.add sum (Dbl.fin v)) (Dbl.fin 0)) (by
      intro p hp
      have hp1 : p < c.points.length := by
        simpa [Cluster.getTotalPoints] using hp
      have hq := hv (c.points.get ⟨p, hp1⟩) (List.get_mem _ _ _)
      simp only [IEEE.sumStep, vecGet_of_getElem? clusters i c hi, Fault.ok_bind,
        Cluster.getPoint, vecGet_natCast _ p hp1, Point.getValue, vecGet_natCast _ j hq,
        Fault.pure_eq]
      rw [foldl_take_succ _ _ zs p (by omega)]
      have hq1 : j < c.points[p].values.length := hq
      simp [zs, List.getElem?_eq_getElem hq1])
  simp only [List.take_zero, List.foldl_nil] at h
  rw [h]
  have : c.getTotalPoints.toNat = zs.length := by simp [Cluster.getTotalPoints, zs]
  rw [this, List.take_length]

/-- A round of the loop over the dimensions changes nothing when the computed mean is the
centroid component that is there. -/
theorem IEEE.recomputeValue_fixed (cs : List Cluster) (i j d : Nat) (c : Cluster)
    (hi : cs[i]? = some c) (hcv : c.central_values.length = d)
    (hv : ∀ q ∈ c.points, q.values.length = d) (hj : j < d)
    (hfix : c.points.length ≠ 0 → IEEE.mean c j = Dbl.fin (c.central_values.getD j 0)) :
    IEEE.recomputeValue i j cs = Except.ok cs := by
  by_cases hne : c.points.length = 0
  · simp [IEEE.recomputeValue, vecGet_of_getElem? cs i c hi, Fault.ok_bind,
      Cluster.getTotalPoints, hne, Fault.pure_eq]
  · have hsum := IEEE.sumLoop_dbl cs i j c hi (by
      intro q hq
      rw [hv q hq]
      exact hj)
    have hpos : (0 : Int) < (c.points.length : Int) := by omega
    have hjc : j < c.central_values.length := by omega
    have hcj : c.central_values[j]? = some (c.central_values.getD j 0) := by
      rw [List.getD_eq_getElem?_getD, List.getElem?_eq_getElem hjc]
      rfl
    have hmean : Dbl.divInt ((c.points.map (fun q => q.values.getD j 0)).foldl
        (fun sum v => Dbl.add sum (Dbl.fin v)) (Dbl.fin 0)) (c.points.length : Int) =
        Dbl.fin (c.central_values.getD j 0) := hfix hne
    simp only [Cluster.getTotalPoints] at hsum
    simp only [IEEE.recomputeValue, vecGet_of_getElem? cs i c hi, Fault.ok_bind,
      Cluster.getTotalPoints, gt_iff_lt, hpos, if_true, hsum, hmean, Dbl.toFinite,
      Cluster.setCentralValue, vecSet_of_getElem? _ j _ _ hcj, Fault.pure_eq,
      set_same _ j _ hcj]
    rw [vecSet_of_getElem? cs i c _ hi, set_same cs i c hi]

/-- The loop over the dimensions changes nothing on a cluster whose centroid is the computed
mean of its members. -/
theorem IEEE.recomputeCluster_fixed (km : KMeans) (cs : List Cluster) (i : Nat) (c : Cluster)
    (hi : cs[i]? = some c) (hcv : c.central_values.length = km.total_values.toNat)
    (hv : ∀ q ∈ c.points, q.values.length = km.total_values.toNat)
    (hfix : c.points.length ≠ 0 → ∀ j : Nat, j < km.total_values.toNat →
      IEEE.mean c j = Dbl.fin (c.central_values.getD j 0)) :
    IEEE.recomputeCluster km i cs = Except.ok cs :=
  forLoop_seq km.total_values (IEEE.recomputeValue i) (fun _ => cs) (fun j hj =>
    IEEE.recomputeValue_fixed cs i j _ c hi hcv hv hj (fun hne => hfix hne j hj))

/-- The recompute phase in binary64 changes nothing on settled clusters. -/
theorem IEEE.recomputePhase_fixed (km : KMeans) (hr : km.ClustersReady km.clusters)
    (hfix : IEEE.Settled km.total_values.toNat km.clusters) :
    IEEE.recomputePhase km = Except.ok km.clusters := by
  obtain ⟨hlen, hcv, hv⟩ := hr
  exact forLoop_seq km.K (IEEE.recomputeCluster km) (fun _ => km.clusters) (by
    intro i hi
    have hilt : i < km.clusters.length := by omega
    have hc : km.clusters[i]? = some (km.clusters.get ⟨i, hilt⟩) := by
      simp [List.getElem?_eq_getElem hilt]
    have hmem : km.clusters.get ⟨i, hilt⟩ ∈ km.clusters := List.get_mem _ _ _
    exact IEEE.recomputeCluster_fixed km km.clusters i _ hc (hcv _ hmem) (hv _ hmem)
      (fun hne j hj => hfix _ hmem hne j hj))

/-! ## The convergence loop in binary64 -/

theorem IEEE.loop_stops (km : KMeans) (sched : Int → Nat → List (List Nat))
    (pts : List Point) (iter : Int) (trace : List Snapshot) (s : PhaseState)
    (cs2 : List Cluster) (h1 : IEEE.assignPhase km (sched iter) pts = Except.ok s)
    (h2 : IEEE.recomputePhase { km with clusters := s.clusters } = Except.ok cs2)
    (h3 : s.done = true ∨ iter ≥ km.max_iterations) :
    IEEE.loop km sched pts iter trace = Except.ok
      { km := { km with clusters := cs2 }, points := s.points, iter := iter, done := s.done
        trace := trace ++ iterationTrace iter s.clusters cs2 s.points } := by
  rw [IEEE.loop]
  simp only [h1, Fault.ok_bind, h2, h3, dite_true, Fault.pure_eq, iterationTrace]

theorem IEEE.loop_goes_on (km : KMeans) (sched : Int → Nat → List (List Nat))
    (pts : List Point) (iter : Int) (trace : List Snapshot) (s : PhaseState)
    (cs2 : List Cluster) (h1 : IEEE.assignPhase km (sched iter) pts = Except.ok s)
    (h2 : IEEE.recomputePhase { km with clusters := s.clusters } = Except.ok cs2)
    (h3 : ¬ (s.done = true ∨ iter ≥ km.max_iterations)) :
    IEEE.loop km sched pts iter trace =
      IEEE.loop { km with clusters := cs2 } sched s.points (iter + 1)
        (trace ++ iterationTrace iter s.clusters cs2 s.points) := by
  rw [IEEE.loop]
  simp only [h1, Fault.ok_bind, h2, h3, dite_false, iterationTrace]

theorem roundDouble_zero : roundDouble 0 = Dbl.fin 0 := by
  unfold roundDouble
  simp

theorem IEEE.sqDist_same (v : List ℚ) : IEEE.sqDist v v = Dbl.fin 0 := by
  unfold IEEE.sqDist
  have key : ∀ l : List ℚ, (List.zipWith (fun x y =>
      Dbl.mul (Dbl.sub (Dbl.fin x) (Dbl.fin y)) (Dbl.sub (Dbl.fin x) (Dbl.fin y))) l l).foldl
      Dbl.add (Dbl.fin 0) = Dbl.fin 0 := by
    intro l
    induction l with
    | nil => rfl
    | cons x rest ih =>
      have hsub : Dbl.sub (Dbl.fin x) (Dbl.fin x) = Dbl.fin 0 := by
        show roundDouble (x + -x) = Dbl.fin 0
        rw [add_neg_cancel, roundDouble_zero]
      have hmul : Dbl.mul (Dbl.fin 0) (Dbl.fin 0) = Dbl.fin 0 := by
        show roundDouble (0 * 0) = Dbl.fin 0
        rw [mul_zero, roundDouble_zero]
      have hadd : Dbl.add (Dbl.fin 0) (Dbl.fin 0) = Dbl.fin 0 := by
        show roundDouble (0 + 0) = Dbl.fin 0
        rw [add_zero, roundDouble_zero]
      simp only [List.zipWith_cons_cons, List.foldl_cons, hsub, hmul, hadd]
      exact ih
  exact key v

/-- When `K` is the number of points, the initialization leaves every point as the seed of
the cluster its tag names, and the centroid of every other cluster is the coordinates of
another point. -/
theorem KMeans.initialize_own_cluster (km : KMeans) (rand : List Nat) (points : List Point)
    (s0 : InitState) (hf : km.FreshInput points) (hKn : km.K = km.total_points)
    (h : km.initialize rand points = Except.ok s0) :
    ∀ (j : Nat) (p : Point), s0.points[j]? = some p →
      ∃ i : Nat, i < km.K.toNat ∧ p.getCluster = (i : Int) ∧
        s0.clusters[i]? = some (Cluster.ofSeed (i : Int) p) ∧
        ∃ p0, points[j]? = some p0 ∧ p.values = p0.values ∧
        ∀ (t : Nat) (c : Cluster), t ≠ i → s0.clusters[t]? = some c →
          ∃ (j1 : Nat) (q : Point), j1 ≠ j ∧ points[j1]? = some q ∧
            c.central_values = q.values := by
  obtain ⟨hcl, hK, hKle, hlen, hpts, _⟩ := hf
  obtain ⟨g1, g2, g3, hseed, _⟩ := km.initialize_seeds_inv rand points s0 hcl (fun p hp => by
    obtain ⟨a1, a2, _⟩ := hpts p hp
    rw [a2, a1]) h
  obtain ⟨_, _, _, hnd, hall⟩ := km.initialize_chosen rand points s0 hKle h
  have hn : points.length = km.K.toNat := by omega
  intro j p hj
  have hjlt : j < km.K.toNat := by
    have := (List.getElem?_eq_some.mp hj).1
    omega
  have hjm : (j : Int) ∈ s0.prohibited_indexes :=
    mem_of_nodup_full _ km.K.toNat hnd g1
      (fun idx hidx => ⟨(hall idx hidx).1, by have := (hall idx hidx).2.2; omega⟩) j hjlt
  obtain ⟨i, hi⟩ := List.mem_iff_getElem?.mp hjm
  have hilt : i < km.K.toNat := by
    have := (List.getElem?_eq_some.mp hi).1
    omega
  obtain ⟨_, p0, hp0, hci, hsp⟩ := hseed i _ hi
  rw [Int.toNat_ofNat] at hp0 hsp
  rw [hj] at hsp
  have hpe : p = p0.setCluster (i : Int) := Option.some.inj hsp
  refine ⟨i, hilt, by rw [hpe]; rfl, by rw [hpe]; exact hci, p0, hp0, by rw [hpe]; rfl, ?_⟩
  intro t c hti hc
  have htlt : t < s0.prohibited_indexes.length := by
    have := (List.getElem?_eq_some.mp hc).1
    omega
  obtain ⟨ht0, pt, hpt, hct, _⟩ := hseed t _ (List.getElem?_eq_getElem htlt)
  rw [hc] at hct
  have hcv : c.central_values = pt.values := by
    rw [Option.some.inj hct]
    rfl
  refine ⟨(s0.prohibited_indexes[t]).toNat, pt, ?_, hpt, hcv⟩
  intro heq
  have hproh : s0.prohibited_indexes[t]? = some (j : Int) := by
    rw [List.getElem?_eq_getElem htlt]
    congr 1
    omega
  exact hti (nodup_index_inj _ hnd _ _ _ hproh hi)

/-- An assignment phase in binary64 over points that each are the seed of the cluster their
tag names, every other centroid being at a computed squared distance above 0, changes
nothing, under every valid schedule. -/
theorem IEEE.assignPhase_unmoved (km : KMeans) (sch : Nat → List (List Nat))
    (pts : List Point) (hv : ∀ i, km.ValidSchedule (sch i))
    (hcs : km.ClustersReady km.clusters) (hps : km.PointsReady pts)
    (hsing : ∀ (j : Nat) (p : Point), pts[j]? = some p →
      ∃ i : Nat, i < km.K.toNat ∧ p.getCluster = (i : Int) ∧
        km.clusters[i]? = some (Cluster.ofSeed (i : Int) p) ∧
        ∀ (t : Nat) (c : Cluster), t ≠ i → km.clusters[t]? = some c →
          Dbl.lt (Dbl.fin 0) (IEEE.sqDist c.central_values p.values) = true) :
    IEEE.assignPhase km sch pts =
      Except.ok { clusters := km.clusters, points := pts, done := true } := by
  refine forLoop_seq km.total_points (fun i s => IEEE.assignPoint km (sch i) i s)
    (fun _ => { clusters := km.clusters, points := pts, done := true }) ?_
  intro k hk
  have hklt : k < pts.length := by
    have := hps.1
    omega
  have hp : pts[k]? = some (pts.get ⟨k, hklt⟩) := by
    simp [List.getElem?_eq_getElem hklt]
  generalize pts.get ⟨k, hklt⟩ = p at hp
  have hpmem : p ∈ pts := List.mem_iff_getElem?.mpr ⟨k, hp⟩
  obtain ⟨i, hilt, htag, hci, hother⟩ := hsing k p hp
  have hdi : IEEE.dist km p i = Dbl.fin 0 := by
    unfold IEEE.dist
    rw [hci]
    exact IEEE.sqDist_same p.values
  have hnear : IEEE.getIDNearestCenter { km with clusters := km.clusters } (sch k) p =
      Except.ok (i : Int) := by
    apply IEEE.getIDNearestCenter_only km (sch k) p i
      ⟨hcs.1, hcs.2.1, hps.2.1 p hpmem⟩ (hv k) hilt
    · rw [hdi]
      simp [Dbl.lt, zero_lt_DBL_MAX]
    · intro t ht hti
      have htl : t < km.clusters.length := by
        rw [hcs.1]
        exact ht
      rw [hdi]
      unfold IEEE.dist
      rw [List.getElem?_eq_getElem htl]
      exact hother t _ hti (List.getElem?_eq_getElem htl)
  exact IEEE.assignPoint_stays km (sch k) k
    { clusters := km.clusters, points := pts, done := true } p (i : Int) hp hnear htag

theorem Dbl.divInt_fin (a : ℚ) (n : Int) (hn : n ≠ 0) :
    Dbl.divInt (Dbl.fin a) n = roundDouble (a / (n : ℚ)) := by
  simp [Dbl.divInt, hn]

/-- The computed mean over the single member of a seeded cluster is the coordinate of the
seed when that is a `double`. -/
theorem IEEE.mean_ofSeed (id : Int) (p : Point) (j : Nat) (hj : j < p.values.length)
    (hd : ∀ x ∈ p.values, IsDouble x) :
    IEEE.mean (Cluster.ofSeed id p) j =
      Dbl.fin ((Cluster.ofSeed id p).central_values.getD j 0) := by
  have hx : IsDouble (p.values.getD j 0) := by
    apply hd
    rw [List.getD_eq_getElem?_getD, List.getElem?_eq_getElem hj]
    exact List.getElem_mem hj
  have hx1 : roundDouble (p.values.getD j 0) = Dbl.fin (p.values.getD j 0) := hx
  show Dbl.divInt (Dbl.add (Dbl.fin 0) (Dbl.fin (p.values.getD j 0))) ((1 : Nat) : Int) =
    Dbl.fin (p.values.getD j 0)
  have hadd : Dbl.add (Dbl.fin 0) (Dbl.fin (p.values.getD j 0)) =
      Dbl.fin (p.values.getD j 0) := by
    show roundDouble (0 + p.values.getD j 0) = Dbl.fin (p.values.getD j 0)
    rw [zero_add, hx1]
  rw [hadd, Dbl.divInt_fin _ _ (by decide)]
  simp only [Nat.cast_one, Int.cast_one, div_one]
  exact hx1

/-- C15 (amended): when `K` equals the point count (`K ≥ 1`, a fresh input with unique
point ids and coordinates that are `double`s), then once the initialization has finished
every point is the only member of the cluster its `clusterId` names and every cluster has
exactly one member; and when moreover any two different points are at a squared distance
that, as computed in `double`, is above 0, the first assignment phase changes nothing under
every valid schedule, and `run` completes at iteration 1 with `done` set, the clusters and
points being those the initialization left, every cluster holding exactly one point. -/
theorem IEEE.run_singleton_clusters (km : KMeans) (rand : List Nat)
    (sched : Int → Nat → List (List Nat)) (points : List Point) (s0 : InitState)
    (hf : km.FreshInput points) (hKn : km.K = km.total_points)
    (hdbl : ∀ p ∈ points, ∀ x ∈ p.values, IsDouble x)
    (hv : ∀ it i, km.ValidSchedule (sched it i))
    (h : km.initialize rand points = Except.ok s0) :
    (∀ (j : Nat) (p : Point), s0.points[j]? = some p → ∃ (t : Nat) (c : Cluster),
      p.getCluster = (t : Int) ∧ s0.clusters[t]? = some c ∧ c.points = [p]) ∧
    (∀ c ∈ s0.clusters, c.points.length = 1) ∧
    ((∀ p ∈ points, ∀ q ∈ points, p.getID ≠ q.getID →
        Dbl.lt (Dbl.fin 0) (IEEE.sqDist p.values q.values) = true) →
      IEEE.assignPhase { km with clusters := s0.clusters } (sched 1) s0.points =
        Except.ok { clusters := s0.clusters, points := s0.points, done := true } ∧
      ∃ r, IEEE.run km rand sched points = Except.ok (Outcome.completed r) ∧ r.iter = 1 ∧
        r.done = true ∧ r.km.clusters = s0.clusters ∧ r.points = s0.points ∧
        ∀ c ∈ r.km.clusters, c.points.length = 1) := by
  have hsing := km.initialize_own_cluster rand points s0 hf hKn h
  obtain ⟨hcs, hps, _, _, _⟩ := km.initialize_entry rand points s0 hf h
  have hcs1 : km.ClustersReady s0.clusters := hcs
  have hseeds : ∀ c ∈ s0.clusters, ∃ (t : Int) (pt : Point), pt ∈ points ∧
      c = Cluster.ofSeed t (pt.setCluster t) := by
    obtain ⟨_, _, _, hseed, _⟩ := km.initialize_seeds_inv rand points s0 hf.1 (fun p hp => by
      obtain ⟨a1, a2, _⟩ := hf.2.2.2.2.1 p hp
      rw [a2, a1]) h
    obtain ⟨g1, g2, _⟩ := km.initialize_chosen rand points s0 hf.2.2.1 h
    intro c hc
    obtain ⟨t, ht⟩ := List.mem_iff_getElem?.mp hc
    have htlt : t < s0.prohibited_indexes.length := by
      have := (List.getElem?_eq_some.mp ht).1
      have hz : km.clusters.length = 0 := by rw [hf.1]; rfl
      omega
    obtain ⟨_, pt, hpt, hct, _⟩ := hseed t _ (List.getElem?_eq_getElem htlt)
    rw [ht] at hct
    exact ⟨(t : Int), pt, List.mem_iff_getElem?.mpr ⟨_, hpt⟩, Option.some.inj hct⟩
  have hone : ∀ c ∈ s0.clusters, c.points.length = 1 := by
    intro c hc
    obtain ⟨t, pt, _, rfl⟩ := hseeds c hc
    rfl
  refine ⟨?_, hone, ?_⟩
  · intro j p hj
    obtain ⟨i, _, htag, hci, _⟩ := hsing j p hj
    exact ⟨i, _, htag, hci, rfl⟩
  intro hsep
  have hassign := IEEE.assignPhase_unmoved { km with clusters := s0.clusters } (sched 1)
    s0.points (hv 1) hcs hps (by
      intro j p hj
      obtain ⟨i, hilt, htag, hci, p0, hp0, hval, hother⟩ := hsing j p hj
      refine ⟨i, hilt, htag, hci, ?_⟩
      intro t c hti hc
      obtain ⟨j1, q, hne, hq, hcv⟩ := hother t c hti hc
      rw [hcv, hval]
      apply hsep q (List.mem_iff_getElem?.mpr ⟨j1, hq⟩) p0 (List.mem_iff_getElem?.mpr ⟨j, hp0⟩)
      intro hid
      exact hne (ids_inj points hf.2.2.2.2.2 j j1 p0 q hp0 hq hid))
  refine ⟨hassign, ?_⟩
  have hrec : IEEE.recomputePhase { km with clusters := s0.clusters } =
      Except.ok s0.clusters := by
    apply IEEE.recomputePhase_fixed { km with clusters := s0.clusters } hcs
    intro c hc _ j hj
    obtain ⟨t, pt, hpt, rfl⟩ := hseeds c hc
    have hlen : (Cluster.ofSeed t (pt.setCluster t)).central_values.length =
        km.total_values.toNat := hcs1.2.1 _ hc
    exact IEEE.mean_ofSeed t (pt.setCluster t) j (by rw [← hlen] at hj; exact hj)
      (hdbl pt hpt)
  have hloop := IEEE.loop_stops { km with clusters := s0.clusters } sched s0.points 1
    (initTrace s0) _ _ hassign hrec (Or.inl rfl)
  have hK : ¬ km.K > km.total_points := by omega
  refine ⟨{ km := { km with clusters := s0.clusters }, points := s0.points, iter := 1
            done := true
            trace := initTrace s0 ++ iterationTrace 1 s0.clusters s0.clusters s0.points },
    ?_, rfl, rfl, rfl, rfl, hone⟩
  simp only [IEEE.run, hK, if_false, h, Fault.ok_bind]
  simp only [initTrace] at hloop
  rw [hloop]
  rfl

/-- C15, witness: two clusters over the two points `0` and `5`, whose computed squared
distance is 25; the draws choose the second point first. -/
theorem IEEE.run_singleton_clusters_witness :
    ∃ s0, twinKM.initialize [1, 0] twoPoints = Except.ok s0 ∧
    (∀ (j : Nat) (p : Point), s0.points[j]? = some p → ∃ (t : Nat) (c : Cluster),
      p.getCluster = (t : Int) ∧ s0.clusters[t]? = some c ∧ c.points = [p]) ∧
    (∀ c ∈ s0.clusters, c.points.length = 1) ∧
    IEEE.assignPhase { twinKM with clusters := s0.clusters } (twinSched 1) s0.points =
      Except.ok { clusters := s0.clusters, points := s0.points, done := true } ∧
    ∃ r, IEEE.run twinKM [1, 0] twinSched twoPoints = Except.ok (Outcome.completed r) ∧
      r.iter = 1 ∧ r.done = true ∧ r.km.clusters = s0.clusters ∧ r.points = s0.points ∧
      ∀ c ∈ r.km.clusters, c.points.length = 1 :=
  ⟨_, rfl,
    (IEEE.run_singleton_clusters twinKM [1, 0] twinSched twoPoints _ twinKM_freshTwo rfl
      (by decide!) twinKM_valid rfl).1,
    (IEEE.run_singleton_clusters twinKM [1, 0] twinSched twoPoints _ twinKM_freshTwo rfl
      (by decide!) twinKM_valid rfl).2.1,
    (IEEE.run_singleton_clusters twinKM [1, 0] twinSched twoPoints _ twinKM_freshTwo rfl
      (by decide!) twinKM_valid rfl).2.2 (by decide!)⟩

theorem twinKM_freshTiny : twinKM.FreshInput tinyPoints := by
  unfold KMeans.FreshInput twinKM tinyPoints
  decide

/-- C15, counterexample: `K = 2` and two points with unique ids, every search scanning the
clusters in ascending order. With the two points at the same coordinate `0`, and also with
the two points at the different coordinates `0` and `2^(-600)`, whose squared distance
`2^(-1200)` is computed as 0: each point seeds its own cluster, the search for the second
point finds no centroid strictly nearer than that of cluster 0 and returns 0, the first
assignment phase moves the second point and clears `done`, and the run ends at iteration 2
with two members in cluster 0 and none in cluster 1. -/
theorem IEEE.run_twins_join :
    twinKM.FreshInput twinPoints ∧ twinKM.FreshInput tinyPoints ∧
    twinKM.K = twinKM.total_points ∧
    (∀ p ∈ tinyPoints, ∀ x ∈ p.values, IsDouble x) ∧
    (tinyPoints.map Point.values).Nodup ∧
    (∀ it i, twinKM.ValidSchedule (ascending it i)) ∧
    twinKM.initialize [0, 1] twinPoints = Except.ok twinSeeded ∧
    (∃ s, IEEE.assignPhase { twinKM with clusters := twinSeeded.clusters } (ascending 1)
        twinSeeded.points = Except.ok s ∧ s.done = false ∧
      s.points.map Point.getCluster = [0, 0]) ∧
    (∃ r, IEEE.run twinKM [0, 1] ascending twinPoints = Except.ok (Outcome.completed r) ∧
      r.iter = 2 ∧ r.km.clusters.map (fun c => c.points.length) = [2, 0]) ∧
    ∃ r, IEEE.run twinKM [0, 1] ascending tinyPoints = Except.ok (Outcome.completed r) ∧
      r.iter = 2 ∧ r.km.clusters.map (fun c => c.points.length) = [2, 0] := by
  refine ⟨twinKM_fresh, twinKM_freshTiny, rfl, by decide!, by decide!, twinKM_ascending, rfl,
    ?_, ?_, ?_⟩
  · have h : Fault.holds
        (IEEE.assignPhase { twinKM with clusters := twinSeeded.clusters } (ascending 1)
          twinSeeded.points)
        (fun s => decide (s.done = false ∧ s.points.map Point.getCluster = [0, 0])) = true := by
      decide!
    obtain ⟨s, hs, hP⟩ := Fault.exists_of_holds _ _ h
    exact ⟨s, hs, of_decide_eq_true hP⟩
  · have h : Fault.holds (IEEE.run twinKM [0, 1] ascending twinPoints)
        (Outcome.completedWith (fun r => decide (r.iter = 2 ∧
          r.km.clusters.map (fun c => c.points.length) = [2, 0]))) = true := by
      decide!
    obtain ⟨r, hr, hP⟩ := Outcome.exists_of_completedWith _ _ h
    exact ⟨r, hr, of_decide_eq_true hP⟩
  · have h : Fault.holds (IEEE.run twinKM [0, 1] ascending tinyPoints)
        (Outcome.completedWith (fun r => decide (r.iter = 2 ∧
          r.km.clusters.map (fun c => c.points.length) = [2, 0]))) = true := by
      decide!
    obtain ⟨r, hr, hP⟩ := Outcome.exists_of_completedWith _ _ h
    exact ⟨r, hr, of_decide_eq_true hP⟩

/-! ## Runs in binary64 on every safe input -/

/-- A round of the loop over the dimensions in binary64 keeps the shape of the clusters, or
the computed mean is not finite. -/
theorem IEEE.recomputeValue_total (km : KMeans) (cs : List Cluster) (i j : Nat)
    (hr : km.ClustersReady cs) (hi : i < km.K.toNat) (hj : j < km.total_values.toNat) :
    (∃ cs2, IEEE.recomputeValue i j cs = Except.ok cs2 ∧ km.ClustersReady cs2) ∨
      IEEE.recomputeValue i j cs = Except.error Fault.notFinite := by
  obtain ⟨hlen, hcv, hv⟩ := hr
  have hilt : i < cs.length := by omega
  have hi1 : cs[i]? = some (cs.get ⟨i, hilt⟩) := by
    simp [List.getElem?_eq_getElem hilt]
  generalize cs.get ⟨i, hilt⟩ = c at hi1
  have hcm : c ∈ cs := List.mem_iff_getElem?.mpr ⟨i, hi1⟩
  by_cases hne : c.points.length = 0
  · left
    refine ⟨cs, ?_, hlen, hcv, hv⟩
    simp [IEEE.recomputeValue, vecGet_of_getElem? cs i c hi1, Fault.ok_bind,
      Cluster.getTotalPoints, hne, Fault.pure_eq]
  · have hsum := IEEE.sumLoop_dbl cs i j c hi1 (by
      intro q hq
      rw [hv c hcm q hq]
      exact hj)
    have hpos : (0 : Int) < (c.points.length : Int) := by omega
    have hjc : j < c.central_values.length := by
      rw [hcv c hcm]
      exact hj
    have hcj : c.central_values[j]? = some (c.central_values.get ⟨j, hjc⟩) := by
      simp [List.getElem?_eq_getElem hjc]
    simp only [Cluster.getTotalPoints] at hsum
    cases hm : Dbl.divInt ((c.points.map (fun q => q.values.getD j 0)).foldl
        (fun sum v => Dbl.add sum (Dbl.fin v)) (Dbl.fin 0)) (c.points.length : Int) with
    | fin m =>
      left
      refine ⟨cs.set i { c with central_values := c.central_values.set j m }, ?_, ?_, ?_, ?_⟩
      · simp only [IEEE.recomputeValue, vecGet_of_getElem? cs i c hi1, Fault.ok_bind,
          Cluster.getTotalPoints, gt_iff_lt, hpos, if_true, hsum, hm, Dbl.toFinite,
          Cluster.setCentralValue, vecSet_of_getElem? _ j _ _ hcj, Fault.pure_eq]
        rw [vecSet_of_getElem? cs i c _ hi1]
      · rw [List.length_set]
        exact hlen
      · intro c2 hc2
        rcases List.mem_or_eq_of_mem_set hc2 with h | rfl
        · exact hcv c2 h
        · show (c.central_values.set j m).length = km.total_values.toNat
          rw [List.length_set]
          exact hcv c hcm
      · intro c2 hc2 q hq
        rcases List.mem_or_eq_of_mem_set hc2 with h | rfl
        · exact hv c2 h q hq
        · exact hv c hcm q hq
    | inf s =>
      right
      simp only [IEEE.recomputeValue, vecGet_of_getElem? cs i c hi1, Fault.ok_bind,
        Cluster.getTotalPoints, gt_iff_lt, hpos, if_true, hsum, hm, Dbl.toFinite]
      rfl
    | nan =>
      right
      simp only [IEEE.recomputeValue, vecGet_of_getElem? cs i c hi1, Fault.ok_bind,
        Cluster.getTotalPoints, gt_iff_lt, hpos, if_true, hsum, hm, Dbl.toFinite]
      rfl

/-- The recompute phase in binary64 keeps the shape of the clusters, or a computed mean is
not finite. -/
theorem IEEE.recomputePhase_total (km : KMeans) (hr : km.ClustersReady km.clusters) :
    (∃ cs2, IEEE.recomputePhase km = Except.ok cs2 ∧ km.ClustersReady cs2) ∨
      IEEE.recomputePhase km = Except.error Fault.notFinite := by
  refine forLoop_inv_or km.K (IEEE.recomputeCluster km) (fun _ cs => km.ClustersReady cs)
    Fault.notFinite ?_ km.clusters hr
  intro i hi cs hcs
  exact forLoop_inv_or km.total_values (IEEE.recomputeValue i)
    (fun _ cs1 => km.ClustersReady cs1) Fault.notFinite
    (fun j hj cs1 hcs1 => IEEE.recomputeValue_total km cs1 i j hcs1 hi hj) cs hcs

theorem IEEE.loop_fault (km : KMeans) (sched : Int → Nat → List (List Nat))
    (pts : List Point) (iter : Int) (trace : List Snapshot) (s : PhaseState) (e : Fault)
    (h1 : IEEE.assignPhase km (sched iter) pts = Except.ok s)
    (h2 : IEEE.recomputePhase { km with clusters := s.clusters } = Except.error e) :
    IEEE.loop km sched pts iter trace = Except.error e := by
  rw [IEEE.loop]
  simp only [h1, Fault.ok_bind, h2]
  rfl

/-- The convergence loop in binary64 on a state of the right shape: it ends with a state of
the right shape and an iteration count within the cap once it moves, or a computed mean is
not finite. -/
theorem IEEE.loop_total (sched : Int → Nat → List (List Nat)) (km0 : KMeans)
    (hK : 1 ≤ km0.K) (hv : ∀ it i, km0.ValidSchedule (sched it i)) :
    ∀ (m : Nat) (cs : List Cluster) (pts : List Point) (iter : Int) (trace : List Snapshot),
      (km0.max_iterations - iter).toNat = m → km0.ClustersReady cs → km0.PointsReady pts →
      (∃ r, IEEE.loop { km0 with clusters := cs } sched pts iter trace = Except.ok r ∧
        iter ≤ r.iter ∧ (r.iter ≤ iter ∨ r.iter ≤ km0.max_iterations) ∧
        km0.ClustersReady r.km.clusters ∧ km0.PointsReady r.points) ∨
      IEEE.loop { km0 with clusters := cs } sched pts iter trace =
        Except.error Fault.notFinite := by
  intro m
  induction m with
  | zero =>
    intro cs pts iter trace hm hcs hps
    obtain ⟨s, hs, ⟨a1, a2, _⟩, _⟩ := IEEE.assignPhase_shape { km0 with clusters := cs }
      (sched iter) pts hK (hv iter) hcs hps (fun _ _ => True) trivial
      (fun _ _ _ _ _ _ _ => trivial)
    have a1r : km0.ClustersReady s.clusters := a1
    rcases IEEE.recomputePhase_total { km0 with clusters := s.clusters } a1r with
      ⟨cs2, hr, hcs2⟩ | herr
    · have hge : iter ≥ km0.max_iterations := by omega
      exact Or.inl ⟨_, IEEE.loop_stops { km0 with clusters := cs } sched pts iter trace s _ hs
        hr (Or.inr hge), le_rfl, Or.inl le_rfl, hcs2, a2⟩
    · exact Or.inr (IEEE.loop_fault { km0 with clusters := cs } sched pts iter trace s _ hs
        herr)
  | succ m ih =>
    intro cs pts iter trace hm hcs hps
    obtain ⟨s, hs, ⟨a1, a2, _⟩, _⟩ := IEEE.assignPhase_shape { km0 with clusters := cs }
      (sched iter) pts hK (hv iter) hcs hps (fun _ _ => True) trivial
      (fun _ _ _ _ _ _ _ => trivial)
    have a1r : km0.ClustersReady s.clusters := a1
    rcases IEEE.recomputePhase_total { km0 with clusters := s.clusters } a1r with
      ⟨cs2, hr, hcs2⟩ | herr
    · by_cases hdone : s.done = true
      · exact Or.inl ⟨_, IEEE.loop_stops { km0 with clusters := cs } sched pts iter trace s _
          hs hr (Or.inl hdone), le_rfl, Or.inl le_rfl, hcs2, a2⟩
      · have hlt : iter < km0.max_iterations := by omega
        have hcont : ¬ (s.done = true ∨ iter ≥ km0.max_iterations) := by
          intro h
          rcases h with h | h
          · exact hdone h
          · omega
        rw [IEEE.loop_goes_on { km0 with clusters := cs } sched pts iter trace s _ hs hr
          hcont]
        rcases ih cs2 s.points (iter + 1)
            (trace ++ iterationTrace iter s.clusters cs2 s.points) (by omega) hcs2 a2 with
          ⟨r, hrr, q1, q2, q3, q4⟩ | herr
        · refine Or.inl ⟨r, hrr, by omega, ?_, q3, q4⟩
          right
          rcases q2 with h | h
          · omega
          · exact h
        · exact Or.inr herr
    · exact Or.inr (IEEE.loop_fault { km0 with clusters := cs } sched pts iter trace s _ hs
        herr)

/-- Once the draws suffice for the initialization of a safe input, `run` in binary64
completes with a state of the right shape and an iteration count of at least 1 that is
within the cap once the loop moves, or a computed mean is not finite. -/
theorem IEEE.run_total (km : KMeans) (rand : List Nat) (sched : Int → Nat → List (List Nat))
    (points : List Point) (s0 : InitState) (hs : km.SafeInput points)
    (hv : ∀ it i, km.ValidSchedule (sched it i))
    (h : km.initialize rand points = Except.ok s0) :
    (∃ r, IEEE.run km rand sched points = Except.ok (Outcome.completed r) ∧
      1 ≤ r.iter ∧ (r.iter ≤ 1 ∨ r.iter ≤ km.max_iterations) ∧
      km.ClustersReady r.km.clusters ∧ km.PointsReady r.points) ∨
    IEEE.run km rand sched points = Except.error Fault.notFinite := by
  have hsh : km.InitShape km.K.toNat s0 := by
    rcases km.initialize_shape rand points hs with ⟨s1, h1, hsh⟩ | herr
    · rw [h] at h1
      rw [Except.ok.inj h1]
      exact hsh
    · rw [h] at herr
      exact absurd herr (by simp)
  obtain ⟨c1, c2, c3, c4, _⟩ := hsh
  have hcs : km.ClustersReady s0.clusters := ⟨c1, c2, c3⟩
  have hK : ¬ km.K > km.total_points := by
    have := hs.2.2.1
    omega
  rcases IEEE.loop_total sched km hs.2.1 hv _ s0.clusters s0.points 1 (initTrace s0) rfl hcs
    c4 with ⟨r, hr, q1, q2, q3, q4⟩ | herr
  · refine Or.inl ⟨r, ?_, q1, q2, q3, q4⟩
    simp only [IEEE.run, hK, if_false, h, Fault.ok_bind]
    simp only [initTrace] at hr
    rw [hr]
    rfl
  · right
    simp only [IEEE.run, hK, if_false, h, Fault.ok_bind]
    simp only [initTrace] at herr
    rw [herr]
    rfl

/-- On a safe input whose draws do not suffice for the initialization, `run` in binary64
ends when the stream is used up. -/
theorem IEEE.run_draws_used_up (km : KMeans) (rand : List Nat)
    (sched : Int → Nat → List (List Nat)) (points : List Point) (hs : km.SafeInput points)
    (h : km.initialize rand points = Except.error Fault.randExhausted) :
    IEEE.run km rand sched points = Except.error Fault.randExhausted := by
  have hK : ¬ km.K > km.total_points := by
    have := hs.2.2.1
    omega
  simp only [IEEE.run, hK, if_false, h]
  rfl

/-! ## Points with the same coordinates, in binary64 -/

/-- C20: on the engine and the points the constructors build (a new engine, points that
report their coordinate count and are unassigned; a cluster id in `[0, K)` is admitted too),
with `1 ≤ K ≤ total_points`, exactly `total_points` points and exactly `total_values`
coordinates in each, no indexed access of `run` is out of range and no division is by zero,
whatever the draws and the schedules. Every indexed access of the embedding is checked, so
this covers the ids the search returns, the old cluster ids that index `clusters` (`-1` is
not used as an index), the coordinate and centroid indices and the member indices. Once the
draws suffice for the initialization, `run` completes, and in its final state there are `K`
clusters whose centroids and members have `total_values` coordinates and every cluster id of
a point is `-1` or in `[0, K)`. The same holds of `run` with the arithmetic of binary64,
which completes unless a recomputed centroid component is not finite. -/
theorem KMeans.run_in_range (km : KMeans) (rand : List Nat)
    (sched : Int → Nat → List (List Nat)) (points : List Point) (hs : km.SafeInput points)
    (hv : ∀ it i, km.ValidSchedule (sched it i)) :
    km.run rand sched points ≠ Except.error Fault.indexOutOfRange ∧
    km.run rand sched points ≠ Except.error Fault.divisionByZero ∧
    (∀ s0, km.initialize rand points = Except.ok s0 →
      ∃ r, km.run rand sched points = Except.ok (Outcome.completed r) ∧
        km.ClustersReady r.km.clusters ∧ km.PointsReady r.points) ∧
    IEEE.run km rand sched points ≠ Except.error Fault.indexOutOfRange ∧
    IEEE.run km rand sched points ≠ Except.error Fault.divisionByZero ∧
    (∀ s0, km.initialize rand points = Except.ok s0 →
      (∃ r, IEEE.run km rand sched points = Except.ok (Outcome.completed r) ∧
        km.ClustersReady r.km.clusters ∧ km.PointsReady r.points) ∨
      IEEE.run km rand sched points = Except.error Fault.notFinite) := by
  rcases km.initialize_shape rand points hs with ⟨s0, h0, _⟩ | herr
  · obtain ⟨r, hr, _, _, _, _, _, q4, q5, _⟩ := km.run_gen rand sched points s0
      (fun _ _ => True) hs hv h0 (fun _ _ => trivial) (fun _ _ _ _ _ _ _ _ _ => trivial)
      (fun _ _ _ _ _ => trivial)
    refine ⟨Fault.ne_of_ok _ _ _ hr, Fault.ne_of_ok _ _ _ hr, fun s1 _ => ⟨r, hr, q4, q5⟩,
      ?_⟩
    rcases IEEE.run_total km rand sched points s0 hs hv h0 with ⟨r2, hr2, _, _, g3, g4⟩ | herr
    · exact ⟨Fault.ne_of_ok _ _ _ hr2, Fault.ne_of_ok _ _ _ hr2,
        fun s1 _ => Or.inl ⟨r2, hr2, g3, g4⟩⟩
    · refine ⟨?_, ?_, fun s1 _ => Or.inr herr⟩
      · rw [herr]
        intro h1
        cases h1
      · rw [herr]
        intro h1
        cases h1
  · have hrun := km.run_exhausted rand sched points hs herr
    have hrun2 := IEEE.run_draws_used_up km rand sched points hs herr
    refine ⟨?_, ?_, ?_, ?_, ?_, ?_⟩
    · rw [hrun]
      intro h1
      cases h1
    · rw [hrun]
      intro h1
      cases h1
    · intro s0 h0
      rw [h0] at herr
      cases herr
    · rw [hrun2]
      intro h1
      cases h1
    · rw [hrun2]
      intro h1
      cases h1
    · intro s0 h0
      rw [h0] at herr
      cases herr

theorem soloKM_safe : soloKM.SafeInput twoPoints := by
  unfold KMeans.SafeInput soloKM twoPoints
  decide

/-- C20, witness: a run of one cluster over two points. -/
theorem KMeans.run_in_range_witness :
    soloKM.run [0] soloSched twoPoints ≠ Except.error Fault.indexOutOfRange ∧
    soloKM.run [0] soloSched twoPoints ≠ Except.error Fault.divisionByZero ∧
    (∀ s0, soloKM.initialize [0] twoPoints = Except.ok s0 →
      ∃ r, soloKM.run [0] soloSched twoPoints = Except.ok (Outcome.completed r) ∧
        soloKM.ClustersReady r.km.clusters ∧ soloKM.PointsReady r.points) ∧
    IEEE.run soloKM [0] soloSched twoPoints ≠ Except.error Fault.indexOutOfRange ∧
    IEEE.run soloKM [0] soloSched twoPoints ≠ Except.error Fault.divisionByZero ∧
    (∀ s0, soloKM.initialize [0] twoPoints = Except.ok s0 →
      (∃ r, IEEE.run soloKM [0] soloSched twoPoints = Except.ok (Outcome.completed r) ∧
        soloKM.ClustersReady r.km.clusters ∧ soloKM.PointsReady r.points) ∨
      IEEE.run soloKM [0] soloSched twoPoints = Except.error Fault.notFinite) :=
  KMeans.run_in_range soloKM [0] soloSched twoPoints soloKM_safe soloKM_valid

/-- Where the embedding in binary64 ends a run: with three points at `2^1023` the first
assignment phase gathers them in cluster 0 and the sum of their coordinates overflows; the
program stores the infinity as the centroid, the embedding ends in `Fault.notFinite`. -/
theorem IEEE.run_sum_overflows :
    tenthKM.FreshInput hugePoints ∧ (∀ p ∈ hugePoints, ∀ x ∈ p.values, IsDouble x) ∧
    IEEE.meanOfCopies 3 (2 ^ 1023) = Dbl.inf false ∧
    Fault.of (IEEE.run tenthKM [0, 1, 2] ascending3 hugePoints) = some Fault.notFinite := by
  refine ⟨?_, by decide!, by decide!, by decide!⟩
  unfold KMeans.FreshInput tenthKM hugePoints
  decide
